import Mathlib

/-!
# Parallel STL dispatch core: embedding and verification

Shallow embedding of `include/pstl/internal/algorithm_impl.h` (bricks and patterns) and
`include/pstl/internal/parallel_impl_openmp.h` (the parallel backend primitives).

Conventions of the embedding.

* A random-access iterator is a position `Nat` into a memory region; a region holding
  elements of type `α` is a total function `Nat → α`.  Writing through an iterator is
  `Function.update`.  Input and output regions are distinct memories (the algorithms
  require non-overlapping input and output).
* A loop `for (; first != last; ++first)` over a valid range runs `last - first` times;
  the loop functions recurse on that count.
* Callbacks with side effects (payload functions, the `reduce`/`scan`/`apex` bodies handed
  to a primitive) are state transformers over an explicit state.
* Tag dispatch (`std::false_type` / `std::true_type` overloads) is a `Bool` argument.  Only the
  scalar (`/*vector=*/std::false_type`) bricks are embedded where the vectorised ones forward
  to `simd_impl.h`; for the algorithms redirected to serial both overloads are embedded.
-/

namespace std

/-- Sequential reference `std::copy_if` loop: `k` remaining input positions from `first`,
writing the selected elements at `result`. -/
def copy_if.loop {α : Type} (x : Nat → α) (pred : α → Bool) :
    Nat → Nat → (Nat → α) → Nat → (Nat → α) × Nat
  | 0, _, out, result => (out, result)
  | k + 1, first, out, result =>
    if pred (x first) then
      copy_if.loop x pred k (first + 1) (Function.update out result (x first)) (result + 1)
    else
      copy_if.loop x pred k (first + 1) out result

/-- Sequential reference `std::copy_if(first, last, result, pred)`; returns the output memory
and the returned output iterator. -/
def copy_if {α : Type} (x : Nat → α) (first last : Nat) (out : Nat → α) (result : Nat)
    (pred : α → Bool) : (Nat → α) × Nat :=
  copy_if.loop x pred (last - first) first out result

/-- The elements `std::copy_if` selects from `[first, first + k)`, in input order. -/
def selected {α : Type} (x : Nat → α) (pred : α → Bool) (first k : Nat) : List α :=
  ((List.range' first k).map x).filter pred

end std

namespace pstl

/-- Modelled from the spec: `except_handler` (the Failure Adapter, declared outside the
translated headers) runs the parallel entry point and hands its result back; payloads here are
total functions, so no backend failure is raised inside it. -/
def except_handler {β : Type} (f : Unit → β) : β := f ()

namespace par_backend

/-- Result of `raw_buffer(bytes)`: `operator new(bytes, std::nothrow)` either yields a
buffer (with unspecified contents) or a null pointer. -/
abbrev raw_buffer (τ : Type) := Option (Nat → τ)

/-- Loop of `split`: `while( 2*k<m ) k*=2;`, bounded by a fuel argument. -/
def split.loop (m : Nat) : Nat → Nat → Nat
  | 0, k => k
  | fuel + 1, k => if 2 * k < m then split.loop m fuel (k * 2) else k

/-- Embedding of `split(m)`: `Index k = 1; while( 2*k<m ) k*=2; return k;`. -/
def split (m : Nat) : Nat := split.loop m m 1

/-- Embedding of `upsweep(i, m, tilesize, r, lastsize, reduce, combine)` as it stands in the
backend: a leaf reduces its tile into `r[0]`; otherwise only the `m == 2*k` combine remains. -/
def upsweep {T σ : Type} (i m tilesize : Nat) (r : Nat → T) (lastsize : Nat)
    (reduce : Nat → Nat → σ → T × σ) (combine : T → T → T) (s : σ) : (Nat → T) × σ :=
  if m = 1 then
    let v := reduce (i * tilesize) lastsize s
    (Function.update r 0 v.1, v.2)
  else
    let k := split m
    if m = 2 * k then
      (Function.update r (m - 1) (combine (r (k - 1)) (r (m - 1))), s)
    else
      (r, s)

/-- Embedding of `downsweep(i, m, tilesize, r, lastsize, initial, combine, scan)` as it stands
in the backend: a leaf calls `scan`; otherwise it only computes `split(m)`. -/
def downsweep {T σ : Type} (i m tilesize : Nat) (_r : Nat → T) (lastsize : Nat) (initial : T)
    (_combine : T → T → T) (scan : Nat → Nat → T → σ → σ) (s : σ) : σ :=
  if m = 1 then
    scan (i * tilesize) lastsize initial s
  else
    s

/-- Embedding of `parallel_strict_scan(n, initial, reduce, combine, scan, apex)`: the body in
the backend is empty, so none of the callbacks runs and the state is returned as it was. -/
def parallel_strict_scan {T σ : Type} (_n : Nat) (_initial : T)
    (_reduce : Nat → Nat → σ → T × σ) (_combine : T → T → T)
    (_scan : Nat → Nat → T → σ → σ) (_apex : T → σ → σ) (s : σ) : σ :=
  s

end par_backend

namespace internal

/-- Embedding of scalar `brick_copy_if`: forwards to `std::copy_if`. -/
def brick_copy_if {α : Type} (x : Nat → α) (first last : Nat) (out : Nat → α) (result : Nat)
    (pred : α → Bool) : (Nat → α) × Nat :=
  std.copy_if x first last out result pred

/-- Loop of scalar `brick_calc_mask_1`: `*mask = pred(*first); if (*mask) ++count_true;`
for `k` remaining positions. -/
def brick_calc_mask_1.loop {α : Type} (x : Nat → α) (pred : α → Bool) :
    Nat → Nat → Nat → (Nat → Bool) → Nat → (Nat → Bool) × Nat
  | 0, _, _, mask, count_true => (mask, count_true)
  | k + 1, first, maskp, mask, count_true =>
    let mask' := Function.update mask maskp (pred (x first))
    brick_calc_mask_1.loop x pred k (first + 1) (maskp + 1) mask'
      (if mask' maskp then count_true + 1 else count_true)

/-- Embedding of scalar `brick_calc_mask_1(first, last, mask, pred)`; `maskp` is the position
the `mask` pointer designates in the mask buffer.  Returns the mask buffer and the pair
`(count_true, size - count_true)`. -/
def brick_calc_mask_1 {α : Type} (x : Nat → α) (first last : Nat) (mask : Nat → Bool)
    (maskp : Nat) (pred : α → Bool) : (Nat → Bool) × (Nat × Nat) :=
  let size := last - first
  let r := brick_calc_mask_1.loop x pred size first maskp mask 0
  (r.1, (r.2, size - r.2))

/-- Loop of scalar `brick_copy_by_mask`: `if (*mask) { *result = *first; ++result; }`
for `k` remaining positions. -/
def brick_copy_by_mask.loop {α : Type} (x : Nat → α) (mask : Nat → Bool) :
    Nat → Nat → Nat → (Nat → α) → Nat → (Nat → α)
  | 0, _, _, out, _ => out
  | k + 1, first, maskp, out, result =>
    if mask maskp then
      brick_copy_by_mask.loop x mask k (first + 1) (maskp + 1)
        (Function.update out result (x first)) (result + 1)
    else
      brick_copy_by_mask.loop x mask k (first + 1) (maskp + 1) out result

/-- Embedding of scalar `brick_copy_by_mask(first, last, result, mask)`; `maskp` is the
position the `mask` pointer designates in the mask buffer. -/
def brick_copy_by_mask {α : Type} (x : Nat → α) (first last : Nat) (out : Nat → α)
    (result : Nat) (mask : Nat → Bool) (maskp : Nat) : Nat → α :=
  brick_copy_by_mask.loop x mask (last - first) first maskp out result

/-- State the lambdas of the parallel `pattern_copy_if` act on: the mask buffer, the output
memory and the local `difference_type m`. -/
structure CopyIfState (α : Type) where
  /-- Contents of the mask buffer. -/
  mask : Nat → Bool
  /-- Contents of the output memory. -/
  out : Nat → α
  /-- The local variable `m`. -/
  m : Nat

/-- The `Reduce` lambda of the parallel `pattern_copy_if`:
`brick_calc_mask_1(first+i, first+(i+len), mask + i, pred, is_vector).first`. -/
def pattern_copy_if.reduce {α : Type} (x : Nat → α) (first : Nat) (pred : α → Bool)
    (i len : Nat) (s : CopyIfState α) : Nat × CopyIfState α :=
  let r := brick_calc_mask_1 x (first + i) (first + (i + len)) s.mask i pred
  (r.2.1, { s with mask := r.1 })

/-- The `Scan` lambda of the parallel `pattern_copy_if`:
`brick_copy_by_mask(first+i, first+(i+len), result+initial, mask + i, is_vector)`. -/
def pattern_copy_if.scan {α : Type} (x : Nat → α) (first result : Nat)
    (i len initial : Nat) (s : CopyIfState α) : CopyIfState α :=
  let out' := brick_copy_by_mask x (first + i) (first + (i + len)) s.out
    (result + initial) s.mask i
  { s with out := out' }

/-- The apex lambda of the parallel `pattern_copy_if`: `[&m](difference_type total) {m=total;}`. -/
def pattern_copy_if.apex {α : Type} (total : Nat) (s : CopyIfState α) : CopyIfState α :=
  { s with m := total }

/-- Embedding of `pattern_copy_if` for scalar bricks.  `is_parallel` selects the overload;
`mask_buf` is what `raw_buffer mask_buf(n*sizeof(bool))` obtained and `m0` the indeterminate
value the uninitialised local `m` holds before `apex` assigns it. -/
def pattern_copy_if {α : Type} (x : Nat → α) (first last : Nat) (out : Nat → α) (result : Nat)
    (pred : α → Bool) (is_parallel : Bool) (mask_buf : par_backend.raw_buffer Bool)
    (m0 : Nat) : (Nat → α) × Nat :=
  if is_parallel then
    let n := last - first
    if 1 < n then
      match mask_buf with
      | some mask =>
        except_handler fun _ =>
          let s := par_backend.parallel_strict_scan n 0
            (pattern_copy_if.reduce x first pred)
            (fun a b => a + b)
            (pattern_copy_if.scan x first result)
            pattern_copy_if.apex
            ({ mask := mask, out := out, m := m0 } : CopyIfState α)
          (s.out, result + s.m)
      | none => brick_copy_if x first last out result pred
    else
      brick_copy_if x first last out result pred
  else
    brick_copy_if x first last out result pred

/-- Consecutive tiles `(i, len)` of the given lengths, the first one starting at `i`. -/
def tiles : Nat → List Nat → List (Nat × Nat)
  | _, [] => []
  | i, len :: rest => (i, len) :: tiles (i + len) rest

/-- Pass 1 of the filter scan: the `Reduce` lambda of `pattern_copy_if` run on every tile, in
range order; returns the final state and the per-tile counts. -/
def copy_if_reduce_pass {α : Type} (x : Nat → α) (first : Nat) (pred : α → Bool) :
    List (Nat × Nat) → CopyIfState α → List Nat × CopyIfState α
  | [], s => ([], s)
  | (i, len) :: rest, s =>
    let r := pattern_copy_if.reduce x first pred i len s
    let rs := copy_if_reduce_pass x first pred rest r.2
    (r.1 :: rs.1, rs.2)

/-- Pass 2 of the filter scan: the `Scan` lambda of `pattern_copy_if` run on every tile with
`initial` the sum of the counts of the tiles to its left. -/
def copy_if_scan_pass {α : Type} (x : Nat → α) (first result : Nat) :
    List (Nat × Nat) → List Nat → Nat → CopyIfState α → CopyIfState α
  | (i, len) :: rest, c :: cs, initial, s =>
    copy_if_scan_pass x first result rest cs (initial + c)
      (pattern_copy_if.scan x first result i len initial s)
  | _, _, _, s => s

end internal
end pstl

namespace std

/-- Sequential reference `std::any_of` loop over `k` remaining positions. -/
def any_of.loop {α : Type} (x : Nat → α) (pred : α → Bool) : Nat → Nat → Bool
  | 0, _ => false
  | k + 1, first => if pred (x first) then true else any_of.loop x pred k (first + 1)

/-- Sequential reference `std::any_of(first, last, pred)`. -/
def any_of {α : Type} (x : Nat → α) (first last : Nat) (pred : α → Bool) : Bool :=
  any_of.loop x pred (last - first) first

/-- Sequential reference `std::find_if` loop over `k` remaining positions: the first position
whose element satisfies `pred`, else the position reached at the end. -/
def find_if.loop {α : Type} (x : Nat → α) (pred : α → Bool) : Nat → Nat → Nat
  | 0, first => first
  | k + 1, first => if pred (x first) then first else find_if.loop x pred k (first + 1)

/-- Sequential reference `std::find_if(first, last, pred)`. -/
def find_if {α : Type} (x : Nat → α) (first last : Nat) (pred : α → Bool) : Nat :=
  find_if.loop x pred (last - first) first

/-- Sequential reference `std::copy_n(first, n, result)`: `n` assignments
`*result++ = *first++`; returns the output memory and the output position reached. -/
def copy_n {α : Type} (x : Nat → α) : Nat → Nat → Nat → (Nat → α) → (Nat → α) × Nat
  | _, 0, result, out => (out, result)
  | first, n + 1, result, out =>
    copy_n x (first + 1) n (result + 1) (Function.update out result (x first))

/-- Sequential reference `std::copy(first, last, result)`. -/
def copy {α : Type} (x : Nat → α) (first last result : Nat) (out : Nat → α) :
    (Nat → α) × Nat :=
  copy_n x first (last - first) result out

/-- Sequential reference `std::move(first, last, result)` on element values: each output
element receives the value of the corresponding input element. -/
def move {α : Type} (x : Nat → α) (first last result : Nat) (out : Nat → α) :
    (Nat → α) × Nat :=
  copy_n x first (last - first) result out

end std

namespace pstl
namespace par_backend

/-- Embedding of `parallel_for(first, last, f)`: the body in the backend is empty, so `f` is
never invoked and the state is returned as it was. -/
def parallel_for {σ : Type} (_first _last : Nat) (_f : Nat → Nat → σ → σ) (s : σ) : σ :=
  s

/-- Embedding of `parallel_or(first, last, f)`:
`std::atomic<bool> found(false); return found;`. -/
def parallel_or (_first _last : Nat) (_f : Nat → Nat → Bool) : Bool :=
  let found := false
  found

/-- Embedding of `parallel_first(first, last, f)`: `return first;`. -/
def parallel_first (first _last : Nat) (_f : Nat → Nat → Nat) : Nat :=
  first

end par_backend

namespace internal

/-- Embedding of scalar `brick_any_of`: forwards to `std::any_of`. -/
def brick_any_of {α : Type} (x : Nat → α) (first last : Nat) (pred : α → Bool) : Bool :=
  std.any_of x first last pred

/-- Embedding of `pattern_any_of` for scalar bricks; `is_parallel` selects the overload. -/
def pattern_any_of {α : Type} (x : Nat → α) (first last : Nat) (pred : α → Bool)
    (is_parallel : Bool) : Bool :=
  if is_parallel then
    except_handler fun _ =>
      par_backend.parallel_or first last (fun i j => brick_any_of x i j pred)
  else
    brick_any_of x first last pred

/-- Embedding of scalar `brick_find_if`: forwards to `std::find_if`. -/
def brick_find_if {α : Type} (x : Nat → α) (first last : Nat) (pred : α → Bool) : Nat :=
  std.find_if x first last pred

/-- Embedding of `pattern_find_if` for scalar bricks; `is_parallel` selects the overload. -/
def pattern_find_if {α : Type} (x : Nat → α) (first last : Nat) (pred : α → Bool)
    (is_parallel : Bool) : Nat :=
  if is_parallel then
    except_handler fun _ =>
      par_backend.parallel_first first last (fun i j => brick_find_if x i j pred)
  else
    brick_find_if x first last pred

/-- Embedding of `for_each_n_serial(first, n, f)`: `for(; n > 0; ++first, --n) f(first);
return first;`.  The payload acts on an explicit state. -/
def for_each_n_serial {σ : Type} (f : Nat → σ → σ) : Nat → Nat → σ → σ × Nat
  | first, 0, s => (s, first)
  | first, n + 1, s => for_each_n_serial f (first + 1) n (f first s)

/-- Embedding of `for_each_n(first, n, f)`: `for_each_n_serial` over the payload applied to the
dereferenced iterator (a reference is the position it designates). -/
def for_each_n {σ : Type} (first n : Nat) (f : Nat → σ → σ) (s : σ) : σ × Nat :=
  for_each_n_serial (fun it => f it) first n s

/-- Embedding of scalar `brick_walk1(first, last, f)`:
`for(; first!=last; ++first ) f(*first);`. -/
def brick_walk1 {σ : Type} (first last : Nat) (f : Nat → σ → σ) (s : σ) : σ :=
  (for_each_n_serial f first (last - first) s).1

/-- Embedding of `pattern_walk1` for scalar bricks. -/
def pattern_walk1 {σ : Type} (first last : Nat) (f : Nat → σ → σ) (is_parallel : Bool)
    (s : σ) : σ :=
  if is_parallel then
    except_handler fun _ =>
      par_backend.parallel_for first last (fun i j => brick_walk1 i j f) s
  else
    brick_walk1 first last f s

/-- Embedding of scalar `brick_it_walk1(first, last, f)`:
`for(; first!=last; ++first ) f(first);`. -/
def brick_it_walk1 {σ : Type} (first last : Nat) (f : Nat → σ → σ) (s : σ) : σ :=
  (for_each_n_serial f first (last - first) s).1

/-- Embedding of `pattern_it_walk1` for scalar bricks. -/
def pattern_it_walk1 {σ : Type} (first last : Nat) (f : Nat → σ → σ) (is_parallel : Bool)
    (s : σ) : σ :=
  if is_parallel then
    except_handler fun _ =>
      par_backend.parallel_for first last (fun i j => brick_it_walk1 i j f) s
  else
    brick_it_walk1 first last f s

/-- Embedding of scalar `brick_walk1_n(first, n, f)`: `return for_each_n( first, n, f );`. -/
def brick_walk1_n {σ : Type} (first n : Nat) (f : Nat → σ → σ) (s : σ) : σ × Nat :=
  for_each_n first n f s

/-- Embedding of `pattern_walk1_n` for scalar bricks: the parallel overload runs
`pattern_walk1(first, first + n, f, is_vector, std::true_type())` and returns `first + n`. -/
def pattern_walk1_n {σ : Type} (first n : Nat) (f : Nat → σ → σ) (is_parallel : Bool)
    (s : σ) : σ × Nat :=
  if is_parallel then
    (pattern_walk1 first (first + n) f true s, first + n)
  else
    brick_walk1_n first n f s

/-- Embedding of scalar `brick_it_walk1_n(first, n, f)`:
`return for_each_n_serial(first, n, f);`. -/
def brick_it_walk1_n {σ : Type} (first n : Nat) (f : Nat → σ → σ) (s : σ) : σ × Nat :=
  for_each_n_serial f first n s

/-- Embedding of `pattern_it_walk1_n` for scalar bricks. -/
def pattern_it_walk1_n {σ : Type} (first n : Nat) (f : Nat → σ → σ) (is_parallel : Bool)
    (s : σ) : σ × Nat :=
  if is_parallel then
    (pattern_it_walk1 first (first + n) f true s, first + n)
  else
    brick_it_walk1_n first n f s

/-- Embedding of scalar `brick_walk2_n(first1, n, first2, f)`:
`for(; n > 0; --n, ++first1, ++first2 ) f(*first1, *first2); return first2;`. -/
def brick_walk2_n {σ : Type} (f : Nat → Nat → σ → σ) : Nat → Nat → Nat → σ → σ × Nat
  | _, 0, first2, s => (s, first2)
  | first1, n + 1, first2, s => brick_walk2_n f (first1 + 1) n (first2 + 1) (f first1 first2 s)

/-- Embedding of scalar `brick_walk2(first1, last1, first2, f)`:
`for(; first1!=last1; ++first1, ++first2 ) f(*first1, *first2); return first2;`. -/
def brick_walk2 {σ : Type} (first1 last1 first2 : Nat) (f : Nat → Nat → σ → σ) (s : σ) :
    σ × Nat :=
  brick_walk2_n f first1 (last1 - first1) first2 s

/-- Embedding of `pattern_walk2` for scalar bricks. -/
def pattern_walk2 {σ : Type} (first1 last1 first2 : Nat) (f : Nat → Nat → σ → σ)
    (is_parallel : Bool) (s : σ) : σ × Nat :=
  if is_parallel then
    except_handler fun _ =>
      (par_backend.parallel_for first1 last1
          (fun i j t => (brick_walk2 i j (first2 + (i - first1)) f t).1) s,
        first2 + (last1 - first1))
  else
    brick_walk2 first1 last1 first2 f s

/-- Embedding of `pattern_walk2_n` for scalar bricks. -/
def pattern_walk2_n {σ : Type} (first1 n first2 : Nat) (f : Nat → Nat → σ → σ)
    (is_parallel : Bool) (s : σ) : σ × Nat :=
  if is_parallel then
    pattern_walk2 first1 (first1 + n) first2 f true s
  else
    brick_walk2_n f first1 n first2 s

/-- Embedding of `pattern_walk2_brick`; the brick takes `(first1, last1, first2)` and returns
the output position it reached. -/
def pattern_walk2_brick {σ : Type} (first1 last1 first2 : Nat)
    (brick : Nat → Nat → Nat → σ → σ × Nat) (is_parallel : Bool) (s : σ) : σ × Nat :=
  if is_parallel then
    except_handler fun _ =>
      (par_backend.parallel_for first1 last1
          (fun i j t => (brick i j (first2 + (i - first1)) t).1) s,
        first2 + (last1 - first1))
  else
    brick first1 last1 first2 s

/-- Embedding of `pattern_walk2_brick_n`; the brick takes `(first1, n, first2)` and returns
the output position it reached. -/
def pattern_walk2_brick_n {σ : Type} (first1 n first2 : Nat)
    (brick : Nat → Nat → Nat → σ → σ × Nat) (is_parallel : Bool) (s : σ) : σ × Nat :=
  if is_parallel then
    except_handler fun _ =>
      (par_backend.parallel_for first1 (first1 + n)
          (fun i j t => (brick i (j - i) (first2 + (i - first1)) t).1) s,
        first2 + n)
  else
    brick first1 n first2 s

/-- Embedding of scalar `brick_it_walk2_n(first1, n, first2, f)`:
`for(; n > 0; --n, ++first1, ++first2 ) f(first1, first2); return first2;`. -/
def brick_it_walk2_n {σ : Type} (f : Nat → Nat → σ → σ) : Nat → Nat → Nat → σ → σ × Nat
  | _, 0, first2, s => (s, first2)
  | first1, n + 1, first2, s =>
    brick_it_walk2_n f (first1 + 1) n (first2 + 1) (f first1 first2 s)

/-- Embedding of scalar `brick_it_walk2(first1, last1, first2, f)`:
`for(; first1!=last1; ++first1, ++first2 ) f(first1, first2); return first2;`. -/
def brick_it_walk2 {σ : Type} (first1 last1 first2 : Nat) (f : Nat → Nat → σ → σ) (s : σ) :
    σ × Nat :=
  brick_it_walk2_n f first1 (last1 - first1) first2 s

/-- Embedding of `pattern_it_walk2` for scalar bricks. -/
def pattern_it_walk2 {σ : Type} (first1 last1 first2 : Nat) (f : Nat → Nat → σ → σ)
    (is_parallel : Bool) (s : σ) : σ × Nat :=
  if is_parallel then
    except_handler fun _ =>
      (par_backend.parallel_for first1 last1
          (fun i j t => (brick_it_walk2 i j (first2 + (i - first1)) f t).1) s,
        first2 + (last1 - first1))
  else
    brick_it_walk2 first1 last1 first2 f s

/-- Embedding of `pattern_it_walk2_n` for scalar bricks. -/
def pattern_it_walk2_n {σ : Type} (first1 n first2 : Nat) (f : Nat → Nat → σ → σ)
    (is_parallel : Bool) (s : σ) : σ × Nat :=
  if is_parallel then
    pattern_it_walk2 first1 (first1 + n) first2 f true s
  else
    brick_it_walk2_n f first1 n first2 s

/-- Loop of scalar `brick_walk3`: `f(*first1, *first2, *first3)` for `k` remaining positions,
advancing the three iterators together. -/
def brick_walk3.loop {σ : Type} (f : Nat → Nat → Nat → σ → σ) :
    Nat → Nat → Nat → Nat → σ → σ × Nat
  | 0, _, _, first3, s => (s, first3)
  | k + 1, first1, first2, first3, s =>
    brick_walk3.loop f k (first1 + 1) (first2 + 1) (first3 + 1) (f first1 first2 first3 s)

/-- Embedding of scalar `brick_walk3(first1, last1, first2, first3, f)`; returns `first3`. -/
def brick_walk3 {σ : Type} (first1 last1 first2 first3 : Nat) (f : Nat → Nat → Nat → σ → σ)
    (s : σ) : σ × Nat :=
  brick_walk3.loop f (last1 - first1) first1 first2 first3 s

/-- Embedding of `pattern_walk3` for scalar bricks. -/
def pattern_walk3 {σ : Type} (first1 last1 first2 first3 : Nat)
    (f : Nat → Nat → Nat → σ → σ) (is_parallel : Bool) (s : σ) : σ × Nat :=
  if is_parallel then
    except_handler fun _ =>
      (par_backend.parallel_for first1 last1
          (fun i j t =>
            (brick_walk3 i j (first2 + (i - first1)) (first3 + (i - first1)) f t).1) s,
        first3 + (last1 - first1))
  else
    brick_walk3 first1 last1 first2 first3 f s

/-- Embedding of scalar `brick_copy_n`: forwards to `std::copy_n`.  The state is the output
memory. -/
def brick_copy_n {α : Type} (x : Nat → α) (first n result : Nat) (out : Nat → α) :
    (Nat → α) × Nat :=
  std.copy_n x first n result out

/-- Embedding of scalar `brick_copy`: forwards to `std::copy`. -/
def brick_copy {α : Type} (x : Nat → α) (first last result : Nat) (out : Nat → α) :
    (Nat → α) × Nat :=
  std.copy x first last result out

/-- Embedding of scalar `brick_move`: forwards to `std::move`. -/
def brick_move {α : Type} (x : Nat → α) (first last result : Nat) (out : Nat → α) :
    (Nat → α) × Nat :=
  std.move x first last result out

end internal
end pstl

namespace pstl
namespace par_backend

/-- The `for(;;)` loop of `serial_move_merge`, entered with both runs non-empty: `x :: xs` is
the part `[xs,xe)` of the left run not yet written, `y :: ys` the part `[ys,ye)` of the right
run not yet written.  The result is everything written to the output from here on, the
closing `std::move(ys, ye, zs)` included. -/
def serial_move_merge.loop {α : Type} (comp : α → α → Bool) :
    α → List α → α → List α → List α
  | x, xs, y, ys =>
    if comp y x then
      -- `*zs = std::move(*ys); ++zs; if(++ys==ye) break;`
      y :: (match ys with
        | [] => x :: xs  -- after `break`: `ys = xs; ye = xe;` then `std::move(ys, ye, zs)`
        | y' :: ys' => serial_move_merge.loop comp x xs y' ys')
    else
      -- `*zs = std::move(*xs); ++zs; if(++xs==xe) goto movey;`
      x :: (match xs with
        | [] => y :: ys  -- at `movey`: `std::move(ys, ye, zs)`
        | x' :: xs' => serial_move_merge.loop comp x' xs' y ys)
termination_by _ xs _ ys => xs.length + ys.length

/-- Embedding of `serial_move_merge(xs, xe, ys, ye, zs, comp)`: the runs `[xs,xe)` and
`[ys,ye)` are given by their element sequences, the result is the sequence written to the
output starting at `zs`. -/
def serial_move_merge {α : Type} (comp : α → α → Bool) : List α → List α → List α
  | [], Y => Y                -- `xs==xe`: straight to `std::move(ys, ye, zs)`
  | x :: xs, [] => x :: xs    -- `ys==ye`: `ys = xs; ye = xe;` then `std::move(ys, ye, zs)`
  | x :: xs, y :: ys => serial_move_merge.loop comp x xs y ys

/-- A comparator is a strict weak order: irreflexive, transitive, and with a transitive
incomparability relation. -/
structure StrictWeakOrder {α : Type} (comp : α → α → Bool) : Prop where
  /-- No element compares less than itself. -/
  irrefl : ∀ a, comp a a = false
  /-- The comparator is transitive. -/
  trans : ∀ a b c, comp a b = true → comp b c = true → comp a c = true
  /-- Equivalence (neither compares less than the other) is transitive. -/
  incomp_trans : ∀ a b c, comp a b = false → comp b a = false → comp b c = false →
    comp c b = false → comp a c = false ∧ comp c a = false

/-- A sequence is sorted under `comp`: no later element compares less than an earlier one. -/
def SortedUnder {α : Type} (comp : α → α → Bool) (l : List α) : Prop :=
  l.Pairwise (fun a b => comp b a = false)

/-- Elements of the left run, labelled `false`. -/
def leftRun {α : Type} (X : List α) : List (α × Bool) := X.map (fun a => (a, false))

/-- Elements of the right run, labelled `true`. -/
def rightRun {α : Type} (Y : List α) : List (α × Bool) := Y.map (fun a => (a, true))

/-- The comparator applied to labelled elements: it sees the element only. -/
def onValue {α : Type} (comp : α → α → Bool) (p q : α × Bool) : Bool := comp p.1 q.1

/-- Every right-run element of a labelled output sequence compared less than the first
left-run element written after it (the first one not yet written at that time), when there
is one. -/
def comparedLessThanNextLeft {α : Type} (comp : α → α → Bool) : List (α × Bool) → Prop
  | [] => True
  | p :: rest =>
    (p.2 = true → ∀ q, rest.find? (fun r => !r.2) = some q → comp p.1 q.1 = true) ∧
      comparedLessThanNextLeft comp rest

end par_backend
end pstl

namespace std

/-- Loop of the sequential reference `std::adjacent_find`:
`for (; next != last; ++next, ++first) if (pred(*first, *next)) return first; return last;`
with `k` remaining positions of `next = first + 1`. -/
def adjacent_find.loop {α : Type} (x : Nat → α) (pred : α → α → Bool) (last : Nat) :
    Nat → Nat → Nat
  | 0, _ => last
  | k + 1, first =>
    if pred (x first) (x (first + 1)) then first
    else adjacent_find.loop x pred last k (first + 1)

/-- Sequential reference `std::adjacent_find(first, last, pred)`. -/
def adjacent_find {α : Type} (x : Nat → α) (first last : Nat) (pred : α → α → Bool) : Nat :=
  if first = last then last
  else adjacent_find.loop x pred last (last - (first + 1)) first

/-- The leftmost position `p` among the `k` positions from `first` on whose pair
`(p, p + 1)` lies inside the range ending at `last` and satisfies `pred`, when there is
one. -/
def leftmostPair {α : Type} (x : Nat → α) (pred : α → α → Bool) (last : Nat) :
    Nat → Nat → Option Nat
  | 0, _ => none
  | k + 1, first =>
    if first + 1 < last ∧ pred (x first) (x (first + 1)) = true then some first
    else leftmostPair x pred last k (first + 1)

end std

namespace pstl
namespace par_backend

/-- Schedules of a reduction over a range cut into consecutive chunks: a single chunk handed
to the body; two adjacent parts run by the same body one after the other, the value
accumulated over the left part handed on to the right part; or two adjacent parts whose right
part is run from the identity and whose partial results are merged by the combine function,
the left one first. -/
inductive ReduceSchedule where
  /-- One chunk of the given length, handed to the body. -/
  | chunk (len : Nat)
  /-- The body goes on from the left part to the right part, carrying its value. -/
  | seq (l r : ReduceSchedule)
  /-- The right part starts from the identity; the two partial results are combined. -/
  | join (l r : ReduceSchedule)

/-- Number of positions a schedule covers. -/
def ReduceSchedule.size : ReduceSchedule → Nat
  | .chunk len => len
  | .seq l r => l.size + r.size
  | .join l r => l.size + r.size

/-- Result of a schedule over the range starting at `b`, entered with the value `v`. -/
def ReduceSchedule.eval {V : Type} (body : Nat → Nat → V → V) (combine : V → V → V)
    (identity : V) : ReduceSchedule → Nat → V → V
  | .chunk len, b, v => body b (b + len) v
  | .seq l r, b, v =>
    ReduceSchedule.eval body combine identity r (b + l.size)
      (ReduceSchedule.eval body combine identity l b v)
  | .join l r, b, v =>
    combine (ReduceSchedule.eval body combine identity l b v)
      (ReduceSchedule.eval body combine identity r (b + l.size) identity)

end par_backend

namespace internal

/-- Embedding of scalar `brick_adjacent_find`: forwards to `std::adjacent_find`; the
`or_semantic` flag is not used by the scalar brick. -/
def brick_adjacent_find {α : Type} (x : Nat → α) (first last : Nat) (pred : α → α → Bool)
    (_or_semantic : Bool) : Nat :=
  std.adjacent_find x first last pred

/-- The reduce body of the parallel `pattern_adjacent_find`, applied to the chunk
`[begin, end)` with the accumulated `value`; `par_backend::cancel_execution()` does not
affect the returned value. -/
def pattern_adjacent_find.body {α : Type} (x : Nat → α) (last : Nat) (pred : α → α → Bool)
    (or_semantic : Bool) (begin end_ value : Nat) : Nat :=
  if or_semantic && decide (value < last) then
    value
  else if value > begin then
    let end' := if end_ ≠ last then end_ + 1 else end_
    let res := brick_adjacent_find x begin end' pred or_semantic
    if res < end' then res else value
  else
    value

/-- The combine function of the parallel `pattern_adjacent_find`:
`[](ForwardIt x, ForwardIt y)->ForwardIt { return x < y ? x : y; }`. -/
def pattern_adjacent_find.combine (x y : Nat) : Nat :=
  if x < y then x else y

end internal
end pstl

namespace std

/-- Loop of the sequential reference `std::min_element`:
`for (; first != last; ++first) if (comp(*first, *smallest)) smallest = first;`
with `k` remaining positions. -/
def min_element.loop {α : Type} (x : Nat → α) (comp : α → α → Bool) : Nat → Nat → Nat → Nat
  | 0, _, smallest => smallest
  | k + 1, first, smallest =>
    min_element.loop x comp k (first + 1) (if comp (x first) (x smallest) then first else smallest)

/-- Sequential reference `std::min_element(first, last, comp)`: `last` on an empty range,
otherwise the scan started with `smallest = first`. -/
def min_element {α : Type} (x : Nat → α) (first last : Nat) (comp : α → α → Bool) : Nat :=
  if first = last then last
  else min_element.loop x comp (last - (first + 1)) (first + 1) first

end std

namespace pstl
namespace par_backend

end par_backend

namespace internal

/-- Modelled from the spec: `cmp_iterators_by_values(a, b, comp)` is declared outside the
translated headers; the combine "picks the element compared less, with leftmost position
winning ties": of the two positions the one further right is returned only when its element
compares less than the element of the other. -/
def cmp_iterators_by_values {α : Type} (x : Nat → α) (a b : Nat) (comp : α → α → Bool) : Nat :=
  if a < b then
    if comp (x b) (x a) then b else a
  else
    if comp (x a) (x b) then a else b

/-- Embedding of `brick_min_element` (both overloads forward to `std::min_element`). -/
def brick_min_element {α : Type} (x : Nat → α) (first last : Nat) (comp : α → α → Bool) : Nat :=
  std.min_element x first last comp

/-- The reduce body of the parallel `pattern_min_element`:
`subresult = brick_min_element(begin, end, comp, is_vector);
return cmp_iterators_by_values(init, subresult, comp);`. -/
def pattern_min_element.body {α : Type} (x : Nat → α) (comp : α → α → Bool)
    (begin end_ init : Nat) : Nat :=
  let subresult := brick_min_element x begin end_ comp
  cmp_iterators_by_values x init subresult comp

/-- The combine function of the parallel `pattern_min_element`:
`return cmp_iterators_by_values(it1, it2, comp);`. -/
def pattern_min_element.combine {α : Type} (x : Nat → α) (comp : α → α → Bool)
    (it1 it2 : Nat) : Nat :=
  cmp_iterators_by_values x it1 it2 comp

end internal
end pstl

namespace std

/-- Loop of the sequential reference `std::unique_copy`: the candidate at `i` is compared
with the last element copied (`kept`) and copied when `pred(kept, *i)` fails; `k` remaining
positions. -/
def unique_copy.loop {α : Type} (x : Nat → α) (pred : α → α → Bool) :
    Nat → Nat → α → (Nat → α) → Nat → (Nat → α) × Nat
  | 0, _, _, out, result => (out, result)
  | k + 1, i, kept, out, result =>
    if pred kept (x i) then
      unique_copy.loop x pred k (i + 1) kept out result
    else
      unique_copy.loop x pred k (i + 1) (x i) (Function.update out result (x i))
        (result + 1)

/-- Sequential reference `std::unique_copy(first, last, result, pred)`: the first element is
copied, and every later element is copied when `pred` rejects it against the last element
copied; returns the output memory and the end of the output. -/
def unique_copy {α : Type} (x : Nat → α) (first last : Nat) (out : Nat → α)
    (result : Nat) (pred : α → α → Bool) : (Nat → α) × Nat :=
  if first = last then (out, result)
  else
    unique_copy.loop x pred (last - (first + 1)) (first + 1) (x first)
      (Function.update out result (x first)) (result + 1)

/-- Loop of the adjacent-pair filter: the element at `i` is copied unless
`pred(*i, *(i - 1))` holds; `k` remaining positions. -/
def unique_copy_adjacent.loop {α : Type} (x : Nat → α) (pred : α → α → Bool) :
    Nat → Nat → (Nat → α) → Nat → (Nat → α) × Nat
  | 0, _, out, result => (out, result)
  | k + 1, i, out, result =>
    if pred (x i) (x (i - 1)) then
      unique_copy_adjacent.loop x pred k (i + 1) out result
    else
      unique_copy_adjacent.loop x pred k (i + 1) (Function.update out result (x i))
        (result + 1)

/-- The adjacent-pair filter over `[first, last)`: copies the first element and every later
element `i` for which `pred(*i, *(i - 1))` fails.  This is the selection the masks of
`brick_calc_mask_2` encode; it is not `std::unique_copy`, which it matches only for
predicates that are equivalence relations. -/
def unique_copy_adjacent {α : Type} (x : Nat → α) (first last : Nat) (out : Nat → α)
    (result : Nat) (pred : α → α → Bool) : (Nat → α) × Nat :=
  if first = last then (out, result)
  else
    unique_copy_adjacent.loop x pred (last - (first + 1)) (first + 1)
      (Function.update out result (x first)) (result + 1)

/-- Loop of the sequential reference `std::partition_copy`: elements satisfying `pred` go to
`out_true`, the others to `out_false`; `k` remaining positions. -/
def partition_copy.loop {α : Type} (x : Nat → α) (pred : α → Bool) :
    Nat → Nat → (Nat → α) → Nat → (Nat → α) → Nat → ((Nat → α) × (Nat → α)) × (Nat × Nat)
  | 0, _, mem_true, out_true, mem_false, out_false =>
    ((mem_true, mem_false), (out_true, out_false))
  | k + 1, first, mem_true, out_true, mem_false, out_false =>
    if pred (x first) then
      partition_copy.loop x pred k (first + 1) (Function.update mem_true out_true (x first))
        (out_true + 1) mem_false out_false
    else
      partition_copy.loop x pred k (first + 1) mem_true out_true
        (Function.update mem_false out_false (x first)) (out_false + 1)

/-- Sequential reference `std::partition_copy(first, last, out_true, out_false, pred)`;
returns the two output memories and the pair of output end positions. -/
def partition_copy {α : Type} (x : Nat → α) (first last : Nat) (mem_true : Nat → α)
    (out_true : Nat) (mem_false : Nat → α) (out_false : Nat) (pred : α → Bool) :
    ((Nat → α) × (Nat → α)) × (Nat × Nat) :=
  partition_copy.loop x pred (last - first) first mem_true out_true mem_false out_false

/-- The elements of `[first, first + k)` whose flag in the mask buffer, from position `maskp`
on, is set, in input order. -/
def flagged {α : Type} (x : Nat → α) (mask : Nat → Bool) : Nat → Nat → Nat → List α
  | 0, _, _ => []
  | k + 1, first, maskp =>
    if mask maskp then x first :: flagged x mask k (first + 1) (maskp + 1)
    else flagged x mask k (first + 1) (maskp + 1)

/-- The memory `out` with the sequence `l` stored from position `result` on. -/
def writeAt {α : Type} (out : Nat → α) (result : Nat) (l : List α) : Nat → α :=
  fun j => if result ≤ j then l.getD (j - result) (out j) else out j

end std

namespace pstl
namespace par_backend

/-- Pass 1 of a strict scan over consecutive tiles: `reduce` run on every tile, in range
order; returns the per-tile values and the final state. -/
def reduce_pass {T σ : Type} (reduce : Nat → Nat → σ → T × σ) :
    List (Nat × Nat) → σ → List T × σ
  | [], s => ([], s)
  | (i, len) :: rest, s =>
    let r := reduce i len s
    let rs := reduce_pass reduce rest r.2
    (r.1 :: rs.1, rs.2)

/-- Pass 2 of a strict scan over consecutive tiles: `scan` run on every tile with `initial`
the starting value combined, left to right, with the reduce values of the tiles to its
left. -/
def scan_pass {T σ : Type} (combine : T → T → T) (scan : Nat → Nat → T → σ → σ) :
    List (Nat × Nat) → List T → T → σ → σ
  | (i, len) :: rest, c :: cs, initial, s =>
    scan_pass combine scan rest cs (combine initial c) (scan i len initial s)
  | _, _, _, s => s

end par_backend

namespace internal

/-- Embedding of scalar `brick_unique_copy`: forwards to `std::unique_copy`. -/
def brick_unique_copy {α : Type} (x : Nat → α) (first last : Nat) (out : Nat → α)
    (result : Nat) (pred : α → α → Bool) : (Nat → α) × Nat :=
  std.unique_copy x first last out result pred

/-- Loop of scalar `brick_calc_mask_2`: `*mask = !pred(*first, *(first-1)); count += *mask;`
for `k` remaining positions. -/
def brick_calc_mask_2.loop {α : Type} (x : Nat → α) (pred : α → α → Bool) :
    Nat → Nat → Nat → (Nat → Bool) → Nat → (Nat → Bool) × Nat
  | 0, _, _, mask, count => (mask, count)
  | k + 1, first, maskp, mask, count =>
    let mask' := Function.update mask maskp (!pred (x first) (x (first - 1)))
    brick_calc_mask_2.loop x pred k (first + 1) (maskp + 1) mask' (count + (mask' maskp).toNat)

/-- Embedding of scalar `brick_calc_mask_2(first, last, mask, pred)`; `maskp` is the position
the `mask` pointer designates in the mask buffer.  Returns the mask buffer and `count`. -/
def brick_calc_mask_2 {α : Type} (x : Nat → α) (first last : Nat) (mask : Nat → Bool)
    (maskp : Nat) (pred : α → α → Bool) : (Nat → Bool) × Nat :=
  brick_calc_mask_2.loop x pred (last - first) first maskp mask 0

/-- The `Reduce` lambda of the parallel `pattern_unique_copy`.  The test `--len==0` is
`len = 1`; after `++i` the tile handed to `brick_calc_mask_2` starts at `1` and has `len - 1`
positions. -/
def pattern_unique_copy.reduce {α : Type} (x : Nat → α) (first : Nat) (pred : α → α → Bool)
    (i len : Nat) (s : CopyIfState α) : Nat × CopyIfState α :=
  if i = 0 then
    -- Special boundary case: `mask[i] = true;`
    let mask1 := Function.update s.mask i true
    if len = 1 then
      (1, { s with mask := mask1 })
    else
      let r := brick_calc_mask_2 x (first + (i + 1)) (first + ((i + 1) + (len - 1))) mask1
        (i + 1) pred
      (r.2 + 1, { s with mask := r.1 })
  else
    let r := brick_calc_mask_2 x (first + i) (first + (i + len)) s.mask i pred
    (r.2 + 0, { s with mask := r.1 })

/-- The `Scan` lambda of the parallel `pattern_unique_copy` ("Phase 2 is same as for
pattern_copy_if"). -/
def pattern_unique_copy.scan {α : Type} (x : Nat → α) (first result : Nat)
    (i len initial : Nat) (s : CopyIfState α) : CopyIfState α :=
  let out' := brick_copy_by_mask x (first + i) (first + (i + len)) s.out
    (result + initial) s.mask i
  { s with out := out' }

/-- The apex lambda of the parallel `pattern_unique_copy`: `[&m](difference_type total)
{m=total;}`. -/
def pattern_unique_copy.apex {α : Type} (total : Nat) (s : CopyIfState α) : CopyIfState α :=
  { s with m := total }

/-- Embedding of `pattern_unique_copy` for scalar bricks.  `is_parallel` selects the overload;
`mask_buf` is what `raw_buffer mask_buf(n*sizeof(bool))` obtained and `m0` the indeterminate
value the uninitialised local `m` holds before `apex` assigns it. -/
def pattern_unique_copy {α : Type} (x : Nat → α) (first last : Nat) (out : Nat → α)
    (result : Nat) (pred : α → α → Bool) (is_parallel : Bool)
    (mask_buf : par_backend.raw_buffer Bool) (m0 : Nat) : (Nat → α) × Nat :=
  if is_parallel then
    let n := last - first
    if 2 < n then
      match mask_buf with
      | some mask =>
        if 2 < n then
          except_handler fun _ =>
            let s := par_backend.parallel_strict_scan n 0
              (pattern_unique_copy.reduce x first pred)
              (fun a b => a + b)
              (pattern_unique_copy.scan x first result)
              pattern_unique_copy.apex
              ({ mask := mask, out := out, m := m0 } : CopyIfState α)
            (s.out, result + s.m)
        else brick_unique_copy x first last out result pred
      | none => brick_unique_copy x first last out result pred
    else
      brick_unique_copy x first last out result pred
  else
    brick_unique_copy x first last out result pred

/-- Embedding of scalar `brick_partition_copy`: forwards to `std::partition_copy`. -/
def brick_partition_copy {α : Type} (x : Nat → α) (first last : Nat) (mem_true : Nat → α)
    (out_true : Nat) (mem_false : Nat → α) (out_false : Nat) (pred : α → Bool) :
    ((Nat → α) × (Nat → α)) × (Nat × Nat) :=
  std.partition_copy x first last mem_true out_true mem_false out_false pred

/-- Loop of scalar `brick_partition_by_mask`:
`if (*mask) { *out_true = *first; ++out_true; } else { *out_false = *first; ++out_false; }`
for `k` remaining positions. -/
def brick_partition_by_mask.loop {α : Type} (x : Nat → α) (mask : Nat → Bool) :
    Nat → Nat → Nat → (Nat → α) → Nat → (Nat → α) → Nat → (Nat → α) × (Nat → α)
  | 0, _, _, mem_true, _, mem_false, _ => (mem_true, mem_false)
  | k + 1, first, maskp, mem_true, out_true, mem_false, out_false =>
    if mask maskp then
      brick_partition_by_mask.loop x mask k (first + 1) (maskp + 1)
        (Function.update mem_true out_true (x first)) (out_true + 1) mem_false out_false
    else
      brick_partition_by_mask.loop x mask k (first + 1) (maskp + 1) mem_true out_true
        (Function.update mem_false out_false (x first)) (out_false + 1)

/-- Embedding of scalar `brick_partition_by_mask(first, last, out_true, out_false, mask)`;
`maskp` is the position the `mask` pointer designates in the mask buffer. -/
def brick_partition_by_mask {α : Type} (x : Nat → α) (first last : Nat) (mem_true : Nat → α)
    (out_true : Nat) (mem_false : Nat → α) (out_false : Nat) (mask : Nat → Bool)
    (maskp : Nat) : (Nat → α) × (Nat → α) :=
  brick_partition_by_mask.loop x mask (last - first) first maskp mem_true out_true mem_false
    out_false

/-- State the lambdas of the parallel `pattern_partition_copy` act on: the mask buffer, the
two output memories and the local `return_type m`. -/
structure PartitionCopyState (α : Type) where
  /-- Contents of the mask buffer. -/
  mask : Nat → Bool
  /-- Contents of the memory `out_true` points into. -/
  mem_true : Nat → α
  /-- Contents of the memory `out_false` points into. -/
  mem_false : Nat → α
  /-- The local variable `m`. -/
  m : Nat × Nat

/-- The `Reduce` lambda of the parallel `pattern_partition_copy`:
`brick_calc_mask_1(first + i, first + (i + len), mask + i, pred, is_vector)`. -/
def pattern_partition_copy.reduce {α : Type} (x : Nat → α) (first : Nat) (pred : α → Bool)
    (i len : Nat) (s : PartitionCopyState α) : (Nat × Nat) × PartitionCopyState α :=
  let r := brick_calc_mask_1 x (first + i) (first + (i + len)) s.mask i pred
  (r.2, { s with mask := r.1 })

/-- The `Combine` lambda of the parallel `pattern_partition_copy`:
`std::make_pair(x.first + y.first, x.second + y.second)`. -/
def pattern_partition_copy.combine (a b : Nat × Nat) : Nat × Nat :=
  (a.1 + b.1, a.2 + b.2)

/-- The `Scan` lambda of the parallel `pattern_partition_copy`:
`brick_partition_by_mask(first + i, first + (i + len), out_true + initial.first,
out_false + initial.second, mask + i, is_vector)`. -/
def pattern_partition_copy.scan {α : Type} (x : Nat → α) (first out_true out_false : Nat)
    (i len : Nat) (initial : Nat × Nat) (s : PartitionCopyState α) : PartitionCopyState α :=
  let r := brick_partition_by_mask x (first + i) (first + (i + len)) s.mem_true
    (out_true + initial.1) s.mem_false (out_false + initial.2) s.mask i
  { s with mem_true := r.1, mem_false := r.2 }

/-- The apex lambda of the parallel `pattern_partition_copy`:
`[&m](return_type total) {m = total; }`. -/
def pattern_partition_copy.apex {α : Type} (total : Nat × Nat) (s : PartitionCopyState α) :
    PartitionCopyState α :=
  { s with m := total }

/-- Embedding of `pattern_partition_copy` for scalar bricks.  `is_parallel` selects the
overload; `mask_buf` is what `raw_buffer mask_buf(n * sizeof(bool))` obtained and `m0` the
indeterminate value the uninitialised local `m` holds before `apex` assigns it. -/
def pattern_partition_copy {α : Type} (x : Nat → α) (first last : Nat) (mem_true : Nat → α)
    (out_true : Nat) (mem_false : Nat → α) (out_false : Nat) (pred : α → Bool)
    (is_parallel : Bool) (mask_buf : par_backend.raw_buffer Bool) (m0 : Nat × Nat) :
    ((Nat → α) × (Nat → α)) × (Nat × Nat) :=
  if is_parallel then
    let n := last - first
    if 1 < n then
      match mask_buf with
      | some mask =>
        except_handler fun _ =>
          let s := par_backend.parallel_strict_scan n ((0 : Nat), (0 : Nat))
            (pattern_partition_copy.reduce x first pred)
            pattern_partition_copy.combine
            (pattern_partition_copy.scan x first out_true out_false)
            pattern_partition_copy.apex
            ({ mask := mask, mem_true := mem_true, mem_false := mem_false, m := m0 } :
              PartitionCopyState α)
          ((s.mem_true, s.mem_false), (out_true + s.m.1, out_false + s.m.2))
      | none => brick_partition_copy x first last mem_true out_true mem_false out_false pred
    else
      brick_partition_copy x first last mem_true out_true mem_false out_false pred
  else
    brick_partition_copy x first last mem_true out_true mem_false out_false pred

end internal
end pstl

namespace std

/-- The flag the adjacent-pair filter attaches to the element at offset `j` of the range
starting at `first`: the first element is kept, another one is kept unless
`pred(*i, *(i - 1))`. -/
def unique_keep {α : Type} (x : Nat → α) (pred : α → α → Bool) (first : Nat) (j : Nat) : Bool :=
  j == 0 || !pred (x (first + j)) (x (first + j - 1))

end std

namespace std

/-- Loop of the sequential reference `std::equal(first1, last1, first2, p)` over `k`
remaining positions. -/
def equal.loop {α β : Type} (x : Nat → α) (y : Nat → β) (p : α → β → Bool) :
    Nat → Nat → Nat → Bool
  | 0, _, _ => true
  | k + 1, first1, first2 =>
    if p (x first1) (y first2) then equal.loop x y p k (first1 + 1) (first2 + 1) else false

/-- Sequential reference `std::equal(first1, last1, first2, p)`. -/
def equal {α β : Type} (x : Nat → α) (y : Nat → β) (first1 last1 first2 : Nat)
    (p : α → β → Bool) : Bool :=
  equal.loop x y p (last1 - first1) first1 first2

/-- Number of leading positions, among the next `k`, at which `pred` holds for the
corresponding elements of the two ranges. -/
def matchLen {α β : Type} (x : Nat → α) (y : Nat → β) (pred : α → β → Bool) :
    Nat → Nat → Nat → Nat
  | 0, _, _ => 0
  | k + 1, first1, first2 =>
    if pred (x first1) (y first2) then matchLen x y pred k (first1 + 1) (first2 + 1) + 1 else 0

end std

namespace pstl
namespace par_backend

/-- The body of a `parallel_for` run on the given chunks `(i, len)`, one after the other. -/
def for_chunks {σ : Type} (f : Nat → Nat → σ → σ) : List (Nat × Nat) → σ → σ
  | [], s => s
  | (i, len) :: rest, s => for_chunks f rest (f i (i + len) s)

/-- The value a brick reports on the leftmost chunk on which it reports a find (a value other
than the chunk end), and `last` when it reports none. -/
def leftmostFind (f : Nat → Nat → Nat) (last : Nat) : List (Nat × Nat) → Nat
  | [] => last
  | (i, len) :: rest =>
    if f i (i + len) ≠ i + len then f i (i + len) else leftmostFind f last rest

end par_backend

namespace internal

/-- Embedding of scalar `brick_equal`: forwards to `std::equal`. -/
def brick_equal {α β : Type} (x : Nat → α) (y : Nat → β) (first1 last1 first2 : Nat)
    (p : α → β → Bool) : Bool :=
  std.equal x y first1 last1 first2 p

/-- The brick the parallel `pattern_equal` hands to `parallel_or`:
`!brick_equal(i, j, first2 + (i - first1), p, vec)`. -/
def pattern_equal.brick {α β : Type} (x : Nat → α) (y : Nat → β) (first1 first2 : Nat)
    (p : α → β → Bool) (i j : Nat) : Bool :=
  !brick_equal x y i j (first2 + (i - first1)) p

/-- Embedding of `pattern_equal` for scalar bricks as a function of the backend primitive it
calls: the parameter `parallel_or` stands for `par_backend::parallel_or`; `is_parallel`
selects the overload. -/
def pattern_equal_with {α β : Type} (parallel_or : Nat → Nat → (Nat → Nat → Bool) → Bool)
    (x : Nat → α) (y : Nat → β) (first1 last1 first2 : Nat) (p : α → β → Bool)
    (is_parallel : Bool) : Bool :=
  if is_parallel then
    except_handler fun _ =>
      !parallel_or first1 last1 (pattern_equal.brick x y first1 first2 p)
  else
    brick_equal x y first1 last1 first2 p

/-- Embedding of `pattern_equal` for scalar bricks, linked with the backend of
`parallel_impl_openmp.h`; `is_parallel` selects the overload. -/
def pattern_equal {α β : Type} (x : Nat → α) (y : Nat → β) (first1 last1 first2 : Nat)
    (p : α → β → Bool) (is_parallel : Bool) : Bool :=
  pattern_equal_with par_backend.parallel_or x y first1 last1 first2 p is_parallel

/-- Loop of `mismatch_serial`:
`for (; first1 != last1 && first2 != last2 && pred(*first1, *first2); ++first1,++first2){ }`
with `k1` and `k2` positions left in the two ranges. -/
def mismatch_serial.loop {α β : Type} (x : Nat → α) (y : Nat → β) (pred : α → β → Bool) :
    Nat → Nat → Nat → Nat → Nat × Nat
  | 0, _, first1, first2 => (first1, first2)
  | _ + 1, 0, first1, first2 => (first1, first2)
  | k1 + 1, k2 + 1, first1, first2 =>
    if pred (x first1) (y first2) then
      mismatch_serial.loop x y pred k1 k2 (first1 + 1) (first2 + 1)
    else (first1, first2)

/-- Embedding of `mismatch_serial(first1, last1, first2, last2, pred)`. -/
def mismatch_serial {α β : Type} (x : Nat → α) (y : Nat → β) (first1 last1 first2 last2 : Nat)
    (pred : α → β → Bool) : Nat × Nat :=
  mismatch_serial.loop x y pred (last1 - first1) (last2 - first2) first1 first2

/-- Embedding of scalar `brick_mismatch`: forwards to `mismatch_serial`. -/
def brick_mismatch {α β : Type} (x : Nat → α) (y : Nat → β) (first1 last1 first2 last2 : Nat)
    (pred : α → β → Bool) : Nat × Nat :=
  mismatch_serial x y first1 last1 first2 last2 pred

/-- The brick the parallel `pattern_mismatch` hands to `parallel_first`:
`brick_mismatch(i, j, first2 + (i - first1), first2 + (j - first1), pred, is_vector).first`. -/
def pattern_mismatch.brick {α β : Type} (x : Nat → α) (y : Nat → β) (first1 first2 : Nat)
    (pred : α → β → Bool) (i j : Nat) : Nat :=
  (brick_mismatch x y i j (first2 + (i - first1)) (first2 + (j - first1)) pred).1

/-- Embedding of `pattern_mismatch` for scalar bricks as a function of the backend primitive
it calls: the parameter `parallel_first` stands for `par_backend::parallel_first`;
`is_parallel` selects the overload. -/
def pattern_mismatch_with {α β : Type} (parallel_first : Nat → Nat → (Nat → Nat → Nat) → Nat)
    (x : Nat → α) (y : Nat → β) (first1 last1 first2 last2 : Nat) (pred : α → β → Bool)
    (is_parallel : Bool) : Nat × Nat :=
  if is_parallel then
    except_handler fun _ =>
      let n := min (last1 - first1) (last2 - first2)
      let result := parallel_first first1 (first1 + n)
        (pattern_mismatch.brick x y first1 first2 pred)
      (result, first2 + (result - first1))
  else
    brick_mismatch x y first1 last1 first2 last2 pred

/-- Embedding of `pattern_mismatch` for scalar bricks, linked with the backend of
`parallel_impl_openmp.h`; `is_parallel` selects the overload. -/
def pattern_mismatch {α β : Type} (x : Nat → α) (y : Nat → β) (first1 last1 first2 last2 : Nat)
    (pred : α → β → Bool) (is_parallel : Bool) : Nat × Nat :=
  pattern_mismatch_with par_backend.parallel_first x y first1 last1 first2 last2 pred
    is_parallel

/-- The chunk worker of the parallel `pattern_walk2`:
`brick_walk2(i,j,first2+(i-first1),f,is_vector)`. -/
def pattern_walk2.worker {σ : Type} (first1 first2 : Nat) (f : Nat → Nat → σ → σ)
    (i j : Nat) (s : σ) : σ :=
  (brick_walk2 i j (first2 + (i - first1)) f s).1

/-- The chunk worker of the parallel `pattern_it_walk2`:
`brick_it_walk2(i,j,first2+(i-first1),f,is_vector)`. -/
def pattern_it_walk2.worker {σ : Type} (first1 first2 : Nat) (f : Nat → Nat → σ → σ)
    (i j : Nat) (s : σ) : σ :=
  (brick_it_walk2 i j (first2 + (i - first1)) f s).1

/-- The chunk worker of the parallel `pattern_walk2_brick`:
`brick(i,j,first2+(i-first1))`. -/
def pattern_walk2_brick.worker {σ : Type} (first1 first2 : Nat)
    (brick : Nat → Nat → Nat → σ → σ × Nat) (i j : Nat) (s : σ) : σ :=
  (brick i j (first2 + (i - first1)) s).1

/-- The chunk worker of the parallel `pattern_walk3`:
`brick_walk3(i, j, first2+(i-first1), first3+(i-first1), f, is_vector)`. -/
def pattern_walk3.worker {σ : Type} (first1 first2 first3 : Nat)
    (f : Nat → Nat → Nat → σ → σ) (i j : Nat) (s : σ) : σ :=
  (brick_walk3 i j (first2 + (i - first1)) (first3 + (i - first1)) f s).1

end internal
end pstl

namespace pstl
namespace internal

/-- A payload for two-range walks that records the pair of positions it is applied to. -/
def record2 (i1 i2 : Nat) (log : List (Nat × Nat)) : List (Nat × Nat) :=
  log ++ [(i1, i2)]

/-- A payload for three-range walks that records the triple of positions it is applied to. -/
def record3 (i1 i2 i3 : Nat) (log : List (Nat × Nat × Nat)) : List (Nat × Nat × Nat) :=
  log ++ [(i1, i2, i3)]

/-- A payload for one-range walks that records the position it is applied to. -/
def record1 (i : Nat) (log : List Nat) : List Nat :=
  log ++ [i]

end internal
end pstl

namespace std

/-- Modelled from the spec: the element type `Wrapper<T>` of the move test is declared outside
the translated files; as the test uses it (`SetMoveCount(0)`, `MoveCount() == size`), every
move assignment of an element increments a move counter.  This is `std::move(first, last,
result)` over `n` such elements: the state is the output memory together with the counter. -/
def move_counting {α : Type} (x : Nat → α) :
    Nat → Nat → Nat → (Nat → α) × Nat → ((Nat → α) × Nat) × Nat
  | _, 0, result, s => (s, result)
  | first, n + 1, result, s =>
    move_counting x (first + 1) n (result + 1) (Function.update s.1 result (x first), s.2 + 1)

end std

namespace pstl
namespace internal

/-- Embedding of scalar `brick_move` over elements that count their move assignments:
forwards to `std::move`. -/
def brick_move_counting {α : Type} (x : Nat → α) (first last result : Nat)
    (s : (Nat → α) × Nat) : ((Nat → α) × Nat) × Nat :=
  std.move_counting x first (last - first) result s

end internal
end pstl

/-! ## Algorithms redirected to the serial standard algorithm

For these algorithms both the vectorized brick and the parallel pattern are marked
"unimplemented, redirected to serial".  The standard algorithm each brick forwards to is a
parameter: a transformer of the memory state `σ` (the contents of all ranges involved) that
also yields the returned iterator or flag.  Predicates, comparators and values are passed
through unchanged, as the generic types `P` and `T`. -/

namespace pstl
namespace internal

/-- Embedding of `brick_find_first_of`: the scalar and the vectorized overload both forward to
`std::find_first_of`. -/
def brick_find_first_of {σ P : Type} (std_find_first_of : Nat → Nat → Nat → Nat → P → σ → σ × Nat)
    (first last s_first s_last : Nat) (pred : P) (is_vector : Bool) (s : σ) : σ × Nat :=
  match is_vector with
  | false => std_find_first_of first last s_first s_last pred s
  | true => std_find_first_of first last s_first s_last pred s

/-- Embedding of `pattern_find_first_of`: the serial and the parallel overload both call
`brick_find_first_of` with the vector tag they were given. -/
def pattern_find_first_of {σ P : Type}
    (std_find_first_of : Nat → Nat → Nat → Nat → P → σ → σ × Nat)
    (first last s_first s_last : Nat) (pred : P) (is_vector is_parallel : Bool) (s : σ) : σ × Nat
    :=
  match is_parallel with
  | false => brick_find_first_of std_find_first_of first last s_first s_last pred is_vector s
  | true => brick_find_first_of std_find_first_of first last s_first s_last pred is_vector s

/-- Embedding of `brick_search_n`: the scalar and the vectorized overload both forward to
`std::search_n`. -/
def brick_search_n {σ P T : Type} (std_search_n : Nat → Nat → Nat → T → P → σ → σ × Nat)
    (first last count : Nat) (value : T) (pred : P) (is_vector : Bool) (s : σ) : σ × Nat :=
  match is_vector with
  | false => std_search_n first last count value pred s
  | true => std_search_n first last count value pred s

/-- Embedding of `pattern_search_n`: the serial and the parallel overload both call
`brick_search_n` with the vector tag they were given. -/
def pattern_search_n {σ P T : Type} (std_search_n : Nat → Nat → Nat → T → P → σ → σ × Nat)
    (first last count : Nat) (value : T) (pred : P) (is_vector is_parallel : Bool) (s : σ) :
    σ × Nat :=
  match is_parallel with
  | false => brick_search_n std_search_n first last count value pred is_vector s
  | true => brick_search_n std_search_n first last count value pred is_vector s

/-- Embedding of `brick_unique`: the scalar and the vectorized overload both forward to
`std::unique`. -/
def brick_unique {σ P : Type} (std_unique : Nat → Nat → P → σ → σ × Nat) (first last : Nat)
    (pred : P) (is_vector : Bool) (s : σ) : σ × Nat :=
  match is_vector with
  | false => std_unique first last pred s
  | true => std_unique first last pred s

/-- Embedding of `pattern_unique`: the serial and the parallel overload both call `brick_unique`
with the vector tag they were given. -/
def pattern_unique {σ P : Type} (std_unique : Nat → Nat → P → σ → σ × Nat) (first last : Nat)
    (pred : P) (is_vector is_parallel : Bool) (s : σ) : σ × Nat :=
  match is_parallel with
  | false => brick_unique std_unique first last pred is_vector s
  | true => brick_unique std_unique first last pred is_vector s

/-- Embedding of `brick_swap_ranges`: the scalar and the vectorized overload both forward to
`std::swap_ranges`. -/
def brick_swap_ranges {σ : Type} (std_swap_ranges : Nat → Nat → Nat → σ → σ × Nat)
    (first1 last1 first2 : Nat) (is_vector : Bool) (s : σ) : σ × Nat :=
  match is_vector with
  | false => std_swap_ranges first1 last1 first2 s
  | true => std_swap_ranges first1 last1 first2 s

/-- Embedding of `pattern_swap_ranges`: the serial and the parallel overload both call
`brick_swap_ranges` with the vector tag they were given. -/
def pattern_swap_ranges {σ : Type} (std_swap_ranges : Nat → Nat → Nat → σ → σ × Nat)
    (first1 last1 first2 : Nat) (is_vector is_parallel : Bool) (s : σ) : σ × Nat :=
  match is_parallel with
  | false => brick_swap_ranges std_swap_ranges first1 last1 first2 is_vector s
  | true => brick_swap_ranges std_swap_ranges first1 last1 first2 is_vector s

/-- Embedding of scalar `brick_replace_if`: forwards to `std::replace_if`. -/
def brick_replace_if.serial {σ P T : Type} (std_replace_if : Nat → Nat → P → T → σ → σ)
    (first last : Nat) (pred : P) (new_value : T) (s : σ) : σ :=
  std_replace_if first last pred new_value s

/-- Embedding of `brick_replace_if`: the vectorized overload calls the scalar overload
`brick_replace_if(..., std::false_type())`. -/
def brick_replace_if {σ P T : Type} (std_replace_if : Nat → Nat → P → T → σ → σ)
    (first last : Nat) (pred : P) (new_value : T) (is_vector : Bool) (s : σ) : σ :=
  match is_vector with
  | false => brick_replace_if.serial std_replace_if first last pred new_value s
  | true => brick_replace_if.serial std_replace_if first last pred new_value s

/-- Embedding of `pattern_replace_if`: the serial and the parallel overload both call
`brick_replace_if` with the vector tag they were given. -/
def pattern_replace_if {σ P T : Type} (std_replace_if : Nat → Nat → P → T → σ → σ)
    (first last : Nat) (pred : P) (new_value : T) (is_vector is_parallel : Bool) (s : σ) : σ :=
  match is_parallel with
  | false => brick_replace_if std_replace_if first last pred new_value is_vector s
  | true => brick_replace_if std_replace_if first last pred new_value is_vector s

/-- Embedding of scalar `brick_reverse`: forwards to `std::reverse`. -/
def brick_reverse.serial {σ : Type} (std_reverse : Nat → Nat → σ → σ) (first last : Nat) (s : σ) :
    σ :=
  std_reverse first last s

/-- Embedding of `brick_reverse`: the vectorized overload calls the scalar overload
`brick_reverse(..., std::false_type())`. -/
def brick_reverse {σ : Type} (std_reverse : Nat → Nat → σ → σ) (first last : Nat)
    (is_vector : Bool) (s : σ) : σ :=
  match is_vector with
  | false => brick_reverse.serial std_reverse first last s
  | true => brick_reverse.serial std_reverse first last s

/-- Embedding of `pattern_reverse`: the serial and the parallel overload both call `brick_reverse`
with the vector tag they were given. -/
def pattern_reverse {σ : Type} (std_reverse : Nat → Nat → σ → σ) (first last : Nat)
    (is_vector is_parallel : Bool) (s : σ) : σ :=
  match is_parallel with
  | false => brick_reverse std_reverse first last is_vector s
  | true => brick_reverse std_reverse first last is_vector s

/-- Embedding of scalar `brick_reverse_copy`: forwards to `std::reverse_copy`. -/
def brick_reverse_copy.serial {σ : Type} (std_reverse_copy : Nat → Nat → Nat → σ → σ × Nat)
    (first last d_first : Nat) (s : σ) : σ × Nat :=
  std_reverse_copy first last d_first s

/-- Embedding of `brick_reverse_copy`: the vectorized overload calls the scalar overload
`brick_reverse_copy(..., std::false_type())`. -/
def brick_reverse_copy {σ : Type} (std_reverse_copy : Nat → Nat → Nat → σ → σ × Nat)
    (first last d_first : Nat) (is_vector : Bool) (s : σ) : σ × Nat :=
  match is_vector with
  | false => brick_reverse_copy.serial std_reverse_copy first last d_first s
  | true => brick_reverse_copy.serial std_reverse_copy first last d_first s

/-- Embedding of `pattern_reverse_copy`: the serial and the parallel overload both call
`brick_reverse_copy` with the vector tag they were given. -/
def pattern_reverse_copy {σ : Type} (std_reverse_copy : Nat → Nat → Nat → σ → σ × Nat)
    (first last d_first : Nat) (is_vector is_parallel : Bool) (s : σ) : σ × Nat :=
  match is_parallel with
  | false => brick_reverse_copy std_reverse_copy first last d_first is_vector s
  | true => brick_reverse_copy std_reverse_copy first last d_first is_vector s

/-- Embedding of scalar `brick_rotate`: forwards to `std::rotate`; when the configuration macro
`__PSTL_CPP11_STD_ROTATE_BROKEN` is set the returned iterator is recomputed as `std::next(first,
std::distance(middle, last))`. -/
def brick_rotate.serial {σ : Type} (rotate_broken : Bool)
    (std_rotate : Nat → Nat → Nat → σ → σ × Nat) (first middle last : Nat) (s : σ) : σ × Nat :=
  if rotate_broken then
    ((std_rotate first middle last s).1, first + (last - middle))
  else std_rotate first middle last s

/-- Embedding of `brick_rotate`: the vectorized overload calls the scalar overload
`brick_rotate(..., std::false_type())`. -/
def brick_rotate {σ : Type} (rotate_broken : Bool) (std_rotate : Nat → Nat → Nat → σ → σ × Nat)
    (first middle last : Nat) (is_vector : Bool) (s : σ) : σ × Nat :=
  match is_vector with
  | false => brick_rotate.serial rotate_broken std_rotate first middle last s
  | true => brick_rotate.serial rotate_broken std_rotate first middle last s

/-- Embedding of `pattern_rotate`: the serial and the parallel overload both call `brick_rotate`
with the vector tag they were given. -/
def pattern_rotate {σ : Type} (rotate_broken : Bool) (std_rotate : Nat → Nat → Nat → σ → σ × Nat)
    (first middle last : Nat) (is_vector is_parallel : Bool) (s : σ) : σ × Nat :=
  match is_parallel with
  | false => brick_rotate rotate_broken std_rotate first middle last is_vector s
  | true => brick_rotate rotate_broken std_rotate first middle last is_vector s

/-- Embedding of `brick_rotate_copy`: the scalar and the vectorized overload both forward to
`std::rotate_copy`. -/
def brick_rotate_copy {σ : Type} (std_rotate_copy : Nat → Nat → Nat → Nat → σ → σ × Nat)
    (first middle last result : Nat) (is_vector : Bool) (s : σ) : σ × Nat :=
  match is_vector with
  | false => std_rotate_copy first middle last result s
  | true => std_rotate_copy first middle last result s

/-- Embedding of `pattern_rotate_copy`: the serial and the parallel overload both call
`brick_rotate_copy` with the vector tag they were given. -/
def pattern_rotate_copy {σ : Type} (std_rotate_copy : Nat → Nat → Nat → Nat → σ → σ × Nat)
    (first middle last result : Nat) (is_vector is_parallel : Bool) (s : σ) : σ × Nat :=
  match is_parallel with
  | false => brick_rotate_copy std_rotate_copy first middle last result is_vector s
  | true => brick_rotate_copy std_rotate_copy first middle last result is_vector s

/-- Embedding of scalar `brick_is_partitioned`: forwards to `std::is_partitioned`. -/
def brick_is_partitioned.serial {σ P : Type} (std_is_partitioned : Nat → Nat → P → σ → σ × Bool)
    (first last : Nat) (pred : P) (s : σ) : σ × Bool :=
  std_is_partitioned first last pred s

/-- Embedding of `brick_is_partitioned`: the vectorized overload calls the scalar overload
`brick_is_partitioned(..., std::false_type())`. -/
def brick_is_partitioned {σ P : Type} (std_is_partitioned : Nat → Nat → P → σ → σ × Bool)
    (first last : Nat) (pred : P) (is_vector : Bool) (s : σ) : σ × Bool :=
  match is_vector with
  | false => brick_is_partitioned.serial std_is_partitioned first last pred s
  | true => brick_is_partitioned.serial std_is_partitioned first last pred s

/-- Embedding of `pattern_is_partitioned`: the serial and the parallel overload both call
`brick_is_partitioned` with the vector tag they were given. -/
def pattern_is_partitioned {σ P : Type} (std_is_partitioned : Nat → Nat → P → σ → σ × Bool)
    (first last : Nat) (pred : P) (is_vector is_parallel : Bool) (s : σ) : σ × Bool :=
  match is_parallel with
  | false => brick_is_partitioned std_is_partitioned first last pred is_vector s
  | true => brick_is_partitioned std_is_partitioned first last pred is_vector s

/-- Embedding of `brick_partition`: the scalar and the vectorized overload both forward to
`std::partition`. -/
def brick_partition {σ P : Type} (std_partition : Nat → Nat → P → σ → σ × Nat) (first last : Nat)
    (pred : P) (is_vector : Bool) (s : σ) : σ × Nat :=
  match is_vector with
  | false => std_partition first last pred s
  | true => std_partition first last pred s

/-- Embedding of `pattern_partition`: the serial and the parallel overload both call
`brick_partition` with the vector tag they were given. -/
def pattern_partition {σ P : Type} (std_partition : Nat → Nat → P → σ → σ × Nat)
    (first last : Nat) (pred : P) (is_vector is_parallel : Bool) (s : σ) : σ × Nat :=
  match is_parallel with
  | false => brick_partition std_partition first last pred is_vector s
  | true => brick_partition std_partition first last pred is_vector s

/-- Embedding of `brick_stable_partition`: the scalar and the vectorized overload both forward to
`std::stable_partition`. -/
def brick_stable_partition {σ P : Type} (std_stable_partition : Nat → Nat → P → σ → σ × Nat)
    (first last : Nat) (pred : P) (is_vector : Bool) (s : σ) : σ × Nat :=
  match is_vector with
  | false => std_stable_partition first last pred s
  | true => std_stable_partition first last pred s

/-- Embedding of `pattern_stable_partition`: the serial and the parallel overload both call
`brick_stable_partition` with the vector tag they were given. -/
def pattern_stable_partition {σ P : Type} (std_stable_partition : Nat → Nat → P → σ → σ × Nat)
    (first last : Nat) (pred : P) (is_vector is_parallel : Bool) (s : σ) : σ × Nat :=
  match is_parallel with
  | false => brick_stable_partition std_stable_partition first last pred is_vector s
  | true => brick_stable_partition std_stable_partition first last pred is_vector s

/-- Embedding of `brick_partial_sort`: the scalar and the vectorized overload both forward to
`std::partial_sort`. -/
def brick_partial_sort {σ P : Type} (std_partial_sort : Nat → Nat → Nat → P → σ → σ)
    (first middle last : Nat) (comp : P) (is_vector : Bool) (s : σ) : σ :=
  match is_vector with
  | false => std_partial_sort first middle last comp s
  | true => std_partial_sort first middle last comp s

/-- Embedding of `pattern_partial_sort`: the serial and the parallel overload both call
`brick_partial_sort` with the vector tag they were given. -/
def pattern_partial_sort {σ P : Type} (std_partial_sort : Nat → Nat → Nat → P → σ → σ)
    (first middle last : Nat) (comp : P) (is_vector is_parallel : Bool) (s : σ) : σ :=
  match is_parallel with
  | false => brick_partial_sort std_partial_sort first middle last comp is_vector s
  | true => brick_partial_sort std_partial_sort first middle last comp is_vector s

/-- Embedding of `brick_partial_sort_copy`: the scalar and the vectorized overload both forward to
`std::partial_sort_copy`. -/
def brick_partial_sort_copy {σ P : Type}
    (std_partial_sort_copy : Nat → Nat → Nat → Nat → P → σ → σ × Nat)
    (first last d_first d_last : Nat) (comp : P) (is_vector : Bool) (s : σ) : σ × Nat :=
  match is_vector with
  | false => std_partial_sort_copy first last d_first d_last comp s
  | true => std_partial_sort_copy first last d_first d_last comp s

/-- Embedding of `pattern_partial_sort_copy`: the serial and the parallel overload both call
`brick_partial_sort_copy` with the vector tag they were given. -/
def pattern_partial_sort_copy {σ P : Type}
    (std_partial_sort_copy : Nat → Nat → Nat → Nat → P → σ → σ × Nat)
    (first last d_first d_last : Nat) (comp : P) (is_vector is_parallel : Bool) (s : σ) : σ × Nat
    :=
  match is_parallel with
  | false => brick_partial_sort_copy std_partial_sort_copy first last d_first d_last comp
    is_vector s
  | true => brick_partial_sort_copy std_partial_sort_copy first last d_first d_last comp is_vector
    s

/-- Embedding of `brick_nth_element`: the scalar and the vectorized overload both forward to
`std::nth_element`. -/
def brick_nth_element {σ P : Type} (std_nth_element : Nat → Nat → Nat → P → σ → σ)
    (first nth last : Nat) (comp : P) (is_vector : Bool) (s : σ) : σ :=
  match is_vector with
  | false => std_nth_element first nth last comp s
  | true => std_nth_element first nth last comp s

/-- Embedding of `pattern_nth_element`: the serial and the parallel overload both call
`brick_nth_element` with the vector tag they were given. -/
def pattern_nth_element {σ P : Type} (std_nth_element : Nat → Nat → Nat → P → σ → σ)
    (first nth last : Nat) (comp : P) (is_vector is_parallel : Bool) (s : σ) : σ :=
  match is_parallel with
  | false => brick_nth_element std_nth_element first nth last comp is_vector s
  | true => brick_nth_element std_nth_element first nth last comp is_vector s

/-- Embedding of `brick_remove_if`: the scalar and the vectorized overload both forward to
`std::remove_if`. -/
def brick_remove_if {σ P : Type} (std_remove_if : Nat → Nat → P → σ → σ × Nat) (first last : Nat)
    (pred : P) (is_vector : Bool) (s : σ) : σ × Nat :=
  match is_vector with
  | false => std_remove_if first last pred s
  | true => std_remove_if first last pred s

/-- Embedding of `pattern_remove_if`: the serial and the parallel overload both call
`brick_remove_if` with the vector tag they were given. -/
def pattern_remove_if {σ P : Type} (std_remove_if : Nat → Nat → P → σ → σ × Nat)
    (first last : Nat) (pred : P) (is_vector is_parallel : Bool) (s : σ) : σ × Nat :=
  match is_parallel with
  | false => brick_remove_if std_remove_if first last pred is_vector s
  | true => brick_remove_if std_remove_if first last pred is_vector s

/-- Embedding of `brick_merge`: the scalar and the vectorized overload both forward to
`std::merge`. -/
def brick_merge {σ P : Type} (std_merge : Nat → Nat → Nat → Nat → Nat → P → σ → σ × Nat)
    (first1 last1 first2 last2 d_first : Nat) (comp : P) (is_vector : Bool) (s : σ) : σ × Nat :=
  match is_vector with
  | false => std_merge first1 last1 first2 last2 d_first comp s
  | true => std_merge first1 last1 first2 last2 d_first comp s

/-- Embedding of `pattern_merge`: the serial and the parallel overload both call `brick_merge`
with the vector tag they were given. -/
def pattern_merge {σ P : Type} (std_merge : Nat → Nat → Nat → Nat → Nat → P → σ → σ × Nat)
    (first1 last1 first2 last2 d_first : Nat) (comp : P) (is_vector is_parallel : Bool) (s : σ) :
    σ × Nat :=
  match is_parallel with
  | false => brick_merge std_merge first1 last1 first2 last2 d_first comp is_vector s
  | true => brick_merge std_merge first1 last1 first2 last2 d_first comp is_vector s

/-- Embedding of `brick_inplace_merge`: the scalar and the vectorized overload both forward to
`std::inplace_merge`. -/
def brick_inplace_merge {σ P : Type} (std_inplace_merge : Nat → Nat → Nat → P → σ → σ)
    (first middle last : Nat) (comp : P) (is_vector : Bool) (s : σ) : σ :=
  match is_vector with
  | false => std_inplace_merge first middle last comp s
  | true => std_inplace_merge first middle last comp s

/-- Embedding of `pattern_inplace_merge`: the serial and the parallel overload both call
`brick_inplace_merge` with the vector tag they were given. -/
def pattern_inplace_merge {σ P : Type} (std_inplace_merge : Nat → Nat → Nat → P → σ → σ)
    (first middle last : Nat) (comp : P) (is_vector is_parallel : Bool) (s : σ) : σ :=
  match is_parallel with
  | false => brick_inplace_merge std_inplace_merge first middle last comp is_vector s
  | true => brick_inplace_merge std_inplace_merge first middle last comp is_vector s

/-- Embedding of `brick_includes`: the scalar and the vectorized overload both forward to
`std::includes`. -/
def brick_includes {σ P : Type} (std_includes : Nat → Nat → Nat → Nat → P → σ → σ × Bool)
    (first1 last1 first2 last2 : Nat) (comp : P) (is_vector : Bool) (s : σ) : σ × Bool :=
  match is_vector with
  | false => std_includes first1 last1 first2 last2 comp s
  | true => std_includes first1 last1 first2 last2 comp s

/-- Embedding of `pattern_includes`: the serial and the parallel overload both call
`brick_includes` with the vector tag they were given. -/
def pattern_includes {σ P : Type} (std_includes : Nat → Nat → Nat → Nat → P → σ → σ × Bool)
    (first1 last1 first2 last2 : Nat) (comp : P) (is_vector is_parallel : Bool) (s : σ) : σ × Bool
    :=
  match is_parallel with
  | false => brick_includes std_includes first1 last1 first2 last2 comp is_vector s
  | true => brick_includes std_includes first1 last1 first2 last2 comp is_vector s

/-- Embedding of `brick_set_union`: the scalar and the vectorized overload both forward to
`std::set_union`. -/
def brick_set_union {σ P : Type} (std_set_union : Nat → Nat → Nat → Nat → Nat → P → σ → σ × Nat)
    (first1 last1 first2 last2 result : Nat) (comp : P) (is_vector : Bool) (s : σ) : σ × Nat :=
  match is_vector with
  | false => std_set_union first1 last1 first2 last2 result comp s
  | true => std_set_union first1 last1 first2 last2 result comp s

/-- Embedding of `pattern_set_union`: the serial and the parallel overload both call
`brick_set_union` with the vector tag they were given. -/
def pattern_set_union {σ P : Type} (std_set_union : Nat → Nat → Nat → Nat → Nat → P → σ → σ × Nat)
    (first1 last1 first2 last2 result : Nat) (comp : P) (is_vector is_parallel : Bool) (s : σ) :
    σ × Nat :=
  match is_parallel with
  | false => brick_set_union std_set_union first1 last1 first2 last2 result comp is_vector s
  | true => brick_set_union std_set_union first1 last1 first2 last2 result comp is_vector s

/-- Embedding of `brick_set_intersection`: the scalar and the vectorized overload both forward to
`std::set_intersection`. -/
def brick_set_intersection {σ P : Type}
    (std_set_intersection : Nat → Nat → Nat → Nat → Nat → P → σ → σ × Nat)
    (first1 last1 first2 last2 result : Nat) (comp : P) (is_vector : Bool) (s : σ) : σ × Nat :=
  match is_vector with
  | false => std_set_intersection first1 last1 first2 last2 result comp s
  | true => std_set_intersection first1 last1 first2 last2 result comp s

/-- Embedding of `pattern_set_intersection`: the serial and the parallel overload both call
`brick_set_intersection` with the vector tag they were given. -/
def pattern_set_intersection {σ P : Type}
    (std_set_intersection : Nat → Nat → Nat → Nat → Nat → P → σ → σ × Nat)
    (first1 last1 first2 last2 result : Nat) (comp : P) (is_vector is_parallel : Bool) (s : σ) :
    σ × Nat :=
  match is_parallel with
  | false => brick_set_intersection std_set_intersection first1 last1 first2 last2 result comp
    is_vector s
  | true => brick_set_intersection std_set_intersection first1 last1 first2 last2 result comp
    is_vector s

/-- Embedding of `brick_set_difference`: the scalar and the vectorized overload both forward to
`std::set_difference`. -/
def brick_set_difference {σ P : Type}
    (std_set_difference : Nat → Nat → Nat → Nat → Nat → P → σ → σ × Nat)
    (first1 last1 first2 last2 result : Nat) (comp : P) (is_vector : Bool) (s : σ) : σ × Nat :=
  match is_vector with
  | false => std_set_difference first1 last1 first2 last2 result comp s
  | true => std_set_difference first1 last1 first2 last2 result comp s

/-- Embedding of `pattern_set_difference`: the serial and the parallel overload both call
`brick_set_difference` with the vector tag they were given. -/
def pattern_set_difference {σ P : Type}
    (std_set_difference : Nat → Nat → Nat → Nat → Nat → P → σ → σ × Nat)
    (first1 last1 first2 last2 result : Nat) (comp : P) (is_vector is_parallel : Bool) (s : σ) :
    σ × Nat :=
  match is_parallel with
  | false => brick_set_difference std_set_difference first1 last1 first2 last2 result comp
    is_vector s
  | true => brick_set_difference std_set_difference first1 last1 first2 last2 result comp
    is_vector s

/-- Embedding of `brick_set_symmetric_difference`: the scalar and the vectorized overload both
forward to `std::set_symmetric_difference`. -/
def brick_set_symmetric_difference {σ P : Type}
    (std_set_symmetric_difference : Nat → Nat → Nat → Nat → Nat → P → σ → σ × Nat)
    (first1 last1 first2 last2 result : Nat) (comp : P) (is_vector : Bool) (s : σ) : σ × Nat :=
  match is_vector with
  | false => std_set_symmetric_difference first1 last1 first2 last2 result comp s
  | true => std_set_symmetric_difference first1 last1 first2 last2 result comp s

/-- Embedding of `pattern_set_symmetric_difference`: the serial and the parallel overload both
call `brick_set_symmetric_difference` with the vector tag they were given. -/
def pattern_set_symmetric_difference {σ P : Type}
    (std_set_symmetric_difference : Nat → Nat → Nat → Nat → Nat → P → σ → σ × Nat)
    (first1 last1 first2 last2 result : Nat) (comp : P) (is_vector is_parallel : Bool) (s : σ) :
    σ × Nat :=
  match is_parallel with
  | false => brick_set_symmetric_difference std_set_symmetric_difference first1 last1 first2 last2
    result comp is_vector s
  | true => brick_set_symmetric_difference std_set_symmetric_difference first1 last1 first2 last2
    result comp is_vector s

/-- Embedding of `brick_is_heap_until`: the scalar and the vectorized overload both forward to
`std::is_heap_until`. -/
def brick_is_heap_until {σ P : Type} (std_is_heap_until : Nat → Nat → P → σ → σ × Nat)
    (first last : Nat) (comp : P) (is_vector : Bool) (s : σ) : σ × Nat :=
  match is_vector with
  | false => std_is_heap_until first last comp s
  | true => std_is_heap_until first last comp s

/-- Embedding of `pattern_is_heap_until`: the serial and the parallel overload both call
`brick_is_heap_until` with the vector tag they were given. -/
def pattern_is_heap_until {σ P : Type} (std_is_heap_until : Nat → Nat → P → σ → σ × Nat)
    (first last : Nat) (comp : P) (is_vector is_parallel : Bool) (s : σ) : σ × Nat :=
  match is_parallel with
  | false => brick_is_heap_until std_is_heap_until first last comp is_vector s
  | true => brick_is_heap_until std_is_heap_until first last comp is_vector s

/-- Embedding of `brick_lexicographical_compare`: the scalar and the vectorized overload both
forward to `std::lexicographical_compare`. -/
def brick_lexicographical_compare {σ P : Type}
    (std_lexicographical_compare : Nat → Nat → Nat → Nat → P → σ → σ × Bool)
    (first1 last1 first2 last2 : Nat) (comp : P) (is_vector : Bool) (s : σ) : σ × Bool :=
  match is_vector with
  | false => std_lexicographical_compare first1 last1 first2 last2 comp s
  | true => std_lexicographical_compare first1 last1 first2 last2 comp s

/-- Embedding of `pattern_lexicographical_compare`: the serial and the parallel overload both call
`brick_lexicographical_compare` with the vector tag they were given. -/
def pattern_lexicographical_compare {σ P : Type}
    (std_lexicographical_compare : Nat → Nat → Nat → Nat → P → σ → σ × Bool)
    (first1 last1 first2 last2 : Nat) (comp : P) (is_vector is_parallel : Bool) (s : σ) : σ × Bool
    :=
  match is_parallel with
  | false => brick_lexicographical_compare std_lexicographical_compare first1 last1 first2 last2
    comp is_vector s
  | true => brick_lexicographical_compare std_lexicographical_compare first1 last1 first2 last2
    comp is_vector s

end internal
end pstl

namespace std

/-- Loop of the sequential reference `std::minmax_element` over `k` remaining positions: the
first component tracks the first smallest element, the second the last largest one. -/
def minmax_element.loop {α : Type} (x : Nat → α) (comp : α → α → Bool) :
    Nat → Nat → Nat × Nat → Nat × Nat
  | 0, _, r => r
  | k + 1, first, r =>
    minmax_element.loop x comp k (first + 1)
      (if comp (x first) (x r.1) then first else r.1,
        if comp (x first) (x r.2) then r.2 else first)

/-- Sequential reference `std::minmax_element(first, last, comp)`: `make_pair(first, first)`
on an empty range, otherwise the scan started with both positions at `first`. -/
def minmax_element {α : Type} (x : Nat → α) (first last : Nat) (comp : α → α → Bool) :
    Nat × Nat :=
  if first = last then (first, first)
  else minmax_element.loop x comp (last - (first + 1)) (first + 1) (first, first)

end std

namespace pstl
namespace par_backend

/-- Embedding of `par_backend::parallel_reduce(first, last, identity, real_body, reduction)`:
the function body is empty and has no return statement, so neither `real_body` nor
`reduction` is invoked and the value the caller receives is indeterminate; `indeterminate`
stands for that value. -/
def parallel_reduce {V : Type} (_first _last : Nat) (_identity : V)
    (_real_body : Nat → Nat → V → V) (_reduction : V → V → V) (indeterminate : V) : V :=
  indeterminate

/-- Embedding of `split` over a fixed-width `Index`, run for at most `fuel` evaluations of the
loop condition `2*k < m`.  The product `2*k` of the condition is computed in the type `Index`
is promoted to and reduced by `wrap_product`; the value assigned by `k *= 2` is converted back
to `Index` and reduced by `wrap_store`.  For an unbounded integer both are the identity; for a
`w`-bit unsigned `Index` at least as wide as `int` both are `fun v => v % 2 ^ w`; for a
`w`-bit unsigned `Index` narrower than `int` the product is computed in `int` without
reduction (`wrap_product` is the identity) and only the assignment reduces.  The result is
`none` when the loop is still running after `fuel` evaluations; otherwise the value returned,
paired with a flag telling whether some product or assigned value was changed by a
reduction. -/
def split_on (wrap_product wrap_store : Nat → Nat) (m : Nat) :
    Nat → Nat → Bool → Option (Nat × Bool)
  | 0, _, _ => none
  | fuel + 1, k, wrapped =>
    if wrap_product (2 * k) < m then
      split_on wrap_product wrap_store m fuel (wrap_store (k * 2))
        (wrapped || wrap_product (2 * k) != 2 * k || wrap_store (k * 2) != k * 2)
    else
      some (k, wrapped || wrap_product (2 * k) != 2 * k)

end par_backend

namespace internal

/-- Embedding of `pattern_adjacent_find` for scalar bricks; `is_parallel` selects the
overload and `indeterminate` is the value `par_backend::parallel_reduce` hands back. -/
def pattern_adjacent_find {α : Type} (x : Nat → α) (first last : Nat) (pred : α → α → Bool)
    (is_parallel or_semantic : Bool) (indeterminate : Nat) : Nat :=
  if is_parallel then
    if last - first < 2 then last
    else
      except_handler fun _ =>
        par_backend.parallel_reduce first last last
          (pattern_adjacent_find.body x last pred or_semantic)
          pattern_adjacent_find.combine indeterminate
  else
    brick_adjacent_find x first last pred or_semantic

/-- Embedding of `pattern_min_element` for scalar bricks; `is_parallel` selects the overload
and `indeterminate` is the value `par_backend::parallel_reduce` hands back. -/
def pattern_min_element {α : Type} (x : Nat → α) (first last : Nat) (comp : α → α → Bool)
    (is_parallel : Bool) (indeterminate : Nat) : Nat :=
  if is_parallel then
    if first = last then last
    else
      except_handler fun _ =>
        par_backend.parallel_reduce (first + 1) last first
          (pattern_min_element.body x comp) (pattern_min_element.combine x comp) indeterminate
  else
    brick_min_element x first last comp

/-- Modelled from the spec: `not_pred<Compare>(comp)` is declared outside the translated
headers; it is the negated comparator, used to select the largest element. -/
def not_pred {α : Type} (comp : α → α → Bool) : α → α → Bool :=
  fun a b => !comp a b

/-- Embedding of `brick_minmax_element` (both overloads forward to `std::minmax_element`). -/
def brick_minmax_element {α : Type} (x : Nat → α) (first last : Nat) (comp : α → α → Bool) :
    Nat × Nat :=
  std.minmax_element x first last comp

/-- The reduce body of the parallel `pattern_minmax_element`. -/
def pattern_minmax_element.body {α : Type} (x : Nat → α) (comp : α → α → Bool)
    (begin end_ : Nat) (init : Nat × Nat) : Nat × Nat :=
  let subresult := brick_minmax_element x begin end_ comp
  (cmp_iterators_by_values x subresult.1 init.1 comp,
    cmp_iterators_by_values x init.2 subresult.2 (not_pred comp))

/-- The combine function of the parallel `pattern_minmax_element`. -/
def pattern_minmax_element.combine {α : Type} (x : Nat → α) (comp : α → α → Bool)
    (p1 p2 : Nat × Nat) : Nat × Nat :=
  (cmp_iterators_by_values x p1.1 p2.1 comp,
    cmp_iterators_by_values x p2.2 p1.2 (not_pred comp))

/-- Embedding of `pattern_minmax_element` for scalar bricks; `is_parallel` selects the
overload and `indeterminate` is the value `par_backend::parallel_reduce` hands back. -/
def pattern_minmax_element {α : Type} (x : Nat → α) (first last : Nat) (comp : α → α → Bool)
    (is_parallel : Bool) (indeterminate : Nat × Nat) : Nat × Nat :=
  if is_parallel then
    if first = last then (first, first)
    else
      except_handler fun _ =>
        par_backend.parallel_reduce (first + 1) last (first, first)
          (pattern_minmax_element.body x comp) (pattern_minmax_element.combine x comp)
          indeterminate
  else
    brick_minmax_element x first last comp

end internal
end pstl

/-! # Theorems -/

/-! ## Filter scan: `copy_if` -/

namespace std

theorem selected_zero {α : Type} (x : Nat → α) (pred : α → Bool) (first : Nat) :
    selected x pred first 0 = [] := rfl

theorem selected_succ {α : Type} (x : Nat → α) (pred : α → Bool) (first k : Nat) :
    selected x pred first (k + 1) =
      if pred (x first) then x first :: selected x pred (first + 1) k
      else selected x pred (first + 1) k := by
  simp [selected, List.range'_succ, List.filter_cons]

theorem selected_add {α : Type} (x : Nat → α) (pred : α → Bool) (a b : Nat) :
    ∀ first, selected x pred first (a + b) =
      selected x pred first a ++ selected x pred (first + a) b := by
  induction a with
  | zero => intro first; simp [selected_zero]
  | succ a ih =>
    intro first
    have h : a + 1 + b = (a + b) + 1 := by omega
    rw [h, selected_succ, selected_succ, ih (first + 1)]
    have h2 : first + 1 + a = first + (a + 1) := by omega
    rw [h2]
    split <;> simp

theorem copy_if_loop_snd {α : Type} (x : Nat → α) (pred : α → Bool) :
    ∀ k first out result,
      (copy_if.loop x pred k first out result).2 = result + (selected x pred first k).length := by
  intro k
  induction k with
  | zero => intro first out result; simp [copy_if.loop, selected_zero]
  | succ k ih =>
    intro first out result
    rw [copy_if.loop, selected_succ]
    split
    · rw [ih]; simp; omega
    · rw [ih]

theorem copy_if_loop_fst {α : Type} (x : Nat → α) (pred : α → Bool) :
    ∀ k first out result j,
      (copy_if.loop x pred k first out result).1 j =
        if result ≤ j then (selected x pred first k).getD (j - result) (out j) else out j := by
  intro k
  induction k with
  | zero => intro first out result j; simp [copy_if.loop, selected_zero]
  | succ k ih =>
    intro first out result j
    rw [copy_if.loop, selected_succ]
    by_cases hp : pred (x first) = true
    · simp only [hp, if_true]
      rw [ih]
      by_cases h1 : result + 1 ≤ j
      · have h2 : result ≤ j := by omega
        have h3 : j - result = (j - (result + 1)) + 1 := by omega
        have h4 : j ≠ result := by omega
        simp [h1, h2, h3, Function.update_noteq h4]
      · by_cases h2 : result = j
        · subst h2; simp
        · have h3 : ¬ result ≤ j := by omega
          have h4 : j ≠ result := by omega
          simp [h1, h3, Function.update_noteq h4]
    · simp only [hp, if_false, Bool.false_eq_true]
      rw [ih]

theorem copy_if_loop_add {α : Type} (x : Nat → α) (pred : α → Bool) (a b : Nat) :
    ∀ first out result,
      copy_if.loop x pred (a + b) first out result =
        copy_if.loop x pred b (first + a) (copy_if.loop x pred a first out result).1
          (copy_if.loop x pred a first out result).2 := by
  induction a with
  | zero => intro first out result; simp [copy_if.loop]
  | succ a ih =>
    intro first out result
    have h : a + 1 + b = (a + b) + 1 := by omega
    have h2 : first + (a + 1) = first + 1 + a := by omega
    rw [h, copy_if.loop, copy_if.loop, h2]
    split
    · rw [ih]
    · rw [ih]

end std

namespace pstl
namespace internal

theorem brick_calc_mask_1_loop_fst {α : Type} (x : Nat → α) (pred : α → Bool) :
    ∀ k first maskp mask count_true j,
      (brick_calc_mask_1.loop x pred k first maskp mask count_true).1 j =
        if maskp ≤ j ∧ j < maskp + k then pred (x (first + (j - maskp))) else mask j := by
  intro k
  induction k with
  | zero =>
    intro first maskp mask count_true j
    have h : ¬ (maskp ≤ j ∧ j < maskp + 0) := by omega
    rw [brick_calc_mask_1.loop, if_neg h]
  | succ k ih =>
    intro first maskp mask count_true j
    rw [brick_calc_mask_1.loop, ih]
    by_cases h1 : maskp + 1 ≤ j ∧ j < maskp + 1 + k
    · have h2 : maskp ≤ j ∧ j < maskp + (k + 1) := by omega
      have h3 : first + 1 + (j - (maskp + 1)) = first + (j - maskp) := by omega
      simp [h1, h2, h3]
    · by_cases h2 : j = maskp
      · subst h2; simp
      · have h3 : ¬ (maskp ≤ j ∧ j < maskp + (k + 1)) := by omega
        simp [h1, h3, Function.update_noteq h2]

theorem brick_calc_mask_1_loop_snd {α : Type} (x : Nat → α) (pred : α → Bool) :
    ∀ k first maskp mask count_true,
      (brick_calc_mask_1.loop x pred k first maskp mask count_true).2 =
        count_true + (std.selected x pred first k).length := by
  intro k
  induction k with
  | zero => intro first maskp mask count_true; simp [brick_calc_mask_1.loop, std.selected_zero]
  | succ k ih =>
    intro first maskp mask count_true
    rw [brick_calc_mask_1.loop, ih, std.selected_succ]
    by_cases hp : pred (x first) = true
    · simp [hp]; omega
    · simp [hp]

theorem brick_copy_by_mask_loop_eq {α : Type} (x : Nat → α) (pred : α → Bool)
    (mask : Nat → Bool) :
    ∀ k first maskp out result,
      (∀ t, t < k → mask (maskp + t) = pred (x (first + t))) →
      brick_copy_by_mask.loop x mask k first maskp out result =
        (std.copy_if.loop x pred k first out result).1 := by
  intro k
  induction k with
  | zero => intro first maskp out result _; simp [brick_copy_by_mask.loop, std.copy_if.loop]
  | succ k ih =>
    intro first maskp out result h
    have h0 : mask maskp = pred (x first) := by simpa using h 0 (by omega)
    have hs : ∀ t, t < k → mask (maskp + 1 + t) = pred (x (first + 1 + t)) := by
      intro t ht
      have := h (t + 1) (by omega)
      have e1 : maskp + 1 + t = maskp + (t + 1) := by omega
      have e2 : first + 1 + t = first + (t + 1) := by omega
      rw [e1, e2]; exact this
    rw [brick_copy_by_mask.loop, std.copy_if.loop, h0]
    split
    · exact ih _ _ _ _ hs
    · exact ih _ _ _ _ hs

end internal
end pstl

namespace pstl
namespace internal

theorem pattern_copy_if_reduce_eq {α : Type} (x : Nat → α) (first : Nat) (pred : α → Bool)
    (i len : Nat) (s : CopyIfState α) :
    (pattern_copy_if.reduce x first pred i len s).1 =
        (std.selected x pred (first + i) len).length ∧
      (pattern_copy_if.reduce x first pred i len s).2.out = s.out ∧
      (pattern_copy_if.reduce x first pred i len s).2.m = s.m ∧
      ∀ j, (pattern_copy_if.reduce x first pred i len s).2.mask j =
        if i ≤ j ∧ j < i + len then pred (x (first + j)) else s.mask j := by
  have hlen : first + (i + len) - (first + i) = len := by omega
  refine ⟨?_, rfl, rfl, ?_⟩
  · simp [pattern_copy_if.reduce, brick_calc_mask_1, hlen, brick_calc_mask_1_loop_snd]
  · intro j
    simp only [pattern_copy_if.reduce, brick_calc_mask_1, hlen]
    rw [brick_calc_mask_1_loop_fst]
    by_cases h : i ≤ j ∧ j < i + len
    · have e : first + i + (j - i) = first + j := by omega
      simp [h, e]
    · simp [h]

theorem copy_if_reduce_pass_spec {α : Type} (x : Nat → α) (first : Nat) (pred : α → Bool) :
    ∀ lens i (s : CopyIfState α),
      (copy_if_reduce_pass x first pred (tiles i lens) s).1 =
          (tiles i lens).map (fun t => (std.selected x pred (first + t.1) t.2).length) ∧
        (copy_if_reduce_pass x first pred (tiles i lens) s).2.out = s.out ∧
        (copy_if_reduce_pass x first pred (tiles i lens) s).2.m = s.m ∧
        ∀ j, (copy_if_reduce_pass x first pred (tiles i lens) s).2.mask j =
          if i ≤ j ∧ j < i + lens.sum then pred (x (first + j)) else s.mask j := by
  intro lens
  induction lens with
  | nil =>
    intro i s
    refine ⟨rfl, rfl, rfl, ?_⟩
    intro j
    have h : ¬ (i ≤ j ∧ j < i + ([] : List Nat).sum) := by simp
    rw [if_neg h]; rfl
  | cons len rest ih =>
    intro i s
    obtain ⟨h1, h2, h3, h4⟩ := pattern_copy_if_reduce_eq x first pred i len s
    obtain ⟨g1, g2, g3, g4⟩ := ih (i + len) (pattern_copy_if.reduce x first pred i len s).2
    simp only [tiles, copy_if_reduce_pass, List.map_cons, List.sum_cons]
    refine ⟨?_, ?_, ?_, ?_⟩
    · rw [h1, g1]
    · rw [g2, h2]
    · rw [g3, h3]
    · intro j
      rw [g4, h4]
      by_cases a : i + len ≤ j ∧ j < i + len + rest.sum
      · have b : i ≤ j ∧ j < i + (len + rest.sum) := by omega
        simp [a, b]
      · by_cases b : i ≤ j ∧ j < i + len
        · have c : i ≤ j ∧ j < i + (len + rest.sum) := by omega
          simp [a, b, c]
        · have c : ¬ (i ≤ j ∧ j < i + (len + rest.sum)) := by omega
          simp [a, b, c]

theorem tile_counts_sum {α : Type} (x : Nat → α) (first : Nat) (pred : α → Bool) :
    ∀ lens i,
      ((tiles i lens).map (fun t => (std.selected x pred (first + t.1) t.2).length)).sum =
        (std.selected x pred (first + i) lens.sum).length := by
  intro lens
  induction lens with
  | nil => intro i; simp [tiles, std.selected_zero]
  | cons len rest ih =>
    intro i
    simp only [tiles, List.map_cons, List.sum_cons]
    rw [ih, std.selected_add, List.length_append]
    have e : first + (i + len) = first + i + len := by omega
    rw [e]

theorem copy_if_scan_pass_spec {α : Type} (x : Nat → α) (first result : Nat)
    (pred : α → Bool) :
    ∀ lens i initial (s : CopyIfState α),
      (∀ j, i ≤ j → j < i + lens.sum → s.mask j = pred (x (first + j))) →
      copy_if_scan_pass x first result (tiles i lens)
          ((tiles i lens).map (fun t => (std.selected x pred (first + t.1) t.2).length))
          initial s =
        { s with out :=
            (std.copy_if.loop x pred lens.sum (first + i) s.out (result + initial)).1 } := by
  intro lens
  induction lens with
  | nil => intro i initial s _; simp [tiles, copy_if_scan_pass, std.copy_if.loop]
  | cons len rest ih =>
    intro i initial s hmask
    simp only [tiles, List.map_cons, copy_if_scan_pass, List.sum_cons]
    have hlen : first + (i + len) - (first + i) = len := by omega
    have hbrick : (pattern_copy_if.scan x first result i len initial s) =
        { s with out := (std.copy_if.loop x pred len (first + i) s.out (result + initial)).1 } := by
      simp only [pattern_copy_if.scan, brick_copy_by_mask, hlen]
      rw [brick_copy_by_mask_loop_eq x pred]
      intro t ht
      have := hmask (i + t) (by omega) (by simp only [List.sum_cons]; omega)
      rw [this]
      congr 2
      omega
    rw [hbrick, ih]
    · simp only
      rw [std.copy_if_loop_add, std.copy_if_loop_snd]
      have e1 : first + (i + len) = first + i + len := by omega
      have e2 : result + (initial + (std.selected x pred (first + i) len).length) =
          result + initial + (std.selected x pred (first + i) len).length := by omega
      rw [e1, e2]
    · intro j h1 h2
      exact hmask j (by omega) (by simp only [List.sum_cons]; omega)

end internal
end pstl

namespace pstl
namespace internal

theorem copy_if_readback {α : Type} (x : Nat → α) (pred : α → Bool) (first k : Nat)
    (out : Nat → α) (result : Nat) :
    (List.range (std.selected x pred first k).length).map
        (fun t => (std.copy_if.loop x pred k first out result).1 (result + t)) =
      std.selected x pred first k := by
  apply List.ext_getElem
  · simp
  · intro t h1 h2
    have ht : t < (std.selected x pred first k).length := by simpa using h2
    simp only [List.getElem_map, List.getElem_range]
    rw [std.copy_if_loop_fst]
    have e : result + t - result = t := by omega
    simp [e, List.getElem?_eq_getElem ht]

/-- C1 (behaviour of the code): whenever the input has more than one element and the mask
buffer was obtained, the parallel overload of `pattern_copy_if` leaves the output memory as it
was and returns `result + m0`, the value of the never-assigned local `m`; on the scenario
`[3,1,4,1,5,9,2,6]` with predicate "is odd" the serial brick writes `[3,1,1,5,9]` and returns
`result + 5`, while the parallel overload writes nothing. -/
theorem pattern_copy_if_parallel_writes_nothing :
    (∀ (α : Type) (x : Nat → α) (first last : Nat) (out : Nat → α) (result : Nat)
        (pred : α → Bool) (mask : Nat → Bool) (m0 : Nat), 1 < last - first →
        pattern_copy_if x first last out result pred true (some mask) m0 =
          (out, result + m0)) ∧
      (List.range 5).map
          (brick_copy_if (fun k => [3, 1, 4, 1, 5, 9, 2, 6].getD k 0) 0 8 (fun _ => 0) 0
            (fun v => v % 2 == 1)).1 = [3, 1, 1, 5, 9] ∧
      (brick_copy_if (fun k => [3, 1, 4, 1, 5, 9, 2, 6].getD k 0) 0 8 (fun _ => 0) 0
            (fun v => v % 2 == 1)).2 = 0 + 5 ∧
      ∀ (mask : Nat → Bool) (m0 : Nat),
        (List.range 5).map
          (pattern_copy_if (fun k => [3, 1, 4, 1, 5, 9, 2, 6].getD k 0) 0 8 (fun _ => 0) 0
            (fun v => v % 2 == 1) true (some mask) m0).1 = [0, 0, 0, 0, 0] := by
  have key : ∀ (α : Type) (x : Nat → α) (first last : Nat) (out : Nat → α) (result : Nat)
      (pred : α → Bool) (mask : Nat → Bool) (m0 : Nat), 1 < last - first →
      pattern_copy_if x first last out result pred true (some mask) m0 =
        (out, result + m0) := by
    intro α x first last out result pred mask m0 h
    simp [pattern_copy_if, h, except_handler, par_backend.parallel_strict_scan]
  refine ⟨key, ?_, ?_, ?_⟩
  · decide
  · decide
  · intro mask m0
    rw [key _ _ _ _ _ _ _ _ _ (by decide)]
    rfl

/-- C2: for every input region `x`, range `[first, first + n)`, predicate and partition of
`[0, n)` into consecutive tiles (of any lengths summing to `n`, so in particular non-empty
tiles of a range with `n > 1`), whatever the mask buffer and the output memory hold
beforehand: running the `Reduce` lambda of `pattern_copy_if` on every tile and then its `Scan`
lambda on every tile, with `initial` the sum of the `Reduce` results of the tiles to its
left, leaves the output memory exactly as `std::copy_if` leaves it, the sum of the `Reduce`
results is the number of elements written (the returned end position agrees), the written
slice holds exactly the elements satisfying `pred` in input order, and nothing outside that
slice changes. -/
theorem copy_if_two_pass_eq_serial {α : Type} (x : Nat → α) (first n : Nat) (pred : α → Bool)
    (lens : List Nat) (mask0 : Nat → Bool) (out : Nat → α) (result m0 : Nat)
    (hsum : lens.sum = n) :
    (copy_if_scan_pass x first result (tiles 0 lens)
        (copy_if_reduce_pass x first pred (tiles 0 lens) ⟨mask0, out, m0⟩).1 0
        (copy_if_reduce_pass x first pred (tiles 0 lens) ⟨mask0, out, m0⟩).2).out =
      (std.copy_if x first (first + n) out result pred).1 ∧
    result + (copy_if_reduce_pass x first pred (tiles 0 lens) ⟨mask0, out, m0⟩).1.sum =
      (std.copy_if x first (first + n) out result pred).2 ∧
    (List.range (copy_if_reduce_pass x first pred (tiles 0 lens) ⟨mask0, out, m0⟩).1.sum).map
        (fun t => (copy_if_scan_pass x first result (tiles 0 lens)
          (copy_if_reduce_pass x first pred (tiles 0 lens) ⟨mask0, out, m0⟩).1 0
          (copy_if_reduce_pass x first pred (tiles 0 lens) ⟨mask0, out, m0⟩).2).out
            (result + t)) =
      ((List.range' first n).map x).filter pred ∧
    ∀ j, j < result ∨
        result + (copy_if_reduce_pass x first pred (tiles 0 lens) ⟨mask0, out, m0⟩).1.sum ≤ j →
      (copy_if_scan_pass x first result (tiles 0 lens)
        (copy_if_reduce_pass x first pred (tiles 0 lens) ⟨mask0, out, m0⟩).1 0
        (copy_if_reduce_pass x first pred (tiles 0 lens) ⟨mask0, out, m0⟩).2).out j = out j := by
  obtain ⟨h1, h2, _, h4⟩ := copy_if_reduce_pass_spec x first pred lens 0 ⟨mask0, out, m0⟩
  have hmask : ∀ j, 0 ≤ j → j < 0 + lens.sum →
      (copy_if_reduce_pass x first pred (tiles 0 lens) ⟨mask0, out, m0⟩).2.mask j =
        pred (x (first + j)) := by
    intro j _ hj
    rw [h4, if_pos ⟨Nat.zero_le _, hj⟩]
  have hscan := copy_if_scan_pass_spec x first result pred lens 0 0 _ hmask
  have hcnt := tile_counts_sum x first pred lens 0
  have hn : first + n - first = n := by omega
  rw [h1, hscan, hcnt, h2, hsum]
  simp only [std.copy_if, hn, Nat.add_zero]
  refine ⟨trivial, ?_, ?_, ?_⟩
  · rw [std.copy_if_loop_snd]
  · exact copy_if_readback x pred first n out result
  · intro j hj
    rw [std.copy_if_loop_fst]
    by_cases hr : result ≤ j
    · have : (std.selected x pred first n).length ≤ j - result := by omega
      simp [hr, List.getElem?_eq_none this]
    · simp [hr]

/-- Witness for C2: the scenario input `[3,1,4,1,5,9,2,6]` with predicate "is odd", cut into
tiles of lengths 3, 2 and 3. -/
theorem copy_if_two_pass_eq_serial_witness :
    [3, 2, 3].sum = 8 ∧
    (List.range (copy_if_reduce_pass (fun k => [3, 1, 4, 1, 5, 9, 2, 6].getD k 0) 0
          (fun v => v % 2 == 1) (tiles 0 [3, 2, 3]) ⟨fun _ => false, fun _ => 0, 0⟩).1.sum).map
        (fun t => (copy_if_scan_pass (fun k => [3, 1, 4, 1, 5, 9, 2, 6].getD k 0) 0 0
          (tiles 0 [3, 2, 3])
          (copy_if_reduce_pass (fun k => [3, 1, 4, 1, 5, 9, 2, 6].getD k 0) 0
            (fun v => v % 2 == 1) (tiles 0 [3, 2, 3]) ⟨fun _ => false, fun _ => 0, 0⟩).1 0
          (copy_if_reduce_pass (fun k => [3, 1, 4, 1, 5, 9, 2, 6].getD k 0) 0
            (fun v => v % 2 == 1) (tiles 0 [3, 2, 3]) ⟨fun _ => false, fun _ => 0, 0⟩).2).out
            (0 + t)) =
      ((List.range' 0 8).map (fun k => [3, 1, 4, 1, 5, 9, 2, 6].getD k 0)).filter
        (fun v => v % 2 == 1) :=
  ⟨by decide,
    (copy_if_two_pass_eq_serial (fun k => [3, 1, 4, 1, 5, 9, 2, 6].getD k 0) 0 8
      (fun v => v % 2 == 1) [3, 2, 3] (fun _ => false) (fun _ => 0) 0 0 (by decide)).2.2.1⟩

end internal
end pstl

/-! ## Backend primitives as they stand -/

namespace pstl

/-- C3 (behaviour of the code): `parallel_strict_scan` returns the state it was given for
every `n`, initial value and callbacks, so `scan` is never called; already for `n = 1`, with
a `scan` that logs its arguments `(i, len, initial)`, the log stays empty and the logged
lengths sum to `0`, not to `n = 1`. -/
theorem parallel_strict_scan_never_scans :
    (∀ (T σ : Type) (n : Nat) (initial : T) (reduce : Nat → Nat → σ → T × σ)
        (combine : T → T → T) (scan : Nat → Nat → T → σ → σ) (apex : T → σ → σ) (s : σ),
        par_backend.parallel_strict_scan n initial reduce combine scan apex s = s) ∧
      par_backend.parallel_strict_scan 1 (0 : Nat)
          (fun _ len (log : List (Nat × Nat × Nat)) => (len, log))
          (fun a b => a + b)
          (fun i len initial log => log ++ [(i, len, initial)])
          (fun _ log => log) [] = [] ∧
      ((par_backend.parallel_strict_scan 1 (0 : Nat)
          (fun _ len (log : List (Nat × Nat × Nat)) => (len, log))
          (fun a b => a + b)
          (fun i len initial log => log ++ [(i, len, initial)])
          (fun _ log => log) []).map (fun c => c.2.1)).sum ≠ 1 := by
  refine ⟨fun _ _ _ _ _ _ _ _ _ => rfl, rfl, ?_⟩
  decide

/-- C4 (behaviour of the code): `parallel_or` returns `false` for every range and every
brick; on `[0,0,0,1,0]` the brick "some element of the subrange is nonzero" returns `true` on
the subrange `[3,4)` and on the whole range, the serial `pattern_any_of` returns `true`, and
the parallel `pattern_any_of` returns `false`. -/
theorem parallel_or_always_false :
    (∀ (first last : Nat) (f : Nat → Nat → Bool), par_backend.parallel_or first last f = false) ∧
      internal.brick_any_of (fun k => [0, 0, 0, 1, 0].getD k 0) 3 4 (fun v => v != 0) = true ∧
      internal.brick_any_of (fun k => [0, 0, 0, 1, 0].getD k 0) 0 5 (fun v => v != 0) = true ∧
      par_backend.parallel_or 0 5
        (fun i j => internal.brick_any_of (fun k => [0, 0, 0, 1, 0].getD k 0) i j
          (fun v => v != 0)) = false ∧
      internal.pattern_any_of (fun k => [0, 0, 0, 1, 0].getD k 0) 0 5 (fun v => v != 0) false
        = true ∧
      internal.pattern_any_of (fun k => [0, 0, 0, 1, 0].getD k 0) 0 5 (fun v => v != 0) true
        = false ∧
      internal.pattern_any_of (fun k => [0, 0, 0, 0, 0].getD k 0) 0 5 (fun v => v != 0) true
        = false := by
  refine ⟨fun _ _ _ => rfl, ?_, ?_, rfl, ?_, rfl, rfl⟩ <;> decide

/-- C5 (behaviour of the code): `parallel_first` returns `first` for every range and every
brick; on `[0,1]` with predicate "nonzero" the brick `brick_find_if` returns the leftmost
match of each subrange, serial `pattern_find_if` returns position `1`, and the parallel
`pattern_find_if` returns position `0`, where the predicate does not hold. -/
theorem parallel_first_returns_first :
    (∀ (first last : Nat) (f : Nat → Nat → Nat),
        par_backend.parallel_first first last f = first) ∧
      internal.pattern_find_if (fun k => [0, 1].getD k 0) 0 2 (fun v => v != 0) false = 1 ∧
      internal.pattern_find_if (fun k => [0, 1].getD k 0) 0 2 (fun v => v != 0) true = 0 ∧
      (fun v => v != 0) ((fun k => [0, 1].getD k 0) 0) = false := by
  refine ⟨fun _ _ _ => rfl, ?_, rfl, ?_⟩ <;> decide

end pstl

/-! ## Map-only patterns -/

namespace std

theorem copy_n_snd {α : Type} (x : Nat → α) :
    ∀ n first result out, (copy_n x first n result out).2 = result + n := by
  intro n
  induction n with
  | zero => intro first result out; simp [copy_n]
  | succ n ih => intro first result out; rw [copy_n, ih]; omega

theorem copy_n_fst {α : Type} (x : Nat → α) :
    ∀ n first result out j,
      (copy_n x first n result out).1 j =
        if result ≤ j ∧ j < result + n then x (first + (j - result)) else out j := by
  intro n
  induction n with
  | zero =>
    intro first result out j
    have h : ¬ (result ≤ j ∧ j < result + 0) := by omega
    rw [copy_n, if_neg h]
  | succ n ih =>
    intro first result out j
    rw [copy_n, ih]
    by_cases h1 : result + 1 ≤ j ∧ j < result + 1 + n
    · have h2 : result ≤ j ∧ j < result + (n + 1) := by omega
      have h3 : first + 1 + (j - (result + 1)) = first + (j - result) := by omega
      simp [h1, h2, h3]
    · by_cases h2 : j = result
      · subst h2; simp
      · have h3 : ¬ (result ≤ j ∧ j < result + (n + 1)) := by omega
        simp [h1, h3, Function.update_noteq h2]

end std

namespace pstl
namespace internal

theorem for_each_n_serial_snd {σ : Type} (f : Nat → σ → σ) :
    ∀ n first s, (for_each_n_serial f first n s).2 = first + n := by
  intro n
  induction n with
  | zero => intro first s; simp [for_each_n_serial]
  | succ n ih => intro first s; rw [for_each_n_serial, ih]; omega

theorem brick_walk2_n_snd {σ : Type} (f : Nat → Nat → σ → σ) :
    ∀ n first1 first2 s, (brick_walk2_n f first1 n first2 s).2 = first2 + n := by
  intro n
  induction n with
  | zero => intro first1 first2 s; simp [brick_walk2_n]
  | succ n ih => intro first1 first2 s; rw [brick_walk2_n, ih]; omega

theorem brick_it_walk2_n_snd {σ : Type} (f : Nat → Nat → σ → σ) :
    ∀ n first1 first2 s, (brick_it_walk2_n f first1 n first2 s).2 = first2 + n := by
  intro n
  induction n with
  | zero => intro first1 first2 s; simp [brick_it_walk2_n]
  | succ n ih => intro first1 first2 s; rw [brick_it_walk2_n, ih]; omega

theorem brick_walk3_loop_snd {σ : Type} (f : Nat → Nat → Nat → σ → σ) :
    ∀ k first1 first2 first3 s, (brick_walk3.loop f k first1 first2 first3 s).2 = first3 + k := by
  intro k
  induction k with
  | zero => intro first1 first2 first3 s; simp [brick_walk3.loop]
  | succ k ih => intro first1 first2 first3 s; rw [brick_walk3.loop, ih]; omega

/-- C8 (behaviour of the code): with the serial tag, `pattern_walk2_brick` over `brick_copy`
and `pattern_walk2_brick_n` over `brick_copy_n` meet the test's expectation for every input
and every `n` (`out[k] = in[k]` for `k < n`, everything else, the guard included, still
trash); with the parallel tag both leave every element of the output buffer at the trash
value, so already for `n = 1`, input `[1]` and trash `-666` the buffer holds `-666` at
position `0` where sequential `std::copy` leaves `1`. -/
theorem copy_parallel_leaves_trash :
    (∀ (α : Type) (x : Nat → α) (n : Nat) (trash : α) (k : Nat),
        (pattern_walk2_brick 0 n 0 (brick_copy x) false (fun _ => trash)).1 k =
            (if k < n then x k else trash) ∧
          (pattern_walk2_brick_n 0 n 0 (brick_copy_n x) false (fun _ => trash)).1 k =
            (if k < n then x k else trash)) ∧
      (∀ (α : Type) (x : Nat → α) (n : Nat) (trash : α) (k : Nat),
        (pattern_walk2_brick 0 n 0 (brick_copy x) true (fun _ => trash)).1 k = trash ∧
          (pattern_walk2_brick_n 0 n 0 (brick_copy_n x) true (fun _ => trash)).1 k = trash) ∧
      (std.copy (fun _ => (1 : Int)) 0 1 0 (fun _ => -666)).1 0 = 1 ∧
      (pattern_walk2_brick 0 1 0 (brick_copy (fun _ => (1 : Int))) true (fun _ => -666)).1 0
        = -666 ∧
      (pattern_walk2_brick_n 0 1 0 (brick_copy_n (fun _ => (1 : Int))) true (fun _ => -666)).1 0
        = -666 := by
  refine ⟨?_, ?_, ?_, rfl, rfl⟩
  · intro α x n trash k
    simp only [pattern_walk2_brick, pattern_walk2_brick_n, brick_copy, brick_copy_n, std.copy,
      Bool.false_eq_true, if_false, std.copy_n_fst]
    simp
  · intro α x n trash k
    exact ⟨rfl, rfl⟩
  · decide

/-- C9: for every `n`, every payload or brick and every state, the map-only patterns return
the start of the output range advanced by `n` under the serial and under the parallel tag:
`pattern_walk2_brick` over `brick_copy` and `brick_move`, `pattern_walk2_brick_n` over
`brick_copy_n`, `pattern_walk2`, `pattern_walk2_n`, `pattern_it_walk2` (returning
`first2 + n`), `pattern_walk3` (returning `first3 + n`) and `pattern_walk1_n`,
`pattern_it_walk1_n` (returning `first + n`); so the value the parallel overload computes
arithmetically equals the one the serial brick reaches by stepping. -/
theorem map_only_patterns_return_end (n : Nat) ( is_parallel : Bool) :
    (∀ (α : Type) (x : Nat → α) (first1 first2 : Nat) (out : Nat → α),
        (pattern_walk2_brick first1 (first1 + n) first2 (brick_copy x) is_parallel out).2
            = first2 + n ∧
          (pattern_walk2_brick first1 (first1 + n) first2 (brick_move x) is_parallel out).2
            = first2 + n ∧
          (pattern_walk2_brick_n first1 n first2 (brick_copy_n x) is_parallel out).2
            = first2 + n) ∧
      (∀ (σ : Type) (f : Nat → Nat → σ → σ) (first1 first2 : Nat) (s : σ),
        (pattern_walk2 first1 (first1 + n) first2 f is_parallel s).2 = first2 + n ∧
          (pattern_walk2_n first1 n first2 f is_parallel s).2 = first2 + n ∧
          (pattern_it_walk2 first1 (first1 + n) first2 f is_parallel s).2 = first2 + n) ∧
      (∀ (σ : Type) (f : Nat → Nat → Nat → σ → σ) (first1 first2 first3 : Nat) (s : σ),
        (pattern_walk3 first1 (first1 + n) first2 first3 f is_parallel s).2 = first3 + n) ∧
      (∀ (σ : Type) (f : Nat → σ → σ) (first : Nat) (s : σ),
        (pattern_walk1_n first n f is_parallel s).2 = first + n ∧
          (pattern_it_walk1_n first n f is_parallel s).2 = first + n) := by
  have hn : ∀ a : Nat, a + n - a = n := by intro a; omega
  cases is_parallel
  · refine ⟨?_, ?_, ?_, ?_⟩
    · intro α x first1 first2 out
      simp [pattern_walk2_brick, pattern_walk2_brick_n, brick_copy, brick_move, brick_copy_n,
        std.copy, std.move, std.copy_n_snd, hn]
    · intro σ f first1 first2 s
      simp [pattern_walk2, pattern_walk2_n, pattern_it_walk2, brick_walk2, brick_it_walk2,
        brick_walk2_n_snd, brick_it_walk2_n_snd, hn]
    · intro σ f first1 first2 first3 s
      simp [pattern_walk3, brick_walk3, brick_walk3_loop_snd, hn]
    · intro σ f first s
      simp [pattern_walk1_n, pattern_it_walk1_n, brick_walk1_n, brick_it_walk1_n, for_each_n,
        for_each_n_serial_snd]
  · refine ⟨?_, ?_, ?_, ?_⟩
    · intro α x first1 first2 out
      simp [pattern_walk2_brick, pattern_walk2_brick_n, except_handler, hn]
    · intro σ f first1 first2 s
      simp [pattern_walk2, pattern_walk2_n, pattern_it_walk2, except_handler, hn]
    · intro σ f first1 first2 first3 s
      simp [pattern_walk3, except_handler, hn]
    · intro σ f first s
      simp [pattern_walk1_n, pattern_it_walk1_n]

end internal
end pstl

/-! ## Stable move-merge -/

namespace pstl
namespace par_backend

theorem loop_lt_nil {α : Type} (comp : α → α → Bool) (x : α) (xs : List α) (y : α)
    (h : comp y x = true) : serial_move_merge.loop comp x xs y [] = y :: x :: xs := by
  rw [serial_move_merge.loop.eq_def]; simp [h]

theorem loop_lt_cons {α : Type} (comp : α → α → Bool) (x : α) (xs : List α) (y y' : α)
    (ys' : List α) (h : comp y x = true) :
    serial_move_merge.loop comp x xs y (y' :: ys') =
      y :: serial_move_merge.loop comp x xs y' ys' := by
  rw [serial_move_merge.loop.eq_def]; simp [h]

theorem loop_ge_nil {α : Type} (comp : α → α → Bool) (x y : α) (ys : List α)
    (h : comp y x = false) : serial_move_merge.loop comp x [] y ys = x :: y :: ys := by
  rw [serial_move_merge.loop.eq_def]; simp [h]

theorem loop_ge_cons {α : Type} (comp : α → α → Bool) (x x' : α) (xs' : List α) (y : α)
    (ys : List α) (h : comp y x = false) :
    serial_move_merge.loop comp x (x' :: xs') y ys =
      x :: serial_move_merge.loop comp x' xs' y ys := by
  rw [serial_move_merge.loop.eq_def]; simp [h]

/-- Induction along the iterations of the merge loop. -/
theorem loop_induction {α : Type} (comp : α → α → Bool)
    (P : α → List α → α → List α → List α → Prop)
    (h1 : ∀ x xs y, comp y x = true → P x xs y [] (y :: x :: xs))
    (h2 : ∀ x xs y y' ys', comp y x = true →
      P x xs y' ys' (serial_move_merge.loop comp x xs y' ys') →
      P x xs y (y' :: ys') (y :: serial_move_merge.loop comp x xs y' ys'))
    (h3 : ∀ x y ys, comp y x = false → P x [] y ys (x :: y :: ys))
    (h4 : ∀ x x' xs' y ys, comp y x = false →
      P x' xs' y ys (serial_move_merge.loop comp x' xs' y ys) →
      P x (x' :: xs') y ys (x :: serial_move_merge.loop comp x' xs' y ys)) :
    ∀ x xs y ys, P x xs y ys (serial_move_merge.loop comp x xs y ys) := by
  have main : ∀ n x xs y ys, xs.length + ys.length = n →
      P x xs y ys (serial_move_merge.loop comp x xs y ys) := by
    intro n
    induction n with
    | zero =>
      intro x xs y ys hn
      have hxs : xs = [] := List.length_eq_zero.mp (by omega)
      have hys : ys = [] := List.length_eq_zero.mp (by omega)
      subst hxs; subst hys
      cases h : comp y x
      · rw [loop_ge_nil comp x y [] h]; exact h3 x y [] h
      · rw [loop_lt_nil comp x [] y h]; exact h1 x [] y h
    | succ n ih =>
      intro x xs y ys hn
      cases h : comp y x
      · cases xs with
        | nil => rw [loop_ge_nil comp x y ys h]; exact h3 x y ys h
        | cons x' xs' =>
          rw [loop_ge_cons comp x x' xs' y ys h]
          exact h4 x x' xs' y ys h (ih x' xs' y ys (by simp at hn; omega))
      · cases ys with
        | nil => rw [loop_lt_nil comp x xs y h]; exact h1 x xs y h
        | cons y' ys' =>
          rw [loop_lt_cons comp x xs y y' ys' h]
          exact h2 x xs y y' ys' h (ih x xs y' ys' (by simp at hn; omega))
  intro x xs y ys
  exact main _ x xs y ys rfl

theorem loop_perm {α : Type} (comp : α → α → Bool) :
    ∀ x xs y ys, (serial_move_merge.loop comp x xs y ys).Perm ((x :: xs) ++ (y :: ys)) := by
  apply loop_induction comp (fun x xs y ys out => out.Perm ((x :: xs) ++ (y :: ys)))
  · intro x xs y _
    exact @List.perm_append_comm _ [y] (x :: xs)
  · intro x xs y y' ys' _ ih
    exact (List.Perm.cons y ih).trans List.perm_middle.symm
  · intro x y ys _
    exact List.Perm.refl _
  · intro x x' xs' y ys _ ih
    exact List.Perm.cons x ih

theorem loop_mem {α : Type} (comp : α → α → Bool) (x : α) (xs : List α) (y : α) (ys : List α)
    (a : α) : a ∈ serial_move_merge.loop comp x xs y ys ↔ a ∈ x :: xs ∨ a ∈ y :: ys := by
  rw [(loop_perm comp x xs y ys).mem_iff, List.mem_append]

theorem StrictWeakOrder.asymm {α : Type} {comp : α → α → Bool} (h : StrictWeakOrder comp)
    (a b : α) (hab : comp a b = true) : comp b a = false := by
  cases hba : comp b a
  · rfl
  · have := h.trans a b a hab hba
    rw [h.irrefl a] at this
    exact absurd this (by decide)

/-- In a strict weak order "does not compare less" is transitive. -/
theorem StrictWeakOrder.not_lt_trans {α : Type} {comp : α → α → Bool}
    (h : StrictWeakOrder comp) (a b c : α) (hab : comp a b = false) (hbc : comp b c = false) :
    comp a c = false := by
  cases hac : comp a c
  · rfl
  · exfalso
    cases hba : comp b a
    · cases hcb : comp c b
      · have := (h.incomp_trans a b c hab hba hbc hcb).1
        rw [hac] at this
        exact absurd this (by decide)
      · have := h.trans a c b hac hcb
        rw [hab] at this
        exact absurd this (by decide)
    · have := h.trans b a c hba hac
      rw [hbc] at this
      exact absurd this (by decide)

theorem loop_sorted {α : Type} (comp : α → α → Bool) (hswo : StrictWeakOrder comp) :
    ∀ x xs y ys, SortedUnder comp (x :: xs) → SortedUnder comp (y :: ys) →
      SortedUnder comp (serial_move_merge.loop comp x xs y ys) := by
  apply loop_induction comp (fun x xs y ys out =>
    SortedUnder comp (x :: xs) → SortedUnder comp (y :: ys) → SortedUnder comp out)
  · intro x xs y hlt hX _
    have hyx : comp x y = false := hswo.asymm y x hlt
    refine List.Pairwise.cons ?_ hX
    intro q hq
    rcases List.mem_cons.mp hq with rfl | hq
    · exact hyx
    · exact hswo.not_lt_trans q x y ((List.pairwise_cons.mp hX).1 q hq) hyx
  · intro x xs y y' ys' hlt ih hX hY
    have hyx : comp x y = false := hswo.asymm y x hlt
    refine List.Pairwise.cons ?_ (ih hX (List.pairwise_cons.mp hY).2)
    intro q hq
    rcases (loop_mem comp x xs y' ys' q).mp hq with hq | hq
    · rcases List.mem_cons.mp hq with rfl | hq
      · exact hyx
      · exact hswo.not_lt_trans q x y ((List.pairwise_cons.mp hX).1 q hq) hyx
    · exact (List.pairwise_cons.mp hY).1 q hq
  · intro x y ys hge _ hY
    refine List.Pairwise.cons ?_ hY
    intro q hq
    rcases List.mem_cons.mp hq with rfl | hq
    · exact hge
    · exact hswo.not_lt_trans q y x ((List.pairwise_cons.mp hY).1 q hq) hge
  · intro x x' xs' y ys hge ih hX hY
    refine List.Pairwise.cons ?_ (ih (List.pairwise_cons.mp hX).2 hY)
    intro q hq
    rcases (loop_mem comp x' xs' y ys q).mp hq with hq | hq
    · exact (List.pairwise_cons.mp hX).1 q hq
    · rcases List.mem_cons.mp hq with rfl | hq
      · exact hge
      · exact hswo.not_lt_trans q y x ((List.pairwise_cons.mp hY).1 q hq) hge

/-- C7: for every pair of runs `X` and `Y` that are each sorted under a strict weak order
`comp`, the sequence `serial_move_merge` writes to the output has `|X| + |Y|` elements and is
sorted under `comp`: no later element compares less than an earlier one. -/
theorem serial_move_merge_sorted {α : Type} (comp : α → α → Bool) (X Y : List α)
    (hswo : StrictWeakOrder comp) (hX : SortedUnder comp X) (hY : SortedUnder comp Y) :
    (serial_move_merge comp X Y).length = X.length + Y.length ∧
      SortedUnder comp (serial_move_merge comp X Y) := by
  cases X with
  | nil => simpa [serial_move_merge] using hY
  | cons x xs =>
    cases Y with
    | nil => simpa [serial_move_merge] using hX
    | cons y ys =>
      simp only [serial_move_merge]
      refine ⟨?_, loop_sorted comp hswo x xs y ys hX hY⟩
      rw [(loop_perm comp x xs y ys).length_eq, List.length_append]

theorem lt_strictWeakOrder : StrictWeakOrder (fun a b : Nat => decide (a < b)) where
  irrefl := by intro a; simp
  trans := by intro a b c h1 h2; simp at *; omega
  incomp_trans := by intro a b c h1 h2 h3 h4; simp at *; omega

/-- Witness for C7: the sorted runs `[1,4,6]` and `[2,4,5,7]` under `<` on naturals. -/
theorem serial_move_merge_sorted_witness :
    StrictWeakOrder (fun a b : Nat => decide (a < b)) ∧
      SortedUnder (fun a b : Nat => decide (a < b)) [1, 4, 6] ∧
      SortedUnder (fun a b : Nat => decide (a < b)) [2, 4, 5, 7] ∧
      (serial_move_merge (fun a b : Nat => decide (a < b)) [1, 4, 6] [2, 4, 5, 7]).length
        = [1, 4, 6].length + [2, 4, 5, 7].length ∧
      SortedUnder (fun a b : Nat => decide (a < b))
        (serial_move_merge (fun a b : Nat => decide (a < b)) [1, 4, 6] [2, 4, 5, 7]) :=
  ⟨lt_strictWeakOrder, by simp [SortedUnder], by simp [SortedUnder],
    serial_move_merge_sorted (fun a b : Nat => decide (a < b)) [1, 4, 6] [2, 4, 5, 7]
      lt_strictWeakOrder (by simp [SortedUnder]) (by simp [SortedUnder])⟩

end par_backend
end pstl

namespace pstl
namespace par_backend

theorem loop_map {α β : Type} (comp : α → α → Bool) (f : β → α) :
    ∀ x xs y ys,
      (serial_move_merge.loop (fun p q => comp (f p) (f q)) x xs y ys).map f =
        serial_move_merge.loop comp (f x) (xs.map f) (f y) (ys.map f) := by
  apply loop_induction (fun p q => comp (f p) (f q)) (fun x xs y ys out =>
    out.map f = serial_move_merge.loop comp (f x) (xs.map f) (f y) (ys.map f))
  · intro x xs y h
    rw [List.map_nil, loop_lt_nil comp _ _ _ h]; rfl
  · intro x xs y y' ys' h ih
    rw [List.map_cons, List.map_cons, loop_lt_cons comp _ _ _ _ _ h, ih]
  · intro x y ys h
    rw [List.map_nil, loop_ge_nil comp _ _ _ h]; rfl
  · intro x x' xs' y ys h ih
    rw [List.map_cons, List.map_cons, loop_ge_cons comp _ _ _ _ _ h, ih]

theorem serial_move_merge_map {α β : Type} (comp : α → α → Bool) (f : β → α)
    (X Y : List β) :
    (serial_move_merge (fun p q => comp (f p) (f q)) X Y).map f =
      serial_move_merge comp (X.map f) (Y.map f) := by
  cases X with
  | nil => simp [serial_move_merge]
  | cons x xs =>
    cases Y with
    | nil => simp [serial_move_merge]
    | cons y ys => simp only [serial_move_merge, List.map_cons]; exact loop_map comp f x xs y ys

theorem serial_move_merge_perm {α : Type} (comp : α → α → Bool) (X Y : List α) :
    (serial_move_merge comp X Y).Perm (X ++ Y) := by
  cases X with
  | nil => simp [serial_move_merge]
  | cons x xs =>
    cases Y with
    | nil => simp [serial_move_merge]
    | cons y ys => simp only [serial_move_merge]; exact loop_perm comp x xs y ys

theorem comparedLess_of_all_left {α : Type} (comp : α → α → Bool) :
    ∀ l : List (α × Bool), (∀ p ∈ l, p.2 = false) → comparedLessThanNextLeft comp l := by
  intro l
  induction l with
  | nil => intro _; trivial
  | cons p rest ih =>
    intro h
    refine ⟨?_, ih (fun q hq => h q (List.mem_cons_of_mem _ hq))⟩
    intro hp
    rw [h p (List.mem_cons_self _ _)] at hp
    exact absurd hp (by decide)

theorem find_left_of_all_right {α : Type} :
    ∀ l : List (α × Bool), (∀ p ∈ l, p.2 = true) → l.find? (fun r => !r.2) = none := by
  intro l h
  rw [List.find?_eq_none]
  intro p hp
  simp [h p hp]

theorem comparedLess_of_all_right {α : Type} (comp : α → α → Bool) :
    ∀ l : List (α × Bool), (∀ p ∈ l, p.2 = true) → comparedLessThanNextLeft comp l := by
  intro l
  induction l with
  | nil => intro _; trivial
  | cons p rest ih =>
    intro h
    refine ⟨?_, ih (fun q hq => h q (List.mem_cons_of_mem _ hq))⟩
    intro _ q hq
    rw [find_left_of_all_right rest (fun q hq => h q (List.mem_cons_of_mem _ hq))] at hq
    exact absurd hq (by simp)

theorem loop_comparedLess {α : Type} (comp : α → α → Bool) :
    ∀ (x : α × Bool) xs y ys, (∀ p ∈ x :: xs, p.2 = false) → (∀ p ∈ y :: ys, p.2 = true) →
      comparedLessThanNextLeft comp (serial_move_merge.loop (onValue comp) x xs y ys) ∧
        (serial_move_merge.loop (onValue comp) x xs y ys).find? (fun r => !r.2) = some x := by
  apply loop_induction (onValue comp) (fun x xs y ys out =>
    (∀ p ∈ x :: xs, p.2 = false) → (∀ p ∈ y :: ys, p.2 = true) →
      comparedLessThanNextLeft comp out ∧ out.find? (fun r => !r.2) = some x)
  · intro x xs y h hX hY
    have hx : x.2 = false := hX x (List.mem_cons_self _ _)
    have hy : y.2 = true := hY y (List.mem_cons_self _ _)
    have hfind : (x :: xs).find? (fun r => !r.2) = some x := by simp [List.find?, hx]
    refine ⟨⟨?_, comparedLess_of_all_left comp _ hX⟩, ?_⟩
    · intro _ q hq
      rw [hfind] at hq
      cases hq
      exact h
    · simp [List.find?, hx, hy]
  · intro x xs y y' ys' h ih hX hY
    have hy : y.2 = true := hY y (List.mem_cons_self _ _)
    obtain ⟨i1, i2⟩ := ih hX (fun p hp => hY p (List.mem_cons_of_mem _ hp))
    refine ⟨⟨?_, i1⟩, ?_⟩
    · intro _ q hq
      rw [i2] at hq
      cases hq
      exact h
    · rw [List.find?_cons]
      simp [hy, i2]
  · intro x y ys _ hX hY
    have hx : x.2 = false := hX x (List.mem_cons_self _ _)
    refine ⟨⟨?_, comparedLess_of_all_right comp _ hY⟩, ?_⟩
    · intro hp
      rw [hx] at hp
      exact absurd hp (by decide)
    · simp [List.find?, hx]
  · intro x x' xs' y ys _ ih hX hY
    have hx : x.2 = false := hX x (List.mem_cons_self _ _)
    obtain ⟨i1, _⟩ := ih (fun p hp => hX p (List.mem_cons_of_mem _ hp)) hY
    refine ⟨⟨?_, i1⟩, ?_⟩
    · intro hp
      rw [hx] at hp
      exact absurd hp (by decide)
    · simp [List.find?, hx]

theorem leftRun_label {α : Type} (X : List α) : ∀ p ∈ leftRun X, p.2 = false := by
  intro p hp
  simp only [leftRun, List.mem_map] at hp
  obtain ⟨a, _, rfl⟩ := hp
  rfl

theorem rightRun_label {α : Type} (Y : List α) : ∀ p ∈ rightRun Y, p.2 = true := by
  intro p hp
  simp only [rightRun, List.mem_map] at hp
  obtain ⟨a, _, rfl⟩ := hp
  rfl

theorem serial_move_merge_comparedLess {α : Type} (comp : α → α → Bool) (X Y : List α) :
    comparedLessThanNextLeft comp
      (serial_move_merge (onValue comp) (leftRun X) (rightRun Y)) := by
  have hX := leftRun_label X
  have hY := rightRun_label Y
  generalize leftRun X = lx at hX
  generalize rightRun Y = ly at hY
  cases lx with
  | nil => simpa [serial_move_merge] using comparedLess_of_all_right comp ly hY
  | cons x xs =>
    cases ly with
    | nil => simpa [serial_move_merge] using comparedLess_of_all_left comp (x :: xs) hX
    | cons y ys =>
      simp only [serial_move_merge]
      exact (loop_comparedLess comp x xs y ys hX hY).1

end par_backend
end pstl

namespace pstl
namespace par_backend

theorem StrictWeakOrder.lt_of_lt_of_not_lt {α : Type} {comp : α → α → Bool}
    (h : StrictWeakOrder comp) (y x q : α) (hyx : comp y x = true) (hqx : comp q x = false) :
    comp y q = true := by
  cases hyq : comp y q
  · have := h.not_lt_trans y q x hyq hqx
    rw [hyx] at this
    exact absurd this (by decide)
  · rfl

theorem pairwise_of_all_left {α : Type} (R : α × Bool → α × Bool → Prop)
    (hR : ∀ p q, p.2 = false → R p q) :
    ∀ l : List (α × Bool), (∀ p ∈ l, p.2 = false) → l.Pairwise R := by
  intro l h
  rw [List.pairwise_iff_forall_sublist]
  intro p q hs
  exact hR p q (h p (hs.subset (by simp)))

theorem pairwise_of_all_right {α : Type} (R : α × Bool → α × Bool → Prop)
    (hR : ∀ p q, q.2 = true → R p q) :
    ∀ l : List (α × Bool), (∀ p ∈ l, p.2 = true) → l.Pairwise R := by
  intro l h
  rw [List.pairwise_iff_forall_sublist]
  intro p q hs
  exact hR p q (h q (hs.subset (by simp)))

theorem loop_right_before_left {α : Type} (comp : α → α → Bool)
    (hswo : StrictWeakOrder comp) :
    ∀ (x : α × Bool) xs y ys, (∀ p ∈ x :: xs, p.2 = false) → (∀ p ∈ y :: ys, p.2 = true) →
      SortedUnder (onValue comp) (x :: xs) →
      (serial_move_merge.loop (onValue comp) x xs y ys).Pairwise
        (fun p q => p.2 = true → q.2 = false → comp p.1 q.1 = true) := by
  have hleft : ∀ p q : α × Bool, p.2 = false →
      (p.2 = true → q.2 = false → comp p.1 q.1 = true) := by
    intro p q hp hp'
    rw [hp] at hp'
    exact absurd hp' (by decide)
  have hright : ∀ p q : α × Bool, q.2 = true →
      (p.2 = true → q.2 = false → comp p.1 q.1 = true) := by
    intro p q hq _ hq'
    rw [hq] at hq'
    exact absurd hq' (by decide)
  have hstep : ∀ (x : α × Bool) xs (y q : α × Bool), onValue comp y x = true →
      SortedUnder (onValue comp) (x :: xs) → q ∈ x :: xs → comp y.1 q.1 = true := by
    intro x xs y q h hX hq
    rcases List.mem_cons.mp hq with rfl | hq
    · exact h
    · exact hswo.lt_of_lt_of_not_lt y.1 x.1 q.1 h ((List.pairwise_cons.mp hX).1 q hq)
  apply loop_induction (onValue comp) (fun x xs y ys out =>
    (∀ p ∈ x :: xs, p.2 = false) → (∀ p ∈ y :: ys, p.2 = true) →
      SortedUnder (onValue comp) (x :: xs) →
      out.Pairwise (fun p q => p.2 = true → q.2 = false → comp p.1 q.1 = true))
  · intro x xs y h hX _ hs
    refine List.Pairwise.cons ?_ (pairwise_of_all_left _ hleft _ hX)
    intro q hq _ _
    exact hstep x xs y q h hs hq
  · intro x xs y y' ys' h ih hX hY hs
    refine List.Pairwise.cons ?_ (ih hX (fun p hp => hY p (List.mem_cons_of_mem _ hp)) hs)
    intro q hq _ hq2
    rcases (loop_mem (onValue comp) x xs y' ys' q).mp hq with hq | hq
    · exact hstep x xs y q h hs hq
    · rw [hY q (List.mem_cons_of_mem _ hq)] at hq2
      exact absurd hq2 (by decide)
  · intro x y ys _ hX hY _
    refine List.Pairwise.cons ?_ (pairwise_of_all_right _ hright _ hY)
    intro q _
    exact hleft x q (hX x (List.mem_cons_self _ _))
  · intro x x' xs' y ys _ ih hX hY hs
    refine List.Pairwise.cons ?_
      (ih (fun p hp => hX p (List.mem_cons_of_mem _ hp)) hY (List.pairwise_cons.mp hs).2)
    intro q _
    exact hleft x q (hX x (List.mem_cons_self _ _))

theorem sortedUnder_leftRun {α : Type} (comp : α → α → Bool) (X : List α)
    (h : SortedUnder comp X) : SortedUnder (onValue comp) (leftRun X) := by
  unfold SortedUnder leftRun
  rw [List.pairwise_map]
  exact h

theorem serial_move_merge_right_before_left {α : Type} (comp : α → α → Bool)
    (hswo : StrictWeakOrder comp) (X Y : List α) (hs : SortedUnder comp X) :
    (serial_move_merge (onValue comp) (leftRun X) (rightRun Y)).Pairwise
      (fun p q => p.2 = true → q.2 = false → comp p.1 q.1 = true) := by
  have hleft : ∀ p q : α × Bool, p.2 = false →
      (p.2 = true → q.2 = false → comp p.1 q.1 = true) := by
    intro p q hp hp'
    rw [hp] at hp'
    exact absurd hp' (by decide)
  have hright : ∀ p q : α × Bool, q.2 = true →
      (p.2 = true → q.2 = false → comp p.1 q.1 = true) := by
    intro p q hq _ hq'
    rw [hq] at hq'
    exact absurd hq' (by decide)
  have hX := leftRun_label X
  have hY := rightRun_label Y
  have hs' := sortedUnder_leftRun comp X hs
  generalize leftRun X = lx at hX hs'
  generalize rightRun Y = ly at hY
  cases lx with
  | nil => simpa [serial_move_merge] using pairwise_of_all_right _ hright ly hY
  | cons x xs =>
    cases ly with
    | nil => simpa [serial_move_merge] using pairwise_of_all_left _ hleft (x :: xs) hX
    | cons y ys =>
      simp only [serial_move_merge]
      exact loop_right_before_left comp hswo x xs y ys hX hY hs'

/-- C6 (as stated, refuted): with left run `[5,1]`, right run `[3]` and comparator `<`, the
merge writes `3, 5, 1`; the right-run element `3` is written before the not-yet-written
left-run element `1` although `comp(3, 1)` does not hold. -/
theorem serial_move_merge_unsorted_counterexample :
    serial_move_merge (fun a b : Nat => decide (a < b)) [5, 1] [3] = [3, 5, 1] ∧
      ¬ (serial_move_merge (onValue (fun a b : Nat => decide (a < b)))
          (leftRun [5, 1]) (rightRun [3])).Pairwise
        (fun p q => p.2 = true → q.2 = false → (fun a b : Nat => decide (a < b)) p.1 q.1 = true) := by
  constructor
  · simp [serial_move_merge, serial_move_merge.loop]
  · simp [serial_move_merge, serial_move_merge.loop, leftRun, rightRun, onValue]

/-- C6 (amended): `serial_move_merge` is a stable merge.  Label the elements of the left run
`X` with `false` and those of the right run `Y` with `true` (the comparator sees the element
only, so the labelled output projects to the real output and contains every element of both
runs exactly once).  For every `X`, `Y` and `comp`, each element `y` of `Y` written while
elements of `X` remain unwritten satisfies `comp(y, x)` for the first not-yet-written element
`x` of `X`.  Consequently, when `comp` is a strict weak order and `X` and `Y` are sorted under
it, whenever an element `y` of `Y` precedes an element `x` of `X` in the output `comp(y, x)`
holds, so every element of `X` appears before every element of `Y` equivalent to it. -/
theorem serial_move_merge_stable {α : Type} (comp : α → α → Bool) (X Y : List α) :
    (serial_move_merge (onValue comp) (leftRun X) (rightRun Y)).map Prod.fst =
        serial_move_merge comp X Y ∧
      (serial_move_merge (onValue comp) (leftRun X) (rightRun Y)).Perm
        (leftRun X ++ rightRun Y) ∧
      comparedLessThanNextLeft comp
        (serial_move_merge (onValue comp) (leftRun X) (rightRun Y)) ∧
      (StrictWeakOrder comp → SortedUnder comp X → SortedUnder comp Y →
        (serial_move_merge (onValue comp) (leftRun X) (rightRun Y)).Pairwise
            (fun p q => p.2 = true → q.2 = false → comp p.1 q.1 = true) ∧
          (serial_move_merge (onValue comp) (leftRun X) (rightRun Y)).Pairwise
            (fun p q => comp p.1 q.1 = false → comp q.1 p.1 = false →
              ¬ (p.2 = true ∧ q.2 = false))) := by
  refine ⟨?_, serial_move_merge_perm _ _ _, serial_move_merge_comparedLess comp X Y, ?_⟩
  · have h := serial_move_merge_map comp Prod.fst (leftRun X) (rightRun Y)
    have e1 : (leftRun X).map Prod.fst = X := by simp [leftRun, Function.comp_def]
    have e2 : (rightRun Y).map Prod.fst = Y := by simp [rightRun, Function.comp_def]
    rw [e1, e2] at h
    exact h
  · intro hswo hX _
    have h := serial_move_merge_right_before_left comp hswo X Y hX
    refine ⟨h, h.imp ?_⟩
    intro p q hpq h1 _ hl
    rw [hpq hl.1 hl.2] at h1
    exact absurd h1 (by decide)

/-- Witness for C6: the sorted runs `[1,4,6]` and `[2,4,5,7]` under `<` on naturals, which
share the key `4`. -/
theorem serial_move_merge_stable_witness :
    StrictWeakOrder (fun a b : Nat => decide (a < b)) ∧
      SortedUnder (fun a b : Nat => decide (a < b)) [1, 4, 6] ∧
      SortedUnder (fun a b : Nat => decide (a < b)) [2, 4, 5, 7] ∧
      (serial_move_merge (onValue (fun a b : Nat => decide (a < b)))
          (leftRun [1, 4, 6]) (rightRun [2, 4, 5, 7])).Pairwise
        (fun p q => (fun a b : Nat => decide (a < b)) p.1 q.1 = false →
          (fun a b : Nat => decide (a < b)) q.1 p.1 = false → ¬ (p.2 = true ∧ q.2 = false)) :=
  ⟨lt_strictWeakOrder, by simp [SortedUnder], by simp [SortedUnder],
    ((serial_move_merge_stable (fun a b : Nat => decide (a < b)) [1, 4, 6] [2, 4, 5, 7]).2.2.2
      lt_strictWeakOrder (by simp [SortedUnder]) (by simp [SortedUnder])).2⟩

end par_backend
end pstl

/-! ## `adjacent_find`: reduce body and combine -/

namespace std

theorem leftmostPair_add {α : Type} (x : Nat → α) (pred : α → α → Bool) (last a b : Nat) :
    ∀ first, leftmostPair x pred last (a + b) first =
      (leftmostPair x pred last a first).orElse
        (fun _ => leftmostPair x pred last b (first + a)) := by
  induction a with
  | zero => intro first; simp [leftmostPair]
  | succ a ih =>
    intro first
    have h : a + 1 + b = (a + b) + 1 := by omega
    have h2 : first + (a + 1) = first + 1 + a := by omega
    rw [h, leftmostPair, leftmostPair, h2]
    split
    · simp
    · exact ih (first + 1)

theorem leftmostPair_some {α : Type} (x : Nat → α) (pred : α → α → Bool) (last : Nat) :
    ∀ k first p, leftmostPair x pred last k first = some p →
      first ≤ p ∧ p < first + k ∧ p + 1 < last ∧ pred (x p) (x (p + 1)) = true ∧
        ∀ q, first ≤ q → q < p → pred (x q) (x (q + 1)) = false := by
  intro k
  induction k with
  | zero => intro first p h; simp [leftmostPair] at h
  | succ k ih =>
    intro first p h
    rw [leftmostPair] at h
    split at h
    · rename_i hc
      cases h
      exact ⟨Nat.le_refl _, by omega, hc.1, hc.2, fun q h1 h2 => by omega⟩
    · rename_i hc
      obtain ⟨h1, h2, h3, h4, h5⟩ := ih (first + 1) p h
      refine ⟨by omega, by omega, h3, h4, ?_⟩
      intro q hq1 hq2
      by_cases hq : q = first
      · subst hq
        have hlt : q + 1 < last := by omega
        cases hp : pred (x q) (x (q + 1))
        · rfl
        · exact absurd ⟨hlt, hp⟩ hc
      · exact h5 q (by omega) hq2

theorem leftmostPair_none {α : Type} (x : Nat → α) (pred : α → α → Bool) (last : Nat) :
    ∀ k first, leftmostPair x pred last k first = none →
      ∀ q, first ≤ q → q < first + k → q + 1 < last → pred (x q) (x (q + 1)) = false := by
  intro k
  induction k with
  | zero => intro first _ q h1 h2; omega
  | succ k ih =>
    intro first h q h1 h2 h3
    rw [leftmostPair] at h
    split at h
    · cases h
    · rename_i hc
      by_cases hq : q = first
      · subst hq
        cases hp : pred (x q) (x (q + 1))
        · rfl
        · exact absurd ⟨h3, hp⟩ hc
      · exact ih (first + 1) h q (by omega) (by omega) h3

theorem adjacent_find_loop_eq {α : Type} (x : Nat → α) (pred : α → α → Bool) (last d : Nat) :
    ∀ k first, first + k < last →
      adjacent_find.loop x pred d k first = (leftmostPair x pred last k first).getD d := by
  intro k
  induction k with
  | zero => intro first _; simp [adjacent_find.loop, leftmostPair]
  | succ k ih =>
    intro first h
    rw [adjacent_find.loop, leftmostPair]
    have hlt : first + 1 < last := by omega
    by_cases hp : pred (x first) (x (first + 1)) = true
    · simp [hp, hlt]
    · simp only [hp, if_false, Bool.false_eq_true, and_false]
      exact ih (first + 1) (by omega)

theorem leftmostPair_at_end {α : Type} (x : Nat → α) (pred : α → α → Bool) (last k first : Nat)
    (h : first + k + 1 = last) :
    leftmostPair x pred last (k + 1) first = leftmostPair x pred last k first := by
  rw [leftmostPair_add]
  have hno : leftmostPair x pred last 1 (first + k) = none := by
    have : ¬ (first + k + 1 < last) := by omega
    simp [leftmostPair, this]
  rw [hno]
  cases leftmostPair x pred last k first <;> rfl

end std

namespace pstl
namespace internal

open par_backend

theorem adjacent_find_body_eq {α : Type} (x : Nat → α) (last : Nat) (pred : α → α → Bool)
    (b e v : Nat) (hbe : b ≤ e) (hel : e ≤ last) :
    pattern_adjacent_find.body x last pred false b e v =
      if b < v then (std.leftmostPair x pred last (e - b) b).getD v else v := by
  unfold pattern_adjacent_find.body
  simp only [Bool.false_and, Bool.false_eq_true, if_false, gt_iff_lt]
  by_cases hv : b < v
  · simp only [hv, if_true]
    by_cases he : e = last
    · subst he
      simp only [ne_eq, not_true_eq_false, if_false, brick_adjacent_find, std.adjacent_find]
      by_cases hb : b = e
      · subst hb
        simp [std.leftmostPair]
      · have hk : e - b = (e - (b + 1)) + 1 := by omega
        rw [if_neg hb, std.adjacent_find_loop_eq x pred e e _ b (by omega), hk,
          std.leftmostPair_at_end x pred e _ b (by omega)]
        cases hlp : std.leftmostPair x pred e (e - (b + 1)) b with
        | none => simp
        | some p =>
          have := (std.leftmostPair_some x pred e _ b p hlp).2.2.1
          have hp : p < e := by omega
          simp [hp]
    · have hlt : e < last := by omega
      have hb : b ≠ e + 1 := by omega
      have hk : e + 1 - (b + 1) = e - b := by omega
      simp only [ne_eq, he, not_false_eq_true, if_true, brick_adjacent_find, std.adjacent_find]
      rw [if_neg hb, hk, std.adjacent_find_loop_eq x pred last (e + 1) _ b (by omega)]
      cases hlp : std.leftmostPair x pred last (e - b) b with
      | none => simp
      | some p =>
        have := (std.leftmostPair_some x pred last _ b p hlp).2.1
        have hp : p < e + 1 := by omega
        simp [hp]
  · simp [hv]

theorem adjacent_find_chunk {α : Type} (x : Nat → α) (last : Nat) (pred : α → α → Bool)
    (s b len : Nat) (hsb : s ≤ b) (hbl : b + len ≤ last) :
    pattern_adjacent_find.body x last pred false b (b + len)
        ((std.leftmostPair x pred last (b - s) s).getD last) =
      (std.leftmostPair x pred last (b + len - s) s).getD last := by
  rw [adjacent_find_body_eq x last pred b (b + len) _ (by omega) (by omega)]
  have e1 : b + len - s = (b - s) + len := by omega
  have e2 : b + len - b = len := by omega
  have e3 : s + (b - s) = b := by omega
  rw [e1, std.leftmostPair_add, e2, e3]
  cases hlp : std.leftmostPair x pred last (b - s) s with
  | some p =>
    have := (std.leftmostPair_some x pred last _ s p hlp).2.1
    have hp : ¬ b < p := by omega
    simp [hp]
  | none =>
    by_cases hb : b < last
    · simp [hb]
    · have hlen : len = 0 := by omega
      subst hlen
      simp [hb, std.leftmostPair]

theorem adjacent_find_eval {α : Type} (x : Nat → α) (last : Nat) (pred : α → α → Bool) :
    ∀ (sched : ReduceSchedule) (s b : Nat), s ≤ b → b + sched.size ≤ last →
      sched.eval (pattern_adjacent_find.body x last pred false)
          pattern_adjacent_find.combine last b
          ((std.leftmostPair x pred last (b - s) s).getD last) =
        (std.leftmostPair x pred last (b + sched.size - s) s).getD last := by
  intro sched
  induction sched with
  | chunk len =>
    intro s b hsb hb
    exact adjacent_find_chunk x last pred s b len hsb hb
  | seq l r ihl ihr =>
    intro s b hsb hb
    simp only [ReduceSchedule.size] at hb
    simp only [ReduceSchedule.eval, ReduceSchedule.size]
    rw [ihl s b hsb (by omega), ihr s (b + l.size) (by omega) (by omega)]
    have e : b + l.size + r.size = b + (l.size + r.size) := by omega
    rw [e]
  | join l r ihl ihr =>
    intro s b hsb hb
    simp only [ReduceSchedule.size] at hb
    simp only [ReduceSchedule.eval, ReduceSchedule.size]
    have hid : last = (std.leftmostPair x pred last (b + l.size - (b + l.size))
        (b + l.size)).getD last := by
      have e0 : b + l.size - (b + l.size) = 0 := by omega
      rw [e0]; rfl
    have hright := ihr (b + l.size) (b + l.size) (Nat.le_refl _) (by omega)
    rw [← hid] at hright
    have e1 : b + l.size + r.size - (b + l.size) = r.size := by omega
    rw [e1] at hright
    rw [ihl s b hsb (by omega), hright]
    have e2 : b + (l.size + r.size) - s = (b + l.size - s) + r.size := by omega
    have e3 : s + (b + l.size - s) = b + l.size := by omega
    rw [e2, std.leftmostPair_add, e3]
    have hr : (std.leftmostPair x pred last r.size (b + l.size)).getD last ≤ last ∧
        b + l.size ≤ (std.leftmostPair x pred last r.size (b + l.size)).getD last := by
      cases hlp : std.leftmostPair x pred last r.size (b + l.size) with
      | none => simp; omega
      | some q =>
        obtain ⟨h1, _, h3, _⟩ := std.leftmostPair_some x pred last _ _ q hlp
        simp; omega
    cases hlp : std.leftmostPair x pred last (b + l.size - s) s with
    | none =>
      simp only [Option.getD_none, pattern_adjacent_find.combine]
      have : ¬ last < (std.leftmostPair x pred last r.size (b + l.size)).getD last := by omega
      rw [if_neg this]
      rfl
    | some p =>
      obtain ⟨_, h2, _, _⟩ := std.leftmostPair_some x pred last _ _ p hlp
      simp only [Option.getD_some, pattern_adjacent_find.combine]
      have : p < (std.leftmostPair x pred last r.size (b + l.size)).getD last := by omega
      rw [if_pos this]
      rfl

theorem adjacent_find_eq_leftmostPair {α : Type} (x : Nat → α) (first n : Nat)
    (pred : α → α → Bool) :
    std.adjacent_find x first (first + n) pred =
      (std.leftmostPair x pred (first + n) n first).getD (first + n) := by
  unfold std.adjacent_find
  cases n with
  | zero => simp [std.leftmostPair]
  | succ k =>
    have hne : first ≠ first + (k + 1) := by omega
    have hk : first + (k + 1) - (first + 1) = k := by omega
    rw [if_neg hne, hk, std.adjacent_find_loop_eq x pred (first + (k + 1)) _ k first (by omega),
      std.leftmostPair_at_end x pred _ k first (by omega)]

/-- C10: for every range `[first, first + n)` (so in particular one of at least 2 elements),
every binary predicate, `or_semantic = false` and every schedule that cuts the range into
consecutive chunks, applies the reduce body of `pattern_adjacent_find` to each chunk, started
either from the identity `last` or from the value accumulated over the chunks to its left,
and merges partial results with the combine function `x < y ? x : y` in any association
order: the result is the position serial `std::adjacent_find` returns on the whole range,
which is the leftmost `p` with `pred(*p, *(p+1))`, a pair straddling a chunk boundary
included, or `last` when there is none. -/
theorem adjacent_find_reduce_eq_serial {α : Type} (x : Nat → α) (first n : Nat)
    (pred : α → α → Bool) (sched : par_backend.ReduceSchedule) (hsize : sched.size = n) :
    sched.eval (pattern_adjacent_find.body x (first + n) pred false)
        pattern_adjacent_find.combine (first + n) first (first + n) =
      std.adjacent_find x first (first + n) pred ∧
    ((std.adjacent_find x first (first + n) pred = first + n ∧
        ∀ p, first ≤ p → p + 1 < first + n → pred (x p) (x (p + 1)) = false) ∨
      (first ≤ std.adjacent_find x first (first + n) pred ∧
        std.adjacent_find x first (first + n) pred + 1 < first + n ∧
        pred (x (std.adjacent_find x first (first + n) pred))
          (x (std.adjacent_find x first (first + n) pred + 1)) = true ∧
        ∀ q, first ≤ q → q < std.adjacent_find x first (first + n) pred →
          pred (x q) (x (q + 1)) = false)) := by
  have hev := adjacent_find_eval x (first + n) pred sched first first (Nat.le_refl _) (by omega)
  have e0 : first - first = 0 := by omega
  have e1 : first + sched.size - first = n := by omega
  rw [e0, e1] at hev
  have hid : (std.leftmostPair x pred (first + n) 0 first).getD (first + n) = first + n := rfl
  rw [hid] at hev
  rw [hev, adjacent_find_eq_leftmostPair]
  refine ⟨rfl, ?_⟩
  cases hlp : std.leftmostPair x pred (first + n) n first with
  | none =>
    left
    refine ⟨rfl, ?_⟩
    intro p h1 h2
    exact std.leftmostPair_none x pred _ n first hlp p h1 (by omega) h2
  | some r =>
    right
    obtain ⟨h1, _, h3, h4, h5⟩ := std.leftmostPair_some x pred _ n first r hlp
    exact ⟨h1, h3, h4, h5⟩

/-- Witness for C10: the range `[1,2,2,3,3]` with predicate "equal", cut into the chunks
`[0,2)`, `[2,3)`, `[3,5)`: the first chunk is reduced on its own, the other two by one body
started from the identity, and the two partial results are combined; the leftmost equal pair
`(1,2)` straddles the first boundary. -/
theorem adjacent_find_reduce_eq_serial_witness :
    (ReduceSchedule.join (.chunk 2) (.seq (.chunk 1) (.chunk 2))).size = 5 ∧
      (ReduceSchedule.join (.chunk 2) (.seq (.chunk 1) (.chunk 2))).eval
          (pattern_adjacent_find.body (fun k => [1, 2, 2, 3, 3].getD k 0) (0 + 5)
            (fun a b => a == b) false)
          pattern_adjacent_find.combine (0 + 5) 0 (0 + 5) =
        std.adjacent_find (fun k => [1, 2, 2, 3, 3].getD k 0) 0 (0 + 5) (fun a b => a == b) ∧
      std.adjacent_find (fun k => [1, 2, 2, 3, 3].getD k 0) 0 (0 + 5) (fun a b => a == b) = 1 :=
  ⟨by decide,
    (adjacent_find_reduce_eq_serial (fun k => [1, 2, 2, 3, 3].getD k 0) 0 5 (fun a b => a == b)
      (ReduceSchedule.join (.chunk 2) (.seq (.chunk 1) (.chunk 2))) (by decide)).1,
    by decide⟩

end internal
end pstl

/-! ## `min_element`: reduce body and combine -/

namespace std

end std

namespace pstl
namespace internal

open par_backend

end internal
end pstl

namespace pstl
namespace internal

open par_backend

end internal
end pstl

/-! ## Filter scans by mask: `unique_copy` and `partition_copy` -/

namespace std

theorem writeAt_nil {α : Type} (out : Nat → α) (r : Nat) : writeAt out r [] = out := by
  funext j
  simp [writeAt]

theorem writeAt_cons {α : Type} (out : Nat → α) (r : Nat) (a : α) (l : List α) :
    writeAt (Function.update out r a) (r + 1) l = writeAt out r (a :: l) := by
  funext j
  simp only [writeAt]
  by_cases h1 : r + 1 ≤ j
  · have h2 : r ≤ j := by omega
    have h3 : j - r = (j - (r + 1)) + 1 := by omega
    have h4 : j ≠ r := by omega
    simp [h1, h2, h3, Function.update_noteq h4]
  · by_cases h2 : r = j
    · subst h2; simp
    · have h3 : ¬ r ≤ j := by omega
      have h4 : j ≠ r := by omega
      simp [h1, h3, Function.update_noteq h4]

theorem writeAt_append {α : Type} (l1 l2 : List α) :
    ∀ (out : Nat → α) (r : Nat),
      writeAt (writeAt out r l1) (r + l1.length) l2 = writeAt out r (l1 ++ l2) := by
  induction l1 with
  | nil => intro out r; simp [writeAt_nil]
  | cons a l1 ih =>
    intro out r
    have e : r + (a :: l1).length = r + 1 + l1.length := by simp; omega
    rw [e, ← writeAt_cons, ih, List.cons_append, ← writeAt_cons]

theorem writeAt_readback {α : Type} (out : Nat → α) (r : Nat) (l : List α) :
    (List.range l.length).map (fun t => writeAt out r l (r + t)) = l := by
  apply List.ext_getElem
  · simp
  · intro t h1 h2
    have e : r + t - r = t := by omega
    simp [writeAt, e, List.getElem?_eq_getElem h2]

theorem writeAt_frame {α : Type} (out : Nat → α) (r : Nat) (l : List α) (j : Nat)
    (h : j < r ∨ r + l.length ≤ j) : writeAt out r l j = out j := by
  simp only [writeAt]
  by_cases hr : r ≤ j
  · have : l.length ≤ j - r := by omega
    simp [hr, List.getElem?_eq_none this]
  · simp [hr]

theorem flagged_add {α : Type} (x : Nat → α) (mask : Nat → Bool) (a b : Nat) :
    ∀ first maskp, flagged x mask (a + b) first maskp =
      flagged x mask a first maskp ++ flagged x mask b (first + a) (maskp + a) := by
  induction a with
  | zero => intro first maskp; simp [flagged]
  | succ a ih =>
    intro first maskp
    have h : a + 1 + b = (a + b) + 1 := by omega
    have h2 : first + (a + 1) = first + 1 + a := by omega
    have h3 : maskp + (a + 1) = maskp + 1 + a := by omega
    rw [h, flagged, flagged, h2, h3, ih]
    split <;> simp

theorem flagged_congr {α : Type} (x : Nat → α) (mask mask' : Nat → Bool) :
    ∀ k first maskp, (∀ t, t < k → mask (maskp + t) = mask' (maskp + t)) →
      flagged x mask k first maskp = flagged x mask' k first maskp := by
  intro k
  induction k with
  | zero => intro first maskp _; rfl
  | succ k ih =>
    intro first maskp h
    have h0 : mask maskp = mask' maskp := by simpa using h 0 (by omega)
    have hs : ∀ t, t < k → mask (maskp + 1 + t) = mask' (maskp + 1 + t) := by
      intro t ht
      have := h (t + 1) (by omega)
      have e1 : maskp + 1 + t = maskp + (t + 1) := by omega
      rw [e1]; exact this
    rw [flagged, flagged, h0, ih (first + 1) (maskp + 1) hs]

theorem flagged_eq_selected {α : Type} (x : Nat → α) (pred : α → Bool) (mask : Nat → Bool) :
    ∀ k first maskp, (∀ t, t < k → mask (maskp + t) = pred (x (first + t))) →
      flagged x mask k first maskp = selected x pred first k := by
  intro k
  induction k with
  | zero => intro first maskp _; rfl
  | succ k ih =>
    intro first maskp h
    have h0 : mask maskp = pred (x first) := by simpa using h 0 (by omega)
    have hs : ∀ t, t < k → mask (maskp + 1 + t) = pred (x (first + 1 + t)) := by
      intro t ht
      have := h (t + 1) (by omega)
      have e1 : maskp + 1 + t = maskp + (t + 1) := by omega
      have e2 : first + 1 + t = first + (t + 1) := by omega
      rw [e1, e2]; exact this
    rw [flagged, selected_succ, h0, ih (first + 1) (maskp + 1) hs]

theorem flagged_length_add_not {α : Type} (x : Nat → α) (mask : Nat → Bool) :
    ∀ k first maskp,
      (flagged x mask k first maskp).length +
        (flagged x (fun j => !mask j) k first maskp).length = k := by
  intro k
  induction k with
  | zero => intro first maskp; rfl
  | succ k ih =>
    intro first maskp
    rw [flagged, flagged]
    have := ih (first + 1) (maskp + 1)
    cases hm : mask maskp <;> simp [hm] <;> omega

end std

namespace pstl
namespace internal

theorem brick_copy_by_mask_loop_writeAt {α : Type} (x : Nat → α) (mask : Nat → Bool) :
    ∀ k first maskp out result,
      brick_copy_by_mask.loop x mask k first maskp out result =
        std.writeAt out result (std.flagged x mask k first maskp) := by
  intro k
  induction k with
  | zero => intro first maskp out result; simp [brick_copy_by_mask.loop, std.flagged,
      std.writeAt_nil]
  | succ k ih =>
    intro first maskp out result
    rw [brick_copy_by_mask.loop, std.flagged]
    split
    · rw [ih, std.writeAt_cons]
    · rw [ih]

theorem brick_partition_by_mask_loop_writeAt {α : Type} (x : Nat → α) (mask : Nat → Bool) :
    ∀ k first maskp mem_true out_true mem_false out_false,
      brick_partition_by_mask.loop x mask k first maskp mem_true out_true mem_false out_false =
        (std.writeAt mem_true out_true (std.flagged x mask k first maskp),
          std.writeAt mem_false out_false
            (std.flagged x (fun j => !mask j) k first maskp)) := by
  intro k
  induction k with
  | zero =>
    intro first maskp mem_true out_true mem_false out_false
    simp [brick_partition_by_mask.loop, std.flagged, std.writeAt_nil]
  | succ k ih =>
    intro first maskp mem_true out_true mem_false out_false
    rw [brick_partition_by_mask.loop, std.flagged, std.flagged]
    cases hm : mask maskp
    · simp only [Bool.false_eq_true, if_false, Bool.not_false, if_true]
      rw [ih, std.writeAt_cons]
    · simp only [if_true, Bool.not_true, Bool.false_eq_true, if_false]
      rw [ih, std.writeAt_cons]

end internal
end pstl

namespace std

theorem selected_length_add_not {α : Type} (x : Nat → α) (pred : α → Bool) :
    ∀ k first, (selected x pred first k).length +
      (selected x (fun a => !pred a) first k).length = k := by
  intro k
  induction k with
  | zero => intro first; rfl
  | succ k ih =>
    intro first
    rw [selected_succ, selected_succ]
    have := ih (first + 1)
    cases hp : pred (x first) <;> simp [hp] <;> omega

theorem partition_copy_loop_eq {α : Type} (x : Nat → α) (pred : α → Bool) :
    ∀ k first mem_true out_true mem_false out_false,
      partition_copy.loop x pred k first mem_true out_true mem_false out_false =
        ((writeAt mem_true out_true (selected x pred first k),
          writeAt mem_false out_false (selected x (fun a => !pred a) first k)),
         (out_true + (selected x pred first k).length,
          out_false + (selected x (fun a => !pred a) first k).length)) := by
  intro k
  induction k with
  | zero =>
    intro first mem_true out_true mem_false out_false
    simp [partition_copy.loop, selected_zero, writeAt_nil]
  | succ k ih =>
    intro first mem_true out_true mem_false out_false
    rw [partition_copy.loop, selected_succ, selected_succ]
    cases hp : pred (x first)
    · simp only [Bool.false_eq_true, if_false, Bool.not_false, if_true]
      rw [ih, writeAt_cons]
      simp only [List.length_cons]
      have e : out_false + 1 + (selected x (fun a => !pred a) (first + 1) k).length =
          out_false + ((selected x (fun a => !pred a) (first + 1) k).length + 1) := by omega
      rw [e]
    · simp only [if_true, Bool.not_true, Bool.false_eq_true, if_false]
      rw [ih, writeAt_cons]
      simp only [List.length_cons]
      have e : out_true + 1 + (selected x pred (first + 1) k).length =
          out_true + ((selected x pred (first + 1) k).length + 1) := by omega
      rw [e]

end std

namespace pstl
namespace internal

open par_backend

theorem pattern_partition_copy_reduce_eq {α : Type} (x : Nat → α) (first : Nat)
    (pred : α → Bool) (i len : Nat) (s : PartitionCopyState α) :
    (pattern_partition_copy.reduce x first pred i len s).1 =
        ((std.selected x pred (first + i) len).length,
          (std.selected x (fun a => !pred a) (first + i) len).length) ∧
      (pattern_partition_copy.reduce x first pred i len s).2.mem_true = s.mem_true ∧
      (pattern_partition_copy.reduce x first pred i len s).2.mem_false = s.mem_false ∧
      (pattern_partition_copy.reduce x first pred i len s).2.m = s.m ∧
      ∀ j, (pattern_partition_copy.reduce x first pred i len s).2.mask j =
        if i ≤ j ∧ j < i + len then pred (x (first + j)) else s.mask j := by
  have hlen : first + (i + len) - (first + i) = len := by omega
  refine ⟨?_, rfl, rfl, rfl, ?_⟩
  · have h := std.selected_length_add_not x pred len (first + i)
    simp only [pattern_partition_copy.reduce, brick_calc_mask_1, hlen,
      brick_calc_mask_1_loop_snd, Nat.zero_add]
    congr 1
    omega
  · intro j
    simp only [pattern_partition_copy.reduce, brick_calc_mask_1, hlen]
    rw [brick_calc_mask_1_loop_fst]
    by_cases h : i ≤ j ∧ j < i + len
    · have e : first + i + (j - i) = first + j := by omega
      simp [h, e]
    · simp [h]

theorem partition_copy_reduce_pass_spec {α : Type} (x : Nat → α) (first : Nat)
    (pred : α → Bool) :
    ∀ lens i (s : PartitionCopyState α),
      (reduce_pass (pattern_partition_copy.reduce x first pred) (tiles i lens) s).1 =
          (tiles i lens).map (fun t =>
            ((std.selected x pred (first + t.1) t.2).length,
              (std.selected x (fun a => !pred a) (first + t.1) t.2).length)) ∧
        (reduce_pass (pattern_partition_copy.reduce x first pred) (tiles i lens) s).2.mem_true
          = s.mem_true ∧
        (reduce_pass (pattern_partition_copy.reduce x first pred) (tiles i lens) s).2.mem_false
          = s.mem_false ∧
        ∀ j, (reduce_pass (pattern_partition_copy.reduce x first pred) (tiles i lens) s).2.mask j
          = if i ≤ j ∧ j < i + lens.sum then pred (x (first + j)) else s.mask j := by
  intro lens
  induction lens with
  | nil =>
    intro i s
    refine ⟨rfl, rfl, rfl, ?_⟩
    intro j
    have h : ¬ (i ≤ j ∧ j < i + ([] : List Nat).sum) := by simp
    rw [if_neg h]; rfl
  | cons len rest ih =>
    intro i s
    obtain ⟨h1, h2, h3, _, h5⟩ := pattern_partition_copy_reduce_eq x first pred i len s
    obtain ⟨g1, g2, g3, g4⟩ := ih (i + len) (pattern_partition_copy.reduce x first pred i len s).2
    simp only [tiles, reduce_pass, List.map_cons, List.sum_cons]
    refine ⟨?_, ?_, ?_, ?_⟩
    · rw [h1, g1]
    · rw [g2, h2]
    · rw [g3, h3]
    · intro j
      rw [g4, h5]
      by_cases a : i + len ≤ j ∧ j < i + len + rest.sum
      · have b : i ≤ j ∧ j < i + (len + rest.sum) := by omega
        simp [a, b]
      · by_cases b : i ≤ j ∧ j < i + len
        · have c : i ≤ j ∧ j < i + (len + rest.sum) := by omega
          simp [a, b, c]
        · have c : ¬ (i ≤ j ∧ j < i + (len + rest.sum)) := by omega
          simp [a, b, c]

theorem partition_counts_total {α : Type} (x : Nat → α) (first : Nat) (pred : α → Bool) :
    ∀ lens i (acc : Nat × Nat),
      ((tiles i lens).map (fun t =>
          ((std.selected x pred (first + t.1) t.2).length,
            (std.selected x (fun a => !pred a) (first + t.1) t.2).length))).foldl
          pattern_partition_copy.combine acc =
        (acc.1 + (std.selected x pred (first + i) lens.sum).length,
          acc.2 + (std.selected x (fun a => !pred a) (first + i) lens.sum).length) := by
  intro lens
  induction lens with
  | nil => intro i acc; simp [tiles, std.selected_zero]
  | cons len rest ih =>
    intro i acc
    simp only [tiles, List.map_cons, List.foldl_cons, List.sum_cons]
    rw [ih, std.selected_add, std.selected_add, List.length_append, List.length_append]
    have e : first + (i + len) = first + i + len := by omega
    simp only [pattern_partition_copy.combine, e]
    congr 1 <;> omega

theorem partition_copy_scan_pass_spec {α : Type} (x : Nat → α) (first out_true out_false : Nat)
    (pred : α → Bool) :
    ∀ lens i (initial : Nat × Nat) (s : PartitionCopyState α),
      (∀ j, i ≤ j → j < i + lens.sum → s.mask j = pred (x (first + j))) →
      scan_pass pattern_partition_copy.combine
          (pattern_partition_copy.scan x first out_true out_false) (tiles i lens)
          ((tiles i lens).map (fun t =>
            ((std.selected x pred (first + t.1) t.2).length,
              (std.selected x (fun a => !pred a) (first + t.1) t.2).length)))
          initial s =
        { s with
          mem_true := std.writeAt s.mem_true (out_true + initial.1)
            (std.selected x pred (first + i) lens.sum),
          mem_false := std.writeAt s.mem_false (out_false + initial.2)
            (std.selected x (fun a => !pred a) (first + i) lens.sum) } := by
  intro lens
  induction lens with
  | nil =>
    intro i initial s _
    simp [tiles, scan_pass, std.selected_zero, std.writeAt_nil]
  | cons len rest ih =>
    intro i initial s hmask
    simp only [tiles, List.map_cons, scan_pass, List.sum_cons]
    have hlen : first + (i + len) - (first + i) = len := by omega
    have hm1 : ∀ t, t < len → s.mask (i + t) = pred (x (first + i + t)) := by
      intro t ht
      have := hmask (i + t) (by omega) (by simp only [List.sum_cons]; omega)
      rw [this]
      congr 2
      omega
    have hm2 : ∀ t, t < len → (fun j => !s.mask j) (i + t) = (fun a => !pred a) (x (first + i + t)) := by
      intro t ht
      simp only [hm1 t ht]
    have hbrick : pattern_partition_copy.scan x first out_true out_false i len initial s =
        { s with
          mem_true := std.writeAt s.mem_true (out_true + initial.1)
            (std.selected x pred (first + i) len),
          mem_false := std.writeAt s.mem_false (out_false + initial.2)
            (std.selected x (fun a => !pred a) (first + i) len) } := by
      simp only [pattern_partition_copy.scan, brick_partition_by_mask, hlen]
      rw [brick_partition_by_mask_loop_writeAt,
        std.flagged_eq_selected x pred s.mask len (first + i) i hm1,
        std.flagged_eq_selected x (fun a => !pred a) (fun j => !s.mask j) len (first + i) i hm2]
    rw [hbrick, ih]
    · simp only [pattern_partition_copy.combine]
      have e1 : first + (i + len) = first + i + len := by omega
      have e2 : out_true + (initial.1 + (std.selected x pred (first + i) len).length) =
          out_true + initial.1 + (std.selected x pred (first + i) len).length := by omega
      have e3 : out_false + (initial.2 +
            (std.selected x (fun a => !pred a) (first + i) len).length) =
          out_false + initial.2 +
            (std.selected x (fun a => !pred a) (first + i) len).length := by omega
      rw [e1, e2, e3, std.writeAt_append, std.writeAt_append, ← std.selected_add,
        ← std.selected_add]
    · intro j h1 h2
      exact hmask j (by omega) (by simp only [List.sum_cons]; omega)

end internal
end pstl

namespace pstl
namespace internal

/-- C13: for every input region `x`, range `[first, first + n)`, predicate and partition of
`[0, n)` into consecutive tiles (of any lengths summing to `n`, so in particular for
`n > 1`), whatever the mask buffer and the two output memories hold beforehand: running the
`Reduce` lambda of `pattern_partition_copy` on every tile and then its `Scan` lambda on every
tile, with `initial` the component-wise sum of the `Reduce` pairs of the tiles to its left,
leaves both output memories exactly as `std::partition_copy` leaves them, and the pair of
totals gives the two end positions `std::partition_copy` returns; the slice written at
`out_true` holds the elements satisfying `pred` and the slice written at `out_false` the
others, each in input order, and the two totals add up to `n`. -/
theorem partition_copy_two_pass_eq_serial {α : Type} (x : Nat → α) (first n : Nat)
    (pred : α → Bool) (lens : List Nat) (mask0 : Nat → Bool) (mem_true : Nat → α)
    (out_true : Nat) (mem_false : Nat → α) (out_false : Nat) (m0 : Nat × Nat)
    (hsum : lens.sum = n) :
    ((par_backend.scan_pass pattern_partition_copy.combine
          (pattern_partition_copy.scan x first out_true out_false) (tiles 0 lens)
          (par_backend.reduce_pass (pattern_partition_copy.reduce x first pred) (tiles 0 lens)
            ⟨mask0, mem_true, mem_false, m0⟩).1 (0, 0)
          (par_backend.reduce_pass (pattern_partition_copy.reduce x first pred) (tiles 0 lens)
            ⟨mask0, mem_true, mem_false, m0⟩).2).mem_true,
      (par_backend.scan_pass pattern_partition_copy.combine
          (pattern_partition_copy.scan x first out_true out_false) (tiles 0 lens)
          (par_backend.reduce_pass (pattern_partition_copy.reduce x first pred) (tiles 0 lens)
            ⟨mask0, mem_true, mem_false, m0⟩).1 (0, 0)
          (par_backend.reduce_pass (pattern_partition_copy.reduce x first pred) (tiles 0 lens)
            ⟨mask0, mem_true, mem_false, m0⟩).2).mem_false) =
      (std.partition_copy x first (first + n) mem_true out_true mem_false out_false pred).1 ∧
    (out_true + ((par_backend.reduce_pass (pattern_partition_copy.reduce x first pred)
          (tiles 0 lens) ⟨mask0, mem_true, mem_false, m0⟩).1.foldl
          pattern_partition_copy.combine (0, 0)).1,
      out_false + ((par_backend.reduce_pass (pattern_partition_copy.reduce x first pred)
          (tiles 0 lens) ⟨mask0, mem_true, mem_false, m0⟩).1.foldl
          pattern_partition_copy.combine (0, 0)).2) =
      (std.partition_copy x first (first + n) mem_true out_true mem_false out_false pred).2 ∧
    (List.range ((std.partition_copy x first (first + n) mem_true out_true mem_false out_false
          pred).2.1 - out_true)).map
        (fun t => (std.partition_copy x first (first + n) mem_true out_true mem_false out_false
          pred).1.1 (out_true + t)) =
      ((List.range' first n).map x).filter pred ∧
    (List.range ((std.partition_copy x first (first + n) mem_true out_true mem_false out_false
          pred).2.2 - out_false)).map
        (fun t => (std.partition_copy x first (first + n) mem_true out_true mem_false out_false
          pred).1.2 (out_false + t)) =
      ((List.range' first n).map x).filter (fun a => !pred a) ∧
    ((std.partition_copy x first (first + n) mem_true out_true mem_false out_false pred).2.1
        - out_true) +
      ((std.partition_copy x first (first + n) mem_true out_true mem_false out_false pred).2.2
        - out_false) = n := by
  obtain ⟨h1, h2, h3, h4⟩ :=
    partition_copy_reduce_pass_spec x first pred lens 0 ⟨mask0, mem_true, mem_false, m0⟩
  have hmask : ∀ j, 0 ≤ j → j < 0 + lens.sum →
      (par_backend.reduce_pass (pattern_partition_copy.reduce x first pred) (tiles 0 lens)
        ⟨mask0, mem_true, mem_false, m0⟩).2.mask j = pred (x (first + j)) := by
    intro j _ hj
    rw [h4, if_pos ⟨Nat.zero_le _, hj⟩]
  have hscan := partition_copy_scan_pass_spec x first out_true out_false pred lens 0 (0, 0) _
    hmask
  have htot := partition_counts_total x first pred lens 0 (0, 0)
  have hn : first + n - first = n := by omega
  rw [h1, hscan, htot, h2, h3, hsum]
  simp only [std.partition_copy, hn, std.partition_copy_loop_eq, Nat.add_zero, Nat.zero_add,
    Nat.add_sub_cancel_left]
  refine ⟨trivial, trivial, ?_, ?_, ?_⟩
  · exact std.writeAt_readback _ _ _
  · exact std.writeAt_readback _ _ _
  · exact std.selected_length_add_not x pred n first

/-- Witness for C13: the input `[3,1,4,1,5,9,2,6]` with predicate "is odd", cut into tiles of
lengths 3, 2 and 3: the totals of the `Reduce` pairs give the end positions of
`std::partition_copy`. -/
theorem partition_copy_two_pass_eq_serial_witness :
    [3, 2, 3].sum = 8 ∧
    (0 + ((par_backend.reduce_pass
          (pattern_partition_copy.reduce (fun k => [3, 1, 4, 1, 5, 9, 2, 6].getD k 0) 0
            (fun v => v % 2 == 1))
          (tiles 0 [3, 2, 3]) ⟨fun _ => false, fun _ => 0, fun _ => 0, (0, 0)⟩).1.foldl
          pattern_partition_copy.combine (0, 0)).1,
      0 + ((par_backend.reduce_pass
          (pattern_partition_copy.reduce (fun k => [3, 1, 4, 1, 5, 9, 2, 6].getD k 0) 0
            (fun v => v % 2 == 1))
          (tiles 0 [3, 2, 3]) ⟨fun _ => false, fun _ => 0, fun _ => 0, (0, 0)⟩).1.foldl
          pattern_partition_copy.combine (0, 0)).2) =
      (std.partition_copy (fun k => [3, 1, 4, 1, 5, 9, 2, 6].getD k 0) 0 (0 + 8)
        (fun _ => 0) 0 (fun _ => 0) 0 (fun v => v % 2 == 1)).2 :=
  ⟨by decide,
    (partition_copy_two_pass_eq_serial (fun k => [3, 1, 4, 1, 5, 9, 2, 6].getD k 0) 0 8
      (fun v => v % 2 == 1) [3, 2, 3] (fun _ => false) (fun _ => 0) 0 (fun _ => 0) 0 (0, 0)
      (by decide)).2.1⟩

end internal
end pstl

namespace std

theorem unique_keep_zero {α : Type} (x : Nat → α) (pred : α → α → Bool) (first : Nat) :
    unique_keep x pred first 0 = true := by
  simp [unique_keep]

theorem unique_keep_pos {α : Type} (x : Nat → α) (pred : α → α → Bool) (first j : Nat)
    (h : 1 ≤ j) : unique_keep x pred first j = !pred (x (first + j)) (x (first + j - 1)) := by
  have : (j == 0) = false := by
    apply beq_false_of_ne
    omega
  simp [unique_keep, this]

theorem unique_copy_adjacent_loop_eq {α : Type} (x : Nat → α) (pred : α → α → Bool)
    (first : Nat) :
    ∀ k mp out result, 1 ≤ mp →
      unique_copy_adjacent.loop x pred k (first + mp) out result =
        (writeAt out result (flagged x (unique_keep x pred first) k (first + mp) mp),
          result + (flagged x (unique_keep x pred first) k (first + mp) mp).length) := by
  intro k
  induction k with
  | zero => intro mp out result _; simp [unique_copy_adjacent.loop, flagged, writeAt_nil]
  | succ k ih =>
    intro mp out result hmp
    rw [unique_copy_adjacent.loop, flagged, unique_keep_pos x pred first mp hmp]
    have e : first + mp + 1 = first + (mp + 1) := by omega
    cases hp : pred (x (first + mp)) (x (first + mp - 1))
    · simp only [Bool.false_eq_true, if_false, Bool.not_false, if_true]
      rw [e, ih (mp + 1) _ _ (by omega), writeAt_cons]
      simp only [List.length_cons]
      have e2 : result + 1 +
            (flagged x (unique_keep x pred first) k (first + (mp + 1)) (mp + 1)).length =
          result +
            ((flagged x (unique_keep x pred first) k (first + (mp + 1)) (mp + 1)).length + 1) := by
        omega
      rw [e2]
    · simp only [if_true, Bool.not_true, Bool.false_eq_true, if_false]
      rw [e, ih (mp + 1) _ _ (by omega)]

theorem unique_copy_adjacent_eq {α : Type} (x : Nat → α) (pred : α → α → Bool)
    (first n : Nat)
    (out : Nat → α) (result : Nat) :
    unique_copy_adjacent x first (first + n) out result pred =
      (writeAt out result (flagged x (unique_keep x pred first) n first 0),
        result + (flagged x (unique_keep x pred first) n first 0).length) := by
  cases n with
  | zero => simp [unique_copy_adjacent, flagged, writeAt_nil]
  | succ k =>
    have hne : first ≠ first + (k + 1) := by omega
    have hk : first + (k + 1) - (first + 1) = k := by omega
    rw [unique_copy_adjacent, if_neg hne, hk,
      unique_copy_adjacent_loop_eq x pred first k 1 _ _ (Nat.le_refl _),
      flagged, unique_keep_zero, if_pos rfl, writeAt_cons]
    simp only [List.length_cons, Nat.zero_add]
    have e : result + 1 + (flagged x (unique_keep x pred first) k (first + 1) 1).length =
        result + ((flagged x (unique_keep x pred first) k (first + 1) 1).length + 1) := by omega
    rw [e]

theorem unique_copy_loop_eq_adjacent {α : Type} (x : Nat → α) (pred : α → α → Bool)
    (hrefl : ∀ a, pred a a = true) (hsymm : ∀ a b, pred a b = true → pred b a = true)
    (htrans : ∀ a b c, pred a b = true → pred b c = true → pred a c = true) :
    ∀ k i kept out result, pred kept (x (i - 1)) = true →
      unique_copy.loop x pred k i kept out result =
        unique_copy_adjacent.loop x pred k i out result := by
  intro k
  induction k with
  | zero => intro i kept out result _; rfl
  | succ k ih =>
    intro i kept out result hk
    rw [unique_copy.loop, unique_copy_adjacent.loop]
    have e : i + 1 - 1 = i := by omega
    cases hp : pred (x i) (x (i - 1))
    · have hkp : pred kept (x i) = false := by
        cases hq : pred kept (x i)
        · rfl
        · have h1 := htrans _ _ _ (hsymm _ _ hk) hq
          have h2 := hsymm _ _ h1
          rw [hp] at h2
          exact absurd h2 (by decide)
      simp only [hkp, Bool.false_eq_true, if_false]
      exact ih (i + 1) (x i) _ _ (by rw [e]; exact hrefl _)
    · have hkp : pred kept (x i) = true := htrans _ _ _ hk (hsymm _ _ hp)
      simp only [hkp, if_true]
      exact ih (i + 1) kept _ _ (by rw [e]; exact hkp)

theorem unique_copy_eq_adjacent {α : Type} (x : Nat → α) (pred : α → α → Bool)
    (hrefl : ∀ a, pred a a = true) (hsymm : ∀ a b, pred a b = true → pred b a = true)
    (htrans : ∀ a b c, pred a b = true → pred b c = true → pred a c = true)
    (first last : Nat) (out : Nat → α) (result : Nat) :
    unique_copy x first last out result pred =
      unique_copy_adjacent x first last out result pred := by
  rw [unique_copy, unique_copy_adjacent]
  split
  · rfl
  · exact unique_copy_loop_eq_adjacent x pred hrefl hsymm htrans _ _ _ _ _
      (by simpa using hrefl (x first))

end std

namespace pstl
namespace internal

open par_backend

theorem brick_calc_mask_2_loop_eq {α : Type} (x : Nat → α) (pred : α → α → Bool)
    (first : Nat) :
    ∀ k mp (mask : Nat → Bool) count, 1 ≤ mp →
      brick_calc_mask_2.loop x pred k (first + mp) mp mask count =
        ((fun j => if mp ≤ j ∧ j < mp + k then std.unique_keep x pred first j else mask j),
          count + (std.flagged x (std.unique_keep x pred first) k (first + mp) mp).length) := by
  intro k
  induction k with
  | zero =>
    intro mp mask count _
    rw [brick_calc_mask_2.loop, std.flagged]
    congr 1
    funext j
    have h : ¬ (mp ≤ j ∧ j < mp + 0) := by omega
    rw [if_neg h]
  | succ k ih =>
    intro mp mask count hmp
    have e : first + mp + 1 = first + (mp + 1) := by omega
    rw [brick_calc_mask_2.loop, e, ih (mp + 1) _ _ (by omega), std.flagged, e,
      ← std.unique_keep_pos x pred first mp hmp]
    congr 1
    · funext j
      by_cases h1 : mp + 1 ≤ j ∧ j < mp + 1 + k
      · have h2 : mp ≤ j ∧ j < mp + (k + 1) := by omega
        rw [if_pos h1, if_pos h2]
      · by_cases h2 : j = mp
        · subst h2
          have h3 : j ≤ j ∧ j < j + (k + 1) := by omega
          rw [if_neg h1, if_pos h3, Function.update_same]
        · have h3 : ¬ (mp ≤ j ∧ j < mp + (k + 1)) := by omega
          rw [if_neg h1, if_neg h3, Function.update_noteq h2]
    · rw [Function.update_same]
      cases std.unique_keep x pred first mp <;> simp
      omega

theorem pattern_unique_copy_reduce_eq {α : Type} (x : Nat → α) (first : Nat)
    (pred : α → α → Bool) (i len : Nat) (s : CopyIfState α) (hlen : 0 < len) :
    (pattern_unique_copy.reduce x first pred i len s).1 =
        (std.flagged x (std.unique_keep x pred first) len (first + i) i).length ∧
      (pattern_unique_copy.reduce x first pred i len s).2.out = s.out ∧
      (pattern_unique_copy.reduce x first pred i len s).2.m = s.m ∧
      ∀ j, (pattern_unique_copy.reduce x first pred i len s).2.mask j =
        if i ≤ j ∧ j < i + len then std.unique_keep x pred first j else s.mask j := by
  by_cases hi : i = 0
  · subst hi
    by_cases h1 : len = 1
    · subst h1
      simp only [pattern_unique_copy.reduce, if_true]
      refine ⟨?_, trivial, trivial, ?_⟩
      · simp [std.flagged, std.unique_keep_zero]
      · intro j
        by_cases hj : j = 0
        · subst hj; simp [std.unique_keep_zero]
        · have h : ¬ (0 ≤ j ∧ j < 0 + 1) := by omega
          rw [if_neg h]
          simp [Function.update_noteq hj]
    · have hk : first + (0 + 1 + (len - 1)) - (first + (0 + 1)) = len - 1 := by omega
      have hl : len = (len - 1) + 1 := by omega
      have hb := brick_calc_mask_2_loop_eq x pred first (len - 1) 1
        (Function.update s.mask 0 true) 0 (Nat.le_refl _)
      simp only [pattern_unique_copy.reduce, if_true, if_neg h1, brick_calc_mask_2, hk,
        Nat.zero_add]
      rw [hb]
      refine ⟨?_, trivial, trivial, ?_⟩
      · conv_rhs => rw [hl, std.flagged, std.unique_keep_zero, if_pos rfl]
        simp
      · intro j
        simp only []
        by_cases hj : j = 0
        · subst hj
          have h : ¬ (1 ≤ 0 ∧ 0 < 1 + (len - 1)) := by omega
          have h2 : (0 : Nat) ≤ 0 ∧ 0 < len := by omega
          rw [if_neg h, if_pos h2, Function.update_same, std.unique_keep_zero]
        · by_cases h : 1 ≤ j ∧ j < 1 + (len - 1)
          · have h2 : 0 ≤ j ∧ j < len := by omega
            rw [if_pos h, if_pos h2]
          · have h2 : ¬ (0 ≤ j ∧ j < len) := by omega
            rw [if_neg h, if_neg h2, Function.update_noteq hj]
  · have hk : first + (i + len) - (first + i) = len := by omega
    have hb := brick_calc_mask_2_loop_eq x pred first len i s.mask 0 (by omega)
    simp only [pattern_unique_copy.reduce, if_neg hi, brick_calc_mask_2, hk]
    rw [hb]
    refine ⟨?_, trivial, trivial, ?_⟩
    · simp
    · intro j; rfl

theorem unique_copy_reduce_pass_spec {α : Type} (x : Nat → α) (first : Nat)
    (pred : α → α → Bool) :
    ∀ lens i (s : CopyIfState α), (∀ l ∈ lens, 0 < l) →
      (reduce_pass (pattern_unique_copy.reduce x first pred) (tiles i lens) s).1 =
          (tiles i lens).map (fun t =>
            (std.flagged x (std.unique_keep x pred first) t.2 (first + t.1) t.1).length) ∧
        (reduce_pass (pattern_unique_copy.reduce x first pred) (tiles i lens) s).2.out = s.out ∧
        ∀ j, (reduce_pass (pattern_unique_copy.reduce x first pred) (tiles i lens) s).2.mask j =
          if i ≤ j ∧ j < i + lens.sum then std.unique_keep x pred first j else s.mask j := by
  intro lens
  induction lens with
  | nil =>
    intro i s _
    refine ⟨rfl, rfl, ?_⟩
    intro j
    have h : ¬ (i ≤ j ∧ j < i + ([] : List Nat).sum) := by simp
    rw [if_neg h]; rfl
  | cons len rest ih =>
    intro i s hpos
    obtain ⟨h1, h2, _, h4⟩ := pattern_unique_copy_reduce_eq x first pred i len s
      (hpos len (List.mem_cons_self _ _))
    obtain ⟨g1, g2, g4⟩ := ih (i + len) (pattern_unique_copy.reduce x first pred i len s).2
      (fun l hl => hpos l (List.mem_cons_of_mem _ hl))
    simp only [tiles, reduce_pass, List.map_cons, List.sum_cons]
    refine ⟨?_, ?_, ?_⟩
    · rw [h1, g1]
    · rw [g2, h2]
    · intro j
      rw [g4, h4]
      by_cases a : i + len ≤ j ∧ j < i + len + rest.sum
      · have b : i ≤ j ∧ j < i + (len + rest.sum) := by omega
        simp [a, b]
      · by_cases b : i ≤ j ∧ j < i + len
        · have c : i ≤ j ∧ j < i + (len + rest.sum) := by omega
          simp [a, b, c]
        · have c : ¬ (i ≤ j ∧ j < i + (len + rest.sum)) := by omega
          simp [a, b, c]

theorem flagged_counts_total {α : Type} (x : Nat → α) (first : Nat) (keep : Nat → Bool) :
    ∀ lens i (acc : Nat),
      ((tiles i lens).map (fun t =>
          (std.flagged x keep t.2 (first + t.1) t.1).length)).foldl (fun a b => a + b) acc =
        acc + (std.flagged x keep lens.sum (first + i) i).length := by
  intro lens
  induction lens with
  | nil => intro i acc; simp [tiles, std.flagged]
  | cons len rest ih =>
    intro i acc
    simp only [tiles, List.map_cons, List.foldl_cons, List.sum_cons]
    rw [ih, std.flagged_add, List.length_append]
    have e : first + (i + len) = first + i + len := by omega
    rw [e]
    omega

theorem unique_copy_scan_pass_spec {α : Type} (x : Nat → α) (first result : Nat)
    (keep : Nat → Bool) :
    ∀ lens i (initial : Nat) (s : CopyIfState α),
      (∀ j, i ≤ j → j < i + lens.sum → s.mask j = keep j) →
      scan_pass (fun a b => a + b) (pattern_unique_copy.scan x first result) (tiles i lens)
          ((tiles i lens).map (fun t => (std.flagged x keep t.2 (first + t.1) t.1).length))
          initial s =
        { s with out := (std.writeAt s.out (result + initial)
            (std.flagged x keep lens.sum (first + i) i)) } := by
  intro lens
  induction lens with
  | nil =>
    intro i initial s _
    simp [tiles, scan_pass, std.flagged, std.writeAt_nil]
  | cons len rest ih =>
    intro i initial s hmask
    simp only [tiles, List.map_cons, scan_pass, List.sum_cons]
    have hlen : first + (i + len) - (first + i) = len := by omega
    have hbrick : pattern_unique_copy.scan x first result i len initial s =
        { s with out := (std.writeAt s.out (result + initial)
            (std.flagged x keep len (first + i) i)) } := by
      simp only [pattern_unique_copy.scan, brick_copy_by_mask, hlen]
      rw [brick_copy_by_mask_loop_writeAt, std.flagged_congr x s.mask keep len (first + i) i]
      intro t ht
      exact hmask (i + t) (by omega) (by simp only [List.sum_cons]; omega)
    rw [hbrick, ih]
    · have e1 : first + (i + len) = first + i + len := by omega
      have e2 : result + (initial + (std.flagged x keep len (first + i) i).length) =
          result + initial + (std.flagged x keep len (first + i) i).length := by omega
      simp only
      rw [e1, e2, std.writeAt_append, ← std.flagged_add]
    · intro j h1 h2
      exact hmask j (by omega) (by simp only [List.sum_cons]; omega)

end internal
end pstl

namespace pstl
namespace internal

theorem unique_copy_two_pass_eq_adjacent {α : Type} (x : Nat → α) (first n : Nat)
    (pred : α → α → Bool) (lens : List Nat) (mask0 : Nat → Bool) (out : Nat → α)
    (result m0 : Nat) (hpos : ∀ l ∈ lens, 0 < l) (hsum : lens.sum = n) :
    (par_backend.scan_pass (fun a b => a + b) (pattern_unique_copy.scan x first result)
        (tiles 0 lens)
        (par_backend.reduce_pass (pattern_unique_copy.reduce x first pred) (tiles 0 lens)
          ⟨mask0, out, m0⟩).1 0
        (par_backend.reduce_pass (pattern_unique_copy.reduce x first pred) (tiles 0 lens)
          ⟨mask0, out, m0⟩).2).out =
      (std.unique_copy_adjacent x first (first + n) out result pred).1 ∧
    result + ((par_backend.reduce_pass (pattern_unique_copy.reduce x first pred) (tiles 0 lens)
        ⟨mask0, out, m0⟩).1.foldl (fun a b => a + b) 0) =
      (std.unique_copy_adjacent x first (first + n) out result pred).2 := by
  obtain ⟨h1, h2, h4⟩ :=
    unique_copy_reduce_pass_spec x first pred lens 0 ⟨mask0, out, m0⟩ hpos
  have hmask : ∀ j, 0 ≤ j → j < 0 + lens.sum →
      (par_backend.reduce_pass (pattern_unique_copy.reduce x first pred) (tiles 0 lens)
        ⟨mask0, out, m0⟩).2.mask j = std.unique_keep x pred first j := by
    intro j _ hj
    rw [h4, if_pos ⟨Nat.zero_le _, hj⟩]
  have hscan := unique_copy_scan_pass_spec x first result (std.unique_keep x pred first) lens 0
    0 _ hmask
  have htot := flagged_counts_total x first (std.unique_keep x pred first) lens 0 0
  rw [h1, hscan, htot, h2, hsum]
  simp only [std.unique_copy_adjacent_eq, Nat.add_zero, Nat.zero_add]
  exact ⟨trivial, trivial⟩

/-- C12 as stated fails for a predicate that is not an equivalence relation: on the input
`[1, 2, 3]` (`n = 3`) with the predicate `a < b`, the two passes over the single tile `[0, 3)`
write `1, 2, 3` and count `3` (each element is tested against its predecessor,
`pred(*i, *(i - 1))`), while the serial `brick_unique_copy` writes only `1` and returns the
output start plus `1` (each element is tested against the last element copied). -/
theorem unique_copy_two_pass_counterexample :
    (List.range 3).map
        (par_backend.scan_pass (fun a b => a + b)
          (pattern_unique_copy.scan (fun k => [1, 2, 3].getD k 0) 0 0) (tiles 0 [3])
          (par_backend.reduce_pass
            (pattern_unique_copy.reduce (fun k => [1, 2, 3].getD k 0) 0
              (fun a b => decide (a < b)))
            (tiles 0 [3]) ⟨fun _ => false, fun _ => 0, 0⟩).1 0
          (par_backend.reduce_pass
            (pattern_unique_copy.reduce (fun k => [1, 2, 3].getD k 0) 0
              (fun a b => decide (a < b)))
            (tiles 0 [3]) ⟨fun _ => false, fun _ => 0, 0⟩).2).out = [1, 2, 3] ∧
      0 + ((par_backend.reduce_pass
          (pattern_unique_copy.reduce (fun k => [1, 2, 3].getD k 0) 0
            (fun a b => decide (a < b)))
          (tiles 0 [3]) ⟨fun _ => false, fun _ => 0, 0⟩).1.foldl (fun a b => a + b) 0) = 3 ∧
      (List.range 3).map
        (brick_unique_copy (fun k => [1, 2, 3].getD k 0) 0 (0 + 3) (fun _ => 0) 0
          (fun a b => decide (a < b))).1 = [1, 0, 0] ∧
      (brick_unique_copy (fun k => [1, 2, 3].getD k 0) 0 (0 + 3) (fun _ => 0) 0
          (fun a b => decide (a < b))).2 = 1 := by
  decide

/-- C12 (amended): for every input region `x`, range `[first, first + n)` (so in particular
`n > 2`), every binary predicate that is an equivalence relation (reflexive, symmetric and
transitive) and every partition of `[0, n)` into consecutive non-empty tiles, whatever the
mask buffer and the output memory hold beforehand: running the `Reduce` lambda of
`pattern_unique_copy` on every tile (`mask[0] = true` at the boundary, `brick_calc_mask_2`
elsewhere) and then its `Scan` lambda (`brick_copy_by_mask`) on every tile, with `initial` the
sum of the `Reduce` counts of the tiles to its left, leaves the output memory exactly as the
serial `brick_unique_copy` (`std::unique_copy` with `pred`) leaves it, and the sum of the
counts gives the end position it returns. -/
theorem unique_copy_two_pass_eq_serial {α : Type} (x : Nat → α) (first n : Nat)
    (pred : α → α → Bool) (lens : List Nat) (mask0 : Nat → Bool) (out : Nat → α)
    (result m0 : Nat) (hpos : ∀ l ∈ lens, 0 < l) (hsum : lens.sum = n)
    (hrefl : ∀ a, pred a a = true) (hsymm : ∀ a b, pred a b = true → pred b a = true)
    (htrans : ∀ a b c, pred a b = true → pred b c = true → pred a c = true) :
    (par_backend.scan_pass (fun a b => a + b) (pattern_unique_copy.scan x first result)
        (tiles 0 lens)
        (par_backend.reduce_pass (pattern_unique_copy.reduce x first pred) (tiles 0 lens)
          ⟨mask0, out, m0⟩).1 0
        (par_backend.reduce_pass (pattern_unique_copy.reduce x first pred) (tiles 0 lens)
          ⟨mask0, out, m0⟩).2).out =
      (brick_unique_copy x first (first + n) out result pred).1 ∧
    result + ((par_backend.reduce_pass (pattern_unique_copy.reduce x first pred) (tiles 0 lens)
        ⟨mask0, out, m0⟩).1.foldl (fun a b => a + b) 0) =
      (brick_unique_copy x first (first + n) out result pred).2 := by
  have h := unique_copy_two_pass_eq_adjacent x first n pred lens mask0 out result m0 hpos hsum
  rw [brick_unique_copy, std.unique_copy_eq_adjacent x pred hrefl hsymm htrans]
  exact h

/-- Witness for C12 (amended): the input `[1,1,2,2,2,3,1,1]` with predicate "equal", cut into
tiles of lengths 3, 2 and 3. -/
theorem unique_copy_two_pass_eq_serial_witness :
    (∀ l ∈ [3, 2, 3], 0 < l) ∧ [3, 2, 3].sum = 8 ∧
    (∀ a : Nat, (a == a) = true) ∧
    (0 + ((par_backend.reduce_pass
        (pattern_unique_copy.reduce (fun k => [1, 1, 2, 2, 2, 3, 1, 1].getD k 0) 0
          (fun a b => a == b))
        (tiles 0 [3, 2, 3]) ⟨fun _ => false, fun _ => 0, 0⟩).1.foldl (fun a b => a + b) 0) =
      (brick_unique_copy (fun k => [1, 1, 2, 2, 2, 3, 1, 1].getD k 0) 0 (0 + 8) (fun _ => 0) 0
        (fun a b => a == b)).2) ∧
    (brick_unique_copy (fun k => [1, 1, 2, 2, 2, 3, 1, 1].getD k 0) 0 (0 + 8) (fun _ => 0) 0
        (fun a b => a == b)).2 = 4 :=
  ⟨by decide, by decide, fun a => beq_self_eq_true a,
    (unique_copy_two_pass_eq_serial (fun k => [1, 1, 2, 2, 2, 3, 1, 1].getD k 0) 0 8
      (fun a b => a == b) [3, 2, 3] (fun _ => false) (fun _ => 0) 0 0 (by decide)
      (by decide) (fun a => beq_self_eq_true a)
      (fun a b h => by rw [beq_iff_eq] at h ⊢; exact h.symm)
      (fun a b c h1 h2 => by rw [beq_iff_eq] at h1 h2 ⊢; exact h1.trans h2)).2,
    by decide⟩

end internal
end pstl

/-! ## Triviality threshold and allocation failure -/

namespace pstl
namespace internal

/-- C14: below the triviality threshold the parallel-tagged filter patterns are exactly the
serial brick, whatever the outcome of a mask-buffer allocation would be and whatever the
uninitialised local `m` holds (neither is consulted, and no backend primitive contributes):
for `last - first <= 1`, `pattern_copy_if` and `pattern_partition_copy` produce the output and
return value of `brick_copy_if` and `brick_partition_copy`; for `last - first <= 2`,
`pattern_unique_copy` produces those of `brick_unique_copy`. -/
theorem filter_patterns_below_threshold {α : Type} (x : Nat → α) (first last : Nat)
    (mask_buf : par_backend.raw_buffer Bool) :
    (last - first ≤ 1 →
      (∀ (out : Nat → α) (result : Nat) (pred : α → Bool) (m0 : Nat),
        pattern_copy_if x first last out result pred true mask_buf m0 =
          brick_copy_if x first last out result pred) ∧
      (∀ (mem_true : Nat → α) (out_true : Nat) (mem_false : Nat → α) (out_false : Nat)
          (pred : α → Bool) (m0 : Nat × Nat),
        pattern_partition_copy x first last mem_true out_true mem_false out_false pred true
            mask_buf m0 =
          brick_partition_copy x first last mem_true out_true mem_false out_false pred)) ∧
    (last - first ≤ 2 →
      ∀ (out : Nat → α) (result : Nat) (pred : α → α → Bool) (m0 : Nat),
        pattern_unique_copy x first last out result pred true mask_buf m0 =
          brick_unique_copy x first last out result pred) := by
  refine ⟨?_, ?_⟩
  · intro h
    have h' : ¬ 1 < last - first := by omega
    refine ⟨?_, ?_⟩
    · intro out result pred m0
      simp [pattern_copy_if, h']
    · intro mem_true out_true mem_false out_false pred m0
      simp [pattern_partition_copy, h']
  · intro h out result pred m0
    have h' : ¬ 2 < last - first := by omega
    simp [pattern_unique_copy, h']

/-- Witness for C14: a one-element range for `copy_if` and `partition_copy`, a two-element
range for `unique_copy`, with a mask buffer that would have been obtained. -/
theorem filter_patterns_below_threshold_witness :
    (1 - 0 ≤ 1 ∧
      pattern_copy_if (fun k => [3].getD k 0) 0 1 (fun _ => 0) 0 (fun v => v % 2 == 1) true
          (some (fun _ => false)) 7 =
        brick_copy_if (fun k => [3].getD k 0) 0 1 (fun _ => 0) 0 (fun v => v % 2 == 1)) ∧
    (2 - 0 ≤ 2 ∧
      pattern_unique_copy (fun k => [3, 3].getD k 0) 0 2 (fun _ => 0) 0 (fun a b => a == b)
          true (some (fun _ => false)) 7 =
        brick_unique_copy (fun k => [3, 3].getD k 0) 0 2 (fun _ => 0) 0 (fun a b => a == b)) :=
  ⟨⟨by decide,
    ((filter_patterns_below_threshold (fun k => [3].getD k 0) 0 1
      (some (fun _ => false))).1 (by decide)).1 _ _ _ _⟩,
   ⟨by decide,
    (filter_patterns_below_threshold (fun k => [3, 3].getD k 0) 0 2
      (some (fun _ => false))).2 (by decide) _ _ _ _⟩⟩

/-- C15: when the mask buffer cannot be obtained (`raw_buffer` holds a null pointer), the
parallel-tagged `pattern_copy_if`, `pattern_unique_copy` and `pattern_partition_copy` produce,
for every input, exactly the output and return value of the serial brick on the same input;
no error value exists in their result. -/
theorem filter_patterns_without_mask_buffer {α : Type} (x : Nat → α) (first last : Nat) :
    (∀ (out : Nat → α) (result : Nat) (pred : α → Bool) (m0 : Nat),
      pattern_copy_if x first last out result pred true none m0 =
        brick_copy_if x first last out result pred) ∧
    (∀ (out : Nat → α) (result : Nat) (pred : α → α → Bool) (m0 : Nat),
      pattern_unique_copy x first last out result pred true none m0 =
        brick_unique_copy x first last out result pred) ∧
    (∀ (mem_true : Nat → α) (out_true : Nat) (mem_false : Nat → α) (out_false : Nat)
        (pred : α → Bool) (m0 : Nat × Nat),
      pattern_partition_copy x first last mem_true out_true mem_false out_false pred true
          none m0 =
        brick_partition_copy x first last mem_true out_true mem_false out_false pred) := by
  refine ⟨?_, ?_, ?_⟩
  · intro out result pred m0
    simp only [pattern_copy_if, if_true]
    split <;> rfl
  · intro out result pred m0
    simp only [pattern_unique_copy, if_true]
    split <;> rfl
  · intro mem_true out_true mem_false out_false pred m0
    simp only [pattern_partition_copy, if_true]
    split <;> rfl

end internal
end pstl

/-! ## Patterns over `parallel_or` and `parallel_first` -/

namespace std

theorem equal_loop_add {α β : Type} (x : Nat → α) (y : Nat → β) (p : α → β → Bool)
    (a b : Nat) :
    ∀ first1 first2, equal.loop x y p (a + b) first1 first2 =
      (equal.loop x y p a first1 first2 && equal.loop x y p b (first1 + a) (first2 + a)) := by
  induction a with
  | zero => intro first1 first2; simp [equal.loop]
  | succ a ih =>
    intro first1 first2
    have h : a + 1 + b = (a + b) + 1 := by omega
    have h1 : first1 + (a + 1) = first1 + 1 + a := by omega
    have h2 : first2 + (a + 1) = first2 + 1 + a := by omega
    rw [h, equal.loop, equal.loop, h1, h2]
    split
    · exact ih _ _
    · simp

end std

namespace pstl
namespace internal

theorem equal_bricks_any {α β : Type} (x : Nat → α) (y : Nat → β) (first1 first2 : Nat)
    (p : α → β → Bool) :
    ∀ lens i, first1 ≤ i →
      (tiles i lens).any (fun t => pattern_equal.brick x y first1 first2 p t.1 (t.1 + t.2)) =
        !std.equal.loop x y p lens.sum i (first2 + (i - first1)) := by
  intro lens
  induction lens with
  | nil => intro i _; simp [tiles, std.equal.loop]
  | cons len rest ih =>
    intro i hi
    have hlen : i + len - i = len := by omega
    have e : first2 + (i + len - first1) = first2 + (i - first1) + len := by omega
    simp only [tiles, List.any_cons, List.sum_cons]
    rw [ih (i + len) (by omega), std.equal_loop_add, e]
    simp only [pattern_equal.brick, brick_equal, std.equal, hlen]
    cases std.equal.loop x y p len i (first2 + (i - first1)) <;> simp

/-- C16: for every pair of ranges `[first1, first1 + n)` and `[first2, first2 + n)`, every
binary predicate `p` and every partition of `[first1, first1 + n)` into consecutive chunks: if
the primitive called as `parallel_or` returns true exactly when its brick returns true on at
least one chunk, then the parallel overload of `pattern_equal` (the negation of the
primitive's result over the bricks `!brick_equal(i, j, first2 + (i - first1))`) returns the
boolean serial `brick_equal(first1, last1, first2, p)` returns, which is what the serial
overload returns.  The `pattern_equal` of the repository is this function linked with
`par_backend::parallel_or`. -/
theorem pattern_equal_refines_serial {α β : Type} (x : Nat → α) (y : Nat → β)
    (first1 n first2 : Nat) (p : α → β → Bool) (lens : List Nat)
    (primitive : Nat → Nat → (Nat → Nat → Bool) → Bool) (hsum : lens.sum = n)
    (hor : ∀ f, primitive first1 (first1 + n) f =
      (tiles first1 lens).any (fun t => f t.1 (t.1 + t.2))) :
    pattern_equal_with primitive x y first1 (first1 + n) first2 p true =
        brick_equal x y first1 (first1 + n) first2 p ∧
      pattern_equal_with primitive x y first1 (first1 + n) first2 p true =
        pattern_equal_with primitive x y first1 (first1 + n) first2 p false ∧
      (∀ b, pattern_equal x y first1 (first1 + n) first2 p b =
        pattern_equal_with par_backend.parallel_or x y first1 (first1 + n) first2 p b) := by
  have hn : first1 + n - first1 = n := by omega
  have h0 : first2 + (first1 - first1) = first2 := by omega
  have key : pattern_equal_with primitive x y first1 (first1 + n) first2 p true =
      brick_equal x y first1 (first1 + n) first2 p := by
    unfold pattern_equal_with
    rw [if_pos rfl]
    unfold except_handler
    rw [hor, equal_bricks_any x y first1 first2 p lens first1 (Nat.le_refl _), hsum, h0]
    simp [brick_equal, std.equal, hn]
  refine ⟨key, ?_, fun _ => rfl⟩
  rw [key]
  simp [pattern_equal_with]

/-- Witness for C16: the ranges `[1,2,3]` and `[1,2,4]` with predicate "equal", the first cut
into chunks of lengths 2 and 1; the primitive is the disjunction of the brick over the
chunks, and the parallel overload answers `false` as the serial brick does. -/
theorem pattern_equal_refines_serial_witness :
    [2, 1].sum = 3 ∧
      pattern_equal_with
          (fun (_ _ : Nat) (f : Nat → Nat → Bool) =>
            (tiles 0 [2, 1]).any (fun t => f t.1 (t.1 + t.2)))
          (fun k => [1, 2, 3].getD k 0) (fun k => [1, 2, 4].getD k 0) 0 (0 + 3) 0
          (fun a b => a == b) true =
        brick_equal (fun k => [1, 2, 3].getD k 0) (fun k => [1, 2, 4].getD k 0) 0 (0 + 3) 0
          (fun a b => a == b) ∧
      brick_equal (fun k => [1, 2, 3].getD k 0) (fun k => [1, 2, 4].getD k 0) 0 (0 + 3) 0
          (fun a b => a == b) = false :=
  ⟨by decide,
    (pattern_equal_refines_serial (fun k => [1, 2, 3].getD k 0) (fun k => [1, 2, 4].getD k 0)
      0 3 0 (fun a b => a == b) [2, 1]
      (fun _ _ f => (tiles 0 [2, 1]).any (fun t => f t.1 (t.1 + t.2)))
      (by decide) (fun _ => rfl)).1,
    by decide⟩

end internal
end pstl

namespace std

theorem matchLen_le {α β : Type} (x : Nat → α) (y : Nat → β) (pred : α → β → Bool) :
    ∀ k first1 first2, matchLen x y pred k first1 first2 ≤ k := by
  intro k
  induction k with
  | zero => intro first1 first2; simp [matchLen]
  | succ k ih =>
    intro first1 first2
    rw [matchLen]
    split
    · have := ih (first1 + 1) (first2 + 1); omega
    · omega

theorem matchLen_add {α β : Type} (x : Nat → α) (y : Nat → β) (pred : α → β → Bool)
    (a b : Nat) :
    ∀ first1 first2, matchLen x y pred (a + b) first1 first2 =
      if matchLen x y pred a first1 first2 = a then
        a + matchLen x y pred b (first1 + a) (first2 + a)
      else matchLen x y pred a first1 first2 := by
  induction a with
  | zero => intro first1 first2; simp [matchLen]
  | succ a ih =>
    intro first1 first2
    have h : a + 1 + b = (a + b) + 1 := by omega
    have h1 : first1 + (a + 1) = first1 + 1 + a := by omega
    have h2 : first2 + (a + 1) = first2 + 1 + a := by omega
    rw [h, matchLen, matchLen, h1, h2]
    by_cases hp : pred (x first1) (y first2) = true
    · rw [if_pos hp, if_pos hp, ih]
      by_cases hm : matchLen x y pred a (first1 + 1) (first2 + 1) = a
      · have hm' : matchLen x y pred a (first1 + 1) (first2 + 1) + 1 = a + 1 := by omega
        rw [if_pos hm, if_pos hm']
        omega
      · have hm' : ¬ matchLen x y pred a (first1 + 1) (first2 + 1) + 1 = a + 1 := by omega
        rw [if_neg hm, if_neg hm']
    · rw [if_neg hp, if_neg hp]
      have : ¬ (0 = a + 1) := by omega
      rw [if_neg this]

theorem matchLen_spec {α β : Type} (x : Nat → α) (y : Nat → β) (pred : α → β → Bool) :
    ∀ k first1 first2,
      (∀ t, t < matchLen x y pred k first1 first2 →
        pred (x (first1 + t)) (y (first2 + t)) = true) ∧
      (matchLen x y pred k first1 first2 < k →
        pred (x (first1 + matchLen x y pred k first1 first2))
          (y (first2 + matchLen x y pred k first1 first2)) = false) := by
  intro k
  induction k with
  | zero =>
    intro first1 first2
    simp [matchLen]
  | succ k ih =>
    intro first1 first2
    rw [matchLen]
    obtain ⟨i1, i2⟩ := ih (first1 + 1) (first2 + 1)
    by_cases hp : pred (x first1) (y first2) = true
    · rw [if_pos hp]
      refine ⟨?_, ?_⟩
      · intro t ht
        by_cases h0 : t = 0
        · subst h0; exact hp
        · have := i1 (t - 1) (by omega)
          have e1 : first1 + 1 + (t - 1) = first1 + t := by omega
          have e2 : first2 + 1 + (t - 1) = first2 + t := by omega
          rw [e1, e2] at this
          exact this
      · intro hlt
        have := i2 (by omega)
        have e1 : first1 + 1 + matchLen x y pred k (first1 + 1) (first2 + 1) =
            first1 + (matchLen x y pred k (first1 + 1) (first2 + 1) + 1) := by omega
        have e2 : first2 + 1 + matchLen x y pred k (first1 + 1) (first2 + 1) =
            first2 + (matchLen x y pred k (first1 + 1) (first2 + 1) + 1) := by omega
        rw [e1, e2] at this
        exact this
    · rw [if_neg hp]
      refine ⟨fun t ht => by omega, ?_⟩
      intro _
      cases h : pred (x first1) (y first2)
      · simpa using h
      · exact absurd h hp

end std

namespace pstl
namespace internal

open par_backend

theorem mismatch_serial_loop_eq {α β : Type} (x : Nat → α) (y : Nat → β)
    (pred : α → β → Bool) :
    ∀ k1 k2 first1 first2,
      mismatch_serial.loop x y pred k1 k2 first1 first2 =
        (first1 + std.matchLen x y pred (min k1 k2) first1 first2,
          first2 + std.matchLen x y pred (min k1 k2) first1 first2) := by
  intro k1
  induction k1 with
  | zero => intro k2 first1 first2; simp [mismatch_serial.loop, std.matchLen]
  | succ k1 ih =>
    intro k2 first1 first2
    cases k2 with
    | zero => simp [mismatch_serial.loop, std.matchLen]
    | succ k2 =>
      have hmin : min (k1 + 1) (k2 + 1) = min k1 k2 + 1 := by omega
      rw [mismatch_serial.loop, hmin, std.matchLen]
      split
      · rw [ih]
        congr 1 <;> omega
      · rfl

theorem mismatch_brick_eq {α β : Type} (x : Nat → α) (y : Nat → β) (first1 first2 : Nat)
    (pred : α → β → Bool) (i len : Nat) (hi : first1 ≤ i) :
    pattern_mismatch.brick x y first1 first2 pred i (i + len) =
      i + std.matchLen x y pred len i (first2 + (i - first1)) := by
  have h1 : i + len - i = len := by omega
  have h2 : first2 + (i + len - first1) - (first2 + (i - first1)) = len := by omega
  simp [pattern_mismatch.brick, brick_mismatch, mismatch_serial, mismatch_serial_loop_eq, h1, h2]

theorem mismatch_leftmostFind {α β : Type} (x : Nat → α) (y : Nat → β) (first1 first2 : Nat)
    (pred : α → β → Bool) :
    ∀ lens i last, first1 ≤ i → last = i + lens.sum →
      leftmostFind (pattern_mismatch.brick x y first1 first2 pred) last (tiles i lens) =
        i + std.matchLen x y pred lens.sum i (first2 + (i - first1)) := by
  intro lens
  induction lens with
  | nil => intro i last _ hl; simp [tiles, leftmostFind, std.matchLen, hl]
  | cons len rest ih =>
    intro i last hi hl
    simp only [List.sum_cons] at hl
    simp only [tiles, leftmostFind, List.sum_cons]
    rw [mismatch_brick_eq x y first1 first2 pred i len hi, std.matchLen_add]
    have hle := std.matchLen_le x y pred len i (first2 + (i - first1))
    by_cases hm : std.matchLen x y pred len i (first2 + (i - first1)) = len
    · have hne : ¬ (i + std.matchLen x y pred len i (first2 + (i - first1)) ≠ i + len) := by
        omega
      have e : first2 + (i + len - first1) = first2 + (i - first1) + len := by omega
      rw [if_neg hne, if_pos hm, ih (i + len) last (by omega) (by omega), e]
      omega
    · have hne : i + std.matchLen x y pred len i (first2 + (i - first1)) ≠ i + len := by
        omega
      rw [if_pos hne, if_neg hm]

/-- C17: for every pair of ranges of lengths `n1` and `n2`, every binary predicate and every
partition of `[first1, first1 + min(n1, n2))` into consecutive chunks: if the primitive called
as `parallel_first` returns the value its brick reports on the leftmost chunk on which it
reports a find, and the range end when it reports none, then the parallel overload of
`pattern_mismatch` returns the pair `mismatch_serial` returns (which is what the serial
overload returns), namely `(first1 + d, first2 + d)` with `d` the least index below
`min(n1, n2)` at which `pred` is false, or `min(n1, n2)` when there is none.  The
`pattern_mismatch` of the repository is this function linked with
`par_backend::parallel_first`. -/
theorem pattern_mismatch_refines_serial {α β : Type} (x : Nat → α) (y : Nat → β)
    (first1 n1 first2 n2 : Nat) (pred : α → β → Bool) (lens : List Nat)
    (primitive : Nat → Nat → (Nat → Nat → Nat) → Nat) (hsum : lens.sum = min n1 n2)
    (hfirst : ∀ f, primitive first1 (first1 + min n1 n2) f =
      par_backend.leftmostFind f (first1 + min n1 n2) (tiles first1 lens)) :
    pattern_mismatch_with primitive x y first1 (first1 + n1) first2 (first2 + n2) pred true =
        mismatch_serial x y first1 (first1 + n1) first2 (first2 + n2) pred ∧
      pattern_mismatch_with primitive x y first1 (first1 + n1) first2 (first2 + n2) pred true =
        pattern_mismatch_with primitive x y first1 (first1 + n1) first2 (first2 + n2) pred
          false ∧
      (mismatch_serial x y first1 (first1 + n1) first2 (first2 + n2) pred =
          (first1 + std.matchLen x y pred (min n1 n2) first1 first2,
            first2 + std.matchLen x y pred (min n1 n2) first1 first2) ∧
        std.matchLen x y pred (min n1 n2) first1 first2 ≤ min n1 n2 ∧
        (∀ t, t < std.matchLen x y pred (min n1 n2) first1 first2 →
          pred (x (first1 + t)) (y (first2 + t)) = true) ∧
        (std.matchLen x y pred (min n1 n2) first1 first2 < min n1 n2 →
          pred (x (first1 + std.matchLen x y pred (min n1 n2) first1 first2))
            (y (first2 + std.matchLen x y pred (min n1 n2) first1 first2)) = false)) ∧
      (∀ b, pattern_mismatch x y first1 (first1 + n1) first2 (first2 + n2) pred b =
        pattern_mismatch_with par_backend.parallel_first x y first1 (first1 + n1) first2
          (first2 + n2) pred b) := by
  have h1 : first1 + n1 - first1 = n1 := by omega
  have h2 : first2 + n2 - first2 = n2 := by omega
  have h0 : first2 + (first1 - first1) = first2 := by omega
  have hser : mismatch_serial x y first1 (first1 + n1) first2 (first2 + n2) pred =
      (first1 + std.matchLen x y pred (min n1 n2) first1 first2,
        first2 + std.matchLen x y pred (min n1 n2) first1 first2) := by
    rw [mismatch_serial, mismatch_serial_loop_eq, h1, h2]
  have hspec := std.matchLen_spec x y pred (min n1 n2) first1 first2
  have key : pattern_mismatch_with primitive x y first1 (first1 + n1) first2 (first2 + n2)
      pred true = mismatch_serial x y first1 (first1 + n1) first2 (first2 + n2) pred := by
    unfold pattern_mismatch_with
    rw [if_pos rfl]
    unfold except_handler
    simp only [h1, h2]
    rw [hser, hfirst,
      mismatch_leftmostFind x y first1 first2 pred lens first1 _ (Nat.le_refl _) (by omega),
      hsum, h0]
    congr 1
    omega
  refine ⟨key, ?_, ⟨hser, std.matchLen_le x y pred _ _ _, hspec.1, hspec.2⟩, fun _ => rfl⟩
  rw [key]
  simp [pattern_mismatch_with, brick_mismatch]

/-- Witness for C17: the ranges `[1,2,3,4]` and `[1,2,9]` with predicate "equal", the common
prefix range `[0,3)` cut into chunks of lengths 2 and 1; the primitive is the leftmost find
of the brick over the chunks, and the parallel overload returns `(2, 2)`. -/
theorem pattern_mismatch_refines_serial_witness :
    [2, 1].sum = min 4 3 ∧
      pattern_mismatch_with
          (fun (_ last : Nat) (f : Nat → Nat → Nat) =>
            par_backend.leftmostFind f last (tiles 0 [2, 1]))
          (fun k => [1, 2, 3, 4].getD k 0) (fun k => [1, 2, 9].getD k 0)
          0 (0 + 4) 0 (0 + 3) (fun a b => a == b) true =
        mismatch_serial (fun k => [1, 2, 3, 4].getD k 0) (fun k => [1, 2, 9].getD k 0)
          0 (0 + 4) 0 (0 + 3) (fun a b => a == b) ∧
      mismatch_serial (fun k => [1, 2, 3, 4].getD k 0) (fun k => [1, 2, 9].getD k 0)
          0 (0 + 4) 0 (0 + 3) (fun a b => a == b) = (2, 2) :=
  ⟨by decide,
    (pattern_mismatch_refines_serial (fun k => [1, 2, 3, 4].getD k 0)
      (fun k => [1, 2, 9].getD k 0) 0 4 0 3 (fun a b => a == b) [2, 1]
      (fun _ last f => par_backend.leftmostFind f last (tiles 0 [2, 1]))
      (by decide) (fun _ => rfl)).1,
    by decide⟩

end internal
end pstl

/-! ## Chunk workers of the lockstep walks -/

namespace pstl
namespace internal

open par_backend

theorem brick_walk2_n_add {σ : Type} (f : Nat → Nat → σ → σ) (a b : Nat) :
    ∀ first1 first2 s,
      (brick_walk2_n f first1 (a + b) first2 s).1 =
        (brick_walk2_n f (first1 + a) b (first2 + a) (brick_walk2_n f first1 a first2 s).1).1 := by
  induction a with
  | zero => intro first1 first2 s; simp [brick_walk2_n]
  | succ a ih =>
    intro first1 first2 s
    have h : a + 1 + b = (a + b) + 1 := by omega
    have h1 : first1 + (a + 1) = first1 + 1 + a := by omega
    have h2 : first2 + (a + 1) = first2 + 1 + a := by omega
    rw [h, brick_walk2_n, brick_walk2_n, h1, h2, ih]

theorem brick_it_walk2_n_eq {σ : Type} (f : Nat → Nat → σ → σ) :
    ∀ n first1 first2 s, brick_it_walk2_n f first1 n first2 s = brick_walk2_n f first1 n first2 s := by
  intro n
  induction n with
  | zero => intro first1 first2 s; rfl
  | succ n ih => intro first1 first2 s; rw [brick_it_walk2_n, brick_walk2_n, ih]

theorem brick_walk3_loop_add {σ : Type} (f : Nat → Nat → Nat → σ → σ) (a b : Nat) :
    ∀ first1 first2 first3 s,
      (brick_walk3.loop f (a + b) first1 first2 first3 s).1 =
        (brick_walk3.loop f b (first1 + a) (first2 + a) (first3 + a)
          (brick_walk3.loop f a first1 first2 first3 s).1).1 := by
  induction a with
  | zero => intro first1 first2 first3 s; simp [brick_walk3.loop]
  | succ a ih =>
    intro first1 first2 first3 s
    have h : a + 1 + b = (a + b) + 1 := by omega
    have h1 : first1 + (a + 1) = first1 + 1 + a := by omega
    have h2 : first2 + (a + 1) = first2 + 1 + a := by omega
    have h3 : first3 + (a + 1) = first3 + 1 + a := by omega
    rw [h, brick_walk3.loop, brick_walk3.loop, h1, h2, h3, ih]

theorem walk2_chunks_eq {σ : Type} (f : Nat → Nat → σ → σ) (first1 first2 : Nat) :
    ∀ lens i s, first1 ≤ i →
      for_chunks (pattern_walk2.worker first1 first2 f) (tiles i lens) s =
        (brick_walk2_n f i lens.sum (first2 + (i - first1)) s).1 := by
  intro lens
  induction lens with
  | nil => intro i s _; simp [tiles, for_chunks, brick_walk2_n]
  | cons len rest ih =>
    intro i s hi
    have hlen : i + len - i = len := by omega
    have e : first2 + (i + len - first1) = first2 + (i - first1) + len := by omega
    simp only [tiles, for_chunks, List.sum_cons]
    rw [ih (i + len) _ (by omega), brick_walk2_n_add, e]
    simp only [pattern_walk2.worker, brick_walk2, hlen]

theorem walk3_chunks_eq {σ : Type} (f : Nat → Nat → Nat → σ → σ) (first1 first2 first3 : Nat) :
    ∀ lens i s, first1 ≤ i →
      for_chunks (pattern_walk3.worker first1 first2 first3 f) (tiles i lens) s =
        (brick_walk3.loop f lens.sum i (first2 + (i - first1)) (first3 + (i - first1)) s).1 := by
  intro lens
  induction lens with
  | nil => intro i s _; simp [tiles, for_chunks, brick_walk3.loop]
  | cons len rest ih =>
    intro i s hi
    have hlen : i + len - i = len := by omega
    have e2 : first2 + (i + len - first1) = first2 + (i - first1) + len := by omega
    have e3 : first3 + (i + len - first1) = first3 + (i - first1) + len := by omega
    simp only [tiles, for_chunks, List.sum_cons]
    rw [ih (i + len) _ (by omega), brick_walk3_loop_add, e2, e3]
    simp only [pattern_walk3.worker, brick_walk3, hlen]

theorem range_succ_map {γ : Type} (g : Nat → γ) (k : Nat) :
    (List.range (k + 1)).map g = g 0 :: (List.range k).map (fun t => g (t + 1)) := by
  rw [List.range_succ_eq_map, List.map_cons, List.map_map]
  rfl

theorem walk2_record :
    ∀ k first1 first2 log,
      (brick_walk2_n record2 first1 k first2 log).1 =
        log ++ (List.range k).map (fun t => (first1 + t, first2 + t)) := by
  intro k
  induction k with
  | zero => intro first1 first2 log; simp [brick_walk2_n]
  | succ k ih =>
    intro first1 first2 log
    rw [brick_walk2_n, ih, range_succ_map, record2]
    simp only [Nat.add_zero, List.append_assoc, List.singleton_append]
    congr 2
    apply List.map_congr_left
    intro t _
    congr 1 <;> omega

theorem walk3_record :
    ∀ k first1 first2 first3 log,
      (brick_walk3.loop record3 k first1 first2 first3 log).1 =
        log ++ (List.range k).map (fun t => (first1 + t, first2 + t, first3 + t)) := by
  intro k
  induction k with
  | zero => intro first1 first2 first3 log; simp [brick_walk3.loop]
  | succ k ih =>
    intro first1 first2 first3 log
    rw [brick_walk3.loop, ih, range_succ_map, record3]
    simp only [Nat.add_zero, List.append_assoc, List.singleton_append]
    congr 2
    apply List.map_congr_left
    intro t _
    congr 1
    · omega
    · congr 1 <;> omega

end internal
end pstl

namespace pstl
namespace internal

open par_backend

theorem walk2_chunks_record (first1 first2 : Nat) :
    ∀ (order : List (Nat × Nat)) log,
      for_chunks (pattern_walk2.worker first1 first2 record2) order log =
        log ++ order.flatMap (fun t =>
          (List.range t.2).map (fun k => (t.1 + k, first2 + (t.1 - first1) + k))) := by
  intro order
  induction order with
  | nil => intro log; simp [for_chunks]
  | cons t rest ih =>
    intro log
    obtain ⟨i, len⟩ := t
    have hlen : i + len - i = len := by omega
    simp only [for_chunks, List.flatMap_cons]
    rw [ih]
    simp only [pattern_walk2.worker, brick_walk2, hlen, walk2_record, List.append_assoc]

theorem walk3_chunks_record (first1 first2 first3 : Nat) :
    ∀ (order : List (Nat × Nat)) log,
      for_chunks (pattern_walk3.worker first1 first2 first3 record3) order log =
        log ++ order.flatMap (fun t =>
          (List.range t.2).map (fun k =>
            (t.1 + k, first2 + (t.1 - first1) + k, first3 + (t.1 - first1) + k))) := by
  intro order
  induction order with
  | nil => intro log; simp [for_chunks]
  | cons t rest ih =>
    intro log
    obtain ⟨i, len⟩ := t
    have hlen : i + len - i = len := by omega
    simp only [for_chunks, List.flatMap_cons]
    rw [ih]
    simp only [pattern_walk3.worker, brick_walk3, hlen, walk3_record, List.append_assoc]

/-- C18: for every range `[first1, first1 + n)` and every partition of it into consecutive
chunks, the chunk workers of the parallel `pattern_walk2`, `pattern_it_walk2`,
`pattern_walk2_brick` and `pattern_walk3` start the companion range(s) of the chunk `[i,j)` at
`first2 + (i - first1)` (and `first3 + (i - first1)`): run over the chunks in range order they
leave, for every payload and every state, the state the serial `brick_walk2` /
`brick_it_walk2` / `brick_walk3` leaves on the whole range; and run over the chunks in any
order, a payload that records its arguments records exactly the pairs
`(first1 + k, first2 + k)` (triples `(first1 + k, first2 + k, first3 + k)`) for `k < n`, each
once and nothing else, which is what the serial brick records.  The parallel overloads hand
these workers to `par_backend::parallel_for`. -/
theorem lockstep_chunk_workers_cover (first1 n first2 first3 : Nat) (lens : List Nat)
    (hsum : lens.sum = n) :
    (∀ (σ : Type) (f : Nat → Nat → σ → σ) (s : σ),
      par_backend.for_chunks (pattern_walk2.worker first1 first2 f) (tiles first1 lens) s =
          (brick_walk2 first1 (first1 + n) first2 f s).1 ∧
        par_backend.for_chunks (pattern_it_walk2.worker first1 first2 f) (tiles first1 lens) s =
          (brick_it_walk2 first1 (first1 + n) first2 f s).1 ∧
        par_backend.for_chunks
            (pattern_walk2_brick.worker first1 first2 (fun a b c => brick_walk2 a b c f))
            (tiles first1 lens) s =
          (brick_walk2 first1 (first1 + n) first2 f s).1 ∧
        pattern_walk2 first1 (first1 + n) first2 f true s =
          (par_backend.parallel_for first1 (first1 + n) (pattern_walk2.worker first1 first2 f) s,
            first2 + (first1 + n - first1)) ∧
        pattern_it_walk2 first1 (first1 + n) first2 f true s =
          (par_backend.parallel_for first1 (first1 + n)
              (pattern_it_walk2.worker first1 first2 f) s,
            first2 + (first1 + n - first1)) ∧
        pattern_walk2_brick first1 (first1 + n) first2 (fun a b c => brick_walk2 a b c f) true s =
          (par_backend.parallel_for first1 (first1 + n)
              (pattern_walk2_brick.worker first1 first2 (fun a b c => brick_walk2 a b c f)) s,
            first2 + (first1 + n - first1))) ∧
    (∀ (σ : Type) (f : Nat → Nat → Nat → σ → σ) (s : σ),
      par_backend.for_chunks (pattern_walk3.worker first1 first2 first3 f) (tiles first1 lens) s =
          (brick_walk3 first1 (first1 + n) first2 first3 f s).1 ∧
        pattern_walk3 first1 (first1 + n) first2 first3 f true s =
          (par_backend.parallel_for first1 (first1 + n)
              (pattern_walk3.worker first1 first2 first3 f) s,
            first3 + (first1 + n - first1))) ∧
    (∀ order : List (Nat × Nat), order.Perm (tiles first1 lens) →
      (par_backend.for_chunks (pattern_walk2.worker first1 first2 record2) order []).Perm
          ((List.range n).map (fun k => (first1 + k, first2 + k))) ∧
        (par_backend.for_chunks (pattern_walk3.worker first1 first2 first3 record3) order
            []).Perm
          ((List.range n).map (fun k => (first1 + k, first2 + k, first3 + k)))) ∧
    ((List.range n).map (fun k => (first1 + k, first2 + k))).Nodup ∧
    ((List.range n).map (fun k => (first1 + k, first2 + k, first3 + k))).Nodup ∧
    (brick_walk2 first1 (first1 + n) first2 record2 []).1 =
      (List.range n).map (fun k => (first1 + k, first2 + k)) ∧
    (brick_walk3 first1 (first1 + n) first2 first3 record3 []).1 =
      (List.range n).map (fun k => (first1 + k, first2 + k, first3 + k)) := by
  have hn : first1 + n - first1 = n := by omega
  have h0 : ∀ c : Nat, c + (first1 - first1) = c := by intro c; omega
  have hw2 : ∀ (σ : Type) (f : Nat → Nat → σ → σ) (s : σ),
      for_chunks (pattern_walk2.worker first1 first2 f) (tiles first1 lens) s =
        (brick_walk2 first1 (first1 + n) first2 f s).1 := by
    intro σ f s
    rw [walk2_chunks_eq f first1 first2 lens first1 s (Nat.le_refl _), hsum, h0, brick_walk2, hn]
  have hw3 : ∀ (σ : Type) (f : Nat → Nat → Nat → σ → σ) (s : σ),
      for_chunks (pattern_walk3.worker first1 first2 first3 f) (tiles first1 lens) s =
        (brick_walk3 first1 (first1 + n) first2 first3 f s).1 := by
    intro σ f s
    rw [walk3_chunks_eq f first1 first2 first3 lens first1 s (Nat.le_refl _), hsum, h0, h0,
      brick_walk3, hn]
  have hit : ∀ (σ : Type) (f : Nat → Nat → σ → σ),
      pattern_it_walk2.worker first1 first2 f = pattern_walk2.worker first1 first2 f := by
    intro σ f
    funext i j s
    simp only [pattern_it_walk2.worker, pattern_walk2.worker, brick_it_walk2, brick_walk2,
      brick_it_walk2_n_eq]
  have hs2 : (brick_walk2 first1 (first1 + n) first2 record2 []).1 =
      (List.range n).map (fun k => (first1 + k, first2 + k)) := by
    rw [brick_walk2, hn, walk2_record, List.nil_append]
  have hs3 : (brick_walk3 first1 (first1 + n) first2 first3 record3 []).1 =
      (List.range n).map (fun k => (first1 + k, first2 + k, first3 + k)) := by
    rw [brick_walk3, hn, walk3_record, List.nil_append]
  refine ⟨?_, ?_, ?_, ?_, ?_, hs2, hs3⟩
  · intro σ f s
    refine ⟨hw2 σ f s, ?_, hw2 σ f s, rfl, rfl, rfl⟩
    rw [hit, hw2, brick_it_walk2, brick_walk2, brick_it_walk2_n_eq]
  · intro σ f s
    exact ⟨hw3 σ f s, rfl⟩
  · intro order hperm
    refine ⟨?_, ?_⟩
    · rw [walk2_chunks_record, List.nil_append, ← hs2, ← hw2, walk2_chunks_record,
        List.nil_append]
      exact List.Perm.flatMap_right _ hperm
    · rw [walk3_chunks_record, List.nil_append, ← hs3, ← hw3, walk3_chunks_record,
        List.nil_append]
      exact List.Perm.flatMap_right _ hperm
  · apply List.Nodup.map _ (List.nodup_range n)
    intro a b h
    simp only [Prod.mk.injEq] at h
    omega
  · apply List.Nodup.map _ (List.nodup_range n)
    intro a b h
    simp only [Prod.mk.injEq] at h
    omega

/-- Witness for C18: the range `[0,5)` cut into chunks of lengths 2, 1 and 2, with companion
ranges starting at 10 and 20; the chunks are run in the order third, first, second. -/
theorem lockstep_chunk_workers_cover_witness :
    [2, 1, 2].sum = 5 ∧
      [(3, 2), (0, 2), (2, 1)].Perm (tiles 0 [2, 1, 2]) ∧
      (par_backend.for_chunks (pattern_walk2.worker 0 10 record2) [(3, 2), (0, 2), (2, 1)]
          []).Perm
        ((List.range 5).map (fun k => (0 + k, 10 + k))) :=
  ⟨by decide, by decide,
    ((lockstep_chunk_workers_cover 0 5 10 20 [2, 1, 2] (by decide)).2.2.1
      [(3, 2), (0, 2), (2, 1)] (by decide)).1⟩

end internal
end pstl

/-! ## `parallel_for` and the apex of `parallel_strict_scan` as they stand -/

namespace pstl

/-- C19 (behaviour of the code): `parallel_for` returns the state it was given for every
range and every body, so the body is invoked on no chunk; already on the one-element range
`[0,1)` a body that records its chunk records nothing, and the parallel `pattern_walk1`
applies a recording payload to no element while the serial `brick_walk1` applies it to
position `0` once. -/
theorem parallel_for_never_invokes :
    (∀ (σ : Type) (first last : Nat) (f : Nat → Nat → σ → σ) (s : σ),
        par_backend.parallel_for first last f s = s) ∧
      par_backend.parallel_for 0 1
          (fun i j (log : List (Nat × Nat)) => log ++ [(i, j)]) [] = [] ∧
      internal.pattern_walk1 0 1 internal.record1 true [] = [] ∧
      internal.pattern_walk1 0 1 internal.record1 false [] = [0] ∧
      internal.brick_walk1 0 1 internal.record1 [] = [0] := by
  refine ⟨fun _ _ _ _ _ => rfl, rfl, rfl, ?_, ?_⟩ <;> decide

/-- C20 (behaviour of the code): `parallel_strict_scan` never calls `apex`: with an `apex`
that records the total it receives, nothing is recorded for `n = 0` (where the claim expects
one call with `initial`) nor for `n = 2`; hence the local `m` of `pattern_copy_if`,
`pattern_unique_copy` and `pattern_partition_copy` is still unassigned when it is read, and
the returned position is `result + m0` (resp. `out_true + m0.first`, `out_false + m0.second`)
for whatever value `m0` the uninitialised variable holds. -/
theorem parallel_strict_scan_never_calls_apex :
    par_backend.parallel_strict_scan 0 (7 : Nat)
        (fun _ len (log : List Nat) => (len, log)) (fun a b => a + b)
        (fun _ _ _ log => log) (fun total log => log ++ [total]) [] = [] ∧
      par_backend.parallel_strict_scan 2 (7 : Nat)
        (fun _ len (log : List Nat) => (len, log)) (fun a b => a + b)
        (fun _ _ _ log => log) (fun total log => log ++ [total]) [] = [] ∧
      (∀ (mask : Nat → Bool) (m0 : Nat),
        (internal.pattern_copy_if (fun k => [1, 3].getD k 0) 0 2 (fun _ => 0) 0
          (fun v => v % 2 == 1) true (some mask) m0).2 = 0 + m0) ∧
      (internal.brick_copy_if (fun k => [1, 3].getD k 0) 0 2 (fun _ => 0) 0
          (fun v => v % 2 == 1)).2 = 0 + 2 ∧
      (∀ (mask : Nat → Bool) (m0 : Nat),
        (internal.pattern_unique_copy (fun k => [1, 2, 3].getD k 0) 0 3 (fun _ => 0) 0
          (fun a b => a == b) true (some mask) m0).2 = 0 + m0) ∧
      (∀ (mask : Nat → Bool) (m0 : Nat × Nat),
        (internal.pattern_partition_copy (fun k => [1, 3].getD k 0) 0 2 (fun _ => 0) 0
          (fun _ => 0) 0 (fun v => v % 2 == 1) true (some mask) m0).2 =
            (0 + m0.1, 0 + m0.2)) := by
  refine ⟨rfl, rfl, ?_, ?_, ?_, ?_⟩
  · intro mask m0; rfl
  · decide
  · intro mask m0; rfl
  · intro mask m0; rfl

end pstl

/-! ## Move-merge as an interleaving -/

namespace pstl
namespace par_backend

theorem filter_all_left {α : Type} (l : List (α × Bool)) (h : ∀ p ∈ l, p.2 = false) :
    l.filter (fun p => !p.2) = l ∧ l.filter (fun p => p.2) = [] := by
  refine ⟨?_, ?_⟩
  · rw [List.filter_eq_self]
    intro p hp
    simp [h p hp]
  · rw [List.filter_eq_nil_iff]
    intro p hp
    simp [h p hp]

theorem filter_all_right {α : Type} (l : List (α × Bool)) (h : ∀ p ∈ l, p.2 = true) :
    l.filter (fun p => !p.2) = [] ∧ l.filter (fun p => p.2) = l := by
  refine ⟨?_, ?_⟩
  · rw [List.filter_eq_nil_iff]
    intro p hp
    simp [h p hp]
  · rw [List.filter_eq_self]
    intro p hp
    simp [h p hp]

theorem loop_interleaves {α : Type} (cmp : α × Bool → α × Bool → Bool) :
    ∀ (x : α × Bool) xs y ys, (∀ p ∈ x :: xs, p.2 = false) → (∀ p ∈ y :: ys, p.2 = true) →
      (serial_move_merge.loop cmp x xs y ys).filter (fun p => !p.2) = x :: xs ∧
        (serial_move_merge.loop cmp x xs y ys).filter (fun p => p.2) = y :: ys := by
  apply loop_induction cmp (fun x xs y ys out =>
    (∀ p ∈ x :: xs, p.2 = false) → (∀ p ∈ y :: ys, p.2 = true) →
      out.filter (fun p => !p.2) = x :: xs ∧ out.filter (fun p => p.2) = y :: ys)
  · intro x xs y _ hX hY
    have hy : y.2 = true := hY y (List.mem_cons_self _ _)
    obtain ⟨f1, f2⟩ := filter_all_left (x :: xs) hX
    simp [List.filter_cons, f1, f2, hy]
  · intro x xs y y' ys' _ ih hX hY
    have hy : y.2 = true := hY y (List.mem_cons_self _ _)
    obtain ⟨i1, i2⟩ := ih hX (fun p hp => hY p (List.mem_cons_of_mem _ hp))
    simp [List.filter_cons, i1, i2, hy]
  · intro x y ys _ hX hY
    have hx : x.2 = false := hX x (List.mem_cons_self _ _)
    obtain ⟨f1, f2⟩ := filter_all_right (y :: ys) hY
    simp [List.filter_cons, f1, f2, hx]
  · intro x x' xs' y ys _ ih hX hY
    have hx : x.2 = false := hX x (List.mem_cons_self _ _)
    obtain ⟨i1, i2⟩ := ih (fun p hp => hX p (List.mem_cons_of_mem _ hp)) hY
    simp [List.filter_cons, i1, i2, hx]

theorem serial_move_merge_filters {α : Type} (comp : α → α → Bool) (X Y : List α) :
    (serial_move_merge (onValue comp) (leftRun X) (rightRun Y)).filter (fun p => !p.2) =
        leftRun X ∧
      (serial_move_merge (onValue comp) (leftRun X) (rightRun Y)).filter (fun p => p.2) =
        rightRun Y := by
  have hX := leftRun_label X
  have hY := rightRun_label Y
  generalize leftRun X = lx at hX
  generalize rightRun Y = ly at hY
  cases lx with
  | nil => simpa [serial_move_merge] using filter_all_right ly hY
  | cons x xs =>
    cases ly with
    | nil => simpa [serial_move_merge] using filter_all_left (x :: xs) hX
    | cons y ys =>
      simp only [serial_move_merge]
      exact loop_interleaves (onValue comp) x xs y ys hX hY

end par_backend
end pstl

namespace pstl
namespace par_backend

/-- C21: for every two runs `X` and `Y` (either may be empty, neither need be sorted) and
every comparator, `serial_move_merge` writes exactly `|X| + |Y|` elements, and what it writes
is an interleaving of `X` and `Y`: it is a rearrangement of `X` followed by `Y` (every element
of either run occurs exactly once), and, labelling the elements by the run they come from
(which the comparator does not see), the elements taken from `X` appear in the output in
their original order and so do the elements taken from `Y`; in particular `X` and `Y` are
subsequences of the output. -/
theorem serial_move_merge_interleaves {α : Type} (comp : α → α → Bool) (X Y : List α) :
    (serial_move_merge comp X Y).length = X.length + Y.length ∧
      (serial_move_merge comp X Y).Perm (X ++ Y) ∧
      (serial_move_merge (onValue comp) (leftRun X) (rightRun Y)).map Prod.fst =
        serial_move_merge comp X Y ∧
      (serial_move_merge (onValue comp) (leftRun X) (rightRun Y)).filter (fun p => !p.2) =
        leftRun X ∧
      (serial_move_merge (onValue comp) (leftRun X) (rightRun Y)).filter (fun p => p.2) =
        rightRun Y ∧
      X.Sublist (serial_move_merge comp X Y) ∧
      Y.Sublist (serial_move_merge comp X Y) := by
  have hperm := serial_move_merge_perm comp X Y
  have hmap : (serial_move_merge (onValue comp) (leftRun X) (rightRun Y)).map Prod.fst =
      serial_move_merge comp X Y := by
    have h := serial_move_merge_map comp Prod.fst (leftRun X) (rightRun Y)
    have e1 : (leftRun X).map Prod.fst = X := by simp [leftRun, Function.comp_def]
    have e2 : (rightRun Y).map Prod.fst = Y := by simp [rightRun, Function.comp_def]
    rw [e1, e2] at h
    exact h
  obtain ⟨hf1, hf2⟩ := serial_move_merge_filters comp X Y
  refine ⟨?_, hperm, hmap, hf1, hf2, ?_, ?_⟩
  · rw [hperm.length_eq, List.length_append]
  · have h : ((serial_move_merge (onValue comp) (leftRun X) (rightRun Y)).filter
        (fun p => !p.2)).map Prod.fst = X := by
      rw [hf1]; simp [leftRun, Function.comp_def]
    rw [← hmap]
    conv_lhs => rw [← h]
    exact (List.filter_sublist _).map Prod.fst
  · have h : ((serial_move_merge (onValue comp) (leftRun X) (rightRun Y)).filter
        (fun p => p.2)).map Prod.fst = Y := by
      rw [hf2]; simp [rightRun, Function.comp_def]
    rw [← hmap]
    conv_lhs => rw [← h]
    exact (List.filter_sublist _).map Prod.fst

end par_backend
end pstl

/-! ## `move` and its move counter -/

namespace std

theorem move_counting_eq {α : Type} (x : Nat → α) :
    ∀ n first result (s : (Nat → α) × Nat),
      move_counting x first n result s =
        (((fun j => if result ≤ j ∧ j < result + n then x (first + (j - result)) else s.1 j),
          s.2 + n), result + n) := by
  intro n
  induction n with
  | zero =>
    intro first result s
    rw [move_counting]
    have h : (fun j => if result ≤ j ∧ j < result + 0 then x (first + (j - result)) else s.1 j)
        = s.1 := by
      funext j
      have h0 : ¬ (result ≤ j ∧ j < result + 0) := by omega
      rw [if_neg h0]
    rw [h]
    rfl
  | succ n ih =>
    intro first result s
    rw [move_counting, ih]
    have h : (fun j => if result + 1 ≤ j ∧ j < result + 1 + n
          then x (first + 1 + (j - (result + 1)))
          else (Function.update s.1 result (x first), s.2 + 1).1 j)
        = (fun j => if result ≤ j ∧ j < result + (n + 1) then x (first + (j - result))
            else s.1 j) := by
      funext j
      by_cases h1 : result + 1 ≤ j ∧ j < result + 1 + n
      · have h2 : result ≤ j ∧ j < result + (n + 1) := by omega
        have h3 : first + 1 + (j - (result + 1)) = first + (j - result) := by omega
        rw [if_pos h1, if_pos h2, h3]
      · by_cases h2 : j = result
        · subst h2
          have h3 : j ≤ j ∧ j < j + (n + 1) := by omega
          rw [if_neg h1, if_pos h3]
          simp
        · have h3 : ¬ (result ≤ j ∧ j < result + (n + 1)) := by omega
          rw [if_neg h1, if_neg h3]
          simp [Function.update_noteq h2]
    rw [h]
    have e1 : (Function.update s.1 result (x first), s.2 + 1).2 + n = s.2 + (n + 1) := by
      simp only []
      omega
    have e2 : result + 1 + n = result + (n + 1) := by omega
    rw [e1, e2]

end std

namespace pstl
namespace internal

/-- C22 (behaviour of the code): with the serial tag, `pattern_walk2_brick` over `brick_move`
performs, for every input and every `n`, exactly `n` element moves, one from `in[k]` to
`out[k]` for each `k < n` (the counter ends at `n`, `out[0..n)` holds the input values,
nothing else changes); with the parallel tag it performs no move at all and leaves the output
untouched, so already for `n = 1` the move counter is `0`, not `1`. -/
theorem move_parallel_moves_nothing :
    (∀ (α : Type) (x : Nat → α) (n : Nat) (out : Nat → α),
        (pattern_walk2_brick 0 n 0 (brick_move_counting x) false (out, 0)).1 =
          ((fun k => if k < n then x k else out k), n)) ∧
      (∀ (α : Type) (x : Nat → α) (n : Nat) (out : Nat → α),
        (pattern_walk2_brick 0 n 0 (brick_move_counting x) true (out, 0)).1 = (out, 0)) ∧
      (pattern_walk2_brick 0 1 0 (brick_move_counting (fun _ => (1 : Int))) false
          (fun _ => -666, 0)).1.2 = 1 ∧
      (pattern_walk2_brick 0 1 0 (brick_move_counting (fun _ => (1 : Int))) true
          (fun _ => -666, 0)).1.2 = 0 ∧
      (pattern_walk2_brick 0 1 0 (brick_move_counting (fun _ => (1 : Int))) true
          (fun _ => -666, 0)).1.1 0 = -666 := by
  refine ⟨?_, ?_, ?_, rfl, rfl⟩
  · intro α x n out
    simp only [pattern_walk2_brick, brick_move_counting, Bool.false_eq_true, if_false,
      std.move_counting_eq]
    simp
  · intro α x n out
    rfl
  · decide

end internal
end pstl

/-! ## Algorithms redirected to serial -/

namespace pstl
namespace internal

/-- C23: for each of the twenty-five algorithms whose vectorized brick and parallel pattern are
redirected to serial, and for every standard algorithm behind it, every argument list and every
memory state, the pattern function yields the same resulting memory and the same returned
value under all four (vector, parallel) tag combinations as under the serial-scalar one. -/
theorem redirected_patterns_agree_with_serial :
    (∀ (σ P : Type) (std_find_first_of : Nat → Nat → Nat → Nat → P → σ → σ × Nat)
        (first last s_first s_last : Nat) (pred : P) (is_vector is_parallel : Bool) (s : σ),
        pattern_find_first_of std_find_first_of first last s_first s_last pred is_vector
          is_parallel s =
          pattern_find_first_of std_find_first_of first last s_first s_last pred false false s) ∧
      (∀ (σ P T : Type) (std_search_n : Nat → Nat → Nat → T → P → σ → σ × Nat) (first last count : Nat)
        (value : T) (pred : P) (is_vector is_parallel : Bool) (s : σ),
        pattern_search_n std_search_n first last count value pred is_vector is_parallel s =
          pattern_search_n std_search_n first last count value pred false false s) ∧
      (∀ (σ P : Type) (std_unique : Nat → Nat → P → σ → σ × Nat) (first last : Nat) (pred : P)
        (is_vector is_parallel : Bool) (s : σ),
        pattern_unique std_unique first last pred is_vector is_parallel s =
          pattern_unique std_unique first last pred false false s) ∧
      (∀ (σ : Type) (std_swap_ranges : Nat → Nat → Nat → σ → σ × Nat) (first1 last1 first2 : Nat)
        (is_vector is_parallel : Bool) (s : σ),
        pattern_swap_ranges std_swap_ranges first1 last1 first2 is_vector is_parallel s =
          pattern_swap_ranges std_swap_ranges first1 last1 first2 false false s) ∧
      (∀ (σ P T : Type) (std_replace_if : Nat → Nat → P → T → σ → σ) (first last : Nat) (pred : P)
        (new_value : T) (is_vector is_parallel : Bool) (s : σ),
        pattern_replace_if std_replace_if first last pred new_value is_vector is_parallel s =
          pattern_replace_if std_replace_if first last pred new_value false false s) ∧
      (∀ (σ : Type) (std_reverse : Nat → Nat → σ → σ) (first last : Nat) (is_vector is_parallel : Bool)
        (s : σ),
        pattern_reverse std_reverse first last is_vector is_parallel s =
          pattern_reverse std_reverse first last false false s) ∧
      (∀ (σ : Type) (std_reverse_copy : Nat → Nat → Nat → σ → σ × Nat) (first last d_first : Nat)
        (is_vector is_parallel : Bool) (s : σ),
        pattern_reverse_copy std_reverse_copy first last d_first is_vector is_parallel s =
          pattern_reverse_copy std_reverse_copy first last d_first false false s) ∧
      (∀ (σ : Type) (rotate_broken : Bool) (std_rotate : Nat → Nat → Nat → σ → σ × Nat)
        (first middle last : Nat) (is_vector is_parallel : Bool) (s : σ),
        pattern_rotate rotate_broken std_rotate first middle last is_vector is_parallel s =
          pattern_rotate rotate_broken std_rotate first middle last false false s) ∧
      (∀ (σ : Type) (std_rotate_copy : Nat → Nat → Nat → Nat → σ → σ × Nat)
        (first middle last result : Nat) (is_vector is_parallel : Bool) (s : σ),
        pattern_rotate_copy std_rotate_copy first middle last result is_vector is_parallel s =
          pattern_rotate_copy std_rotate_copy first middle last result false false s) ∧
      (∀ (σ P : Type) (std_is_partitioned : Nat → Nat → P → σ → σ × Bool) (first last : Nat) (pred : P)
        (is_vector is_parallel : Bool) (s : σ),
        pattern_is_partitioned std_is_partitioned first last pred is_vector is_parallel s =
          pattern_is_partitioned std_is_partitioned first last pred false false s) ∧
      (∀ (σ P : Type) (std_partition : Nat → Nat → P → σ → σ × Nat) (first last : Nat) (pred : P)
        (is_vector is_parallel : Bool) (s : σ),
        pattern_partition std_partition first last pred is_vector is_parallel s =
          pattern_partition std_partition first last pred false false s) ∧
      (∀ (σ P : Type) (std_stable_partition : Nat → Nat → P → σ → σ × Nat) (first last : Nat) (pred : P)
        (is_vector is_parallel : Bool) (s : σ),
        pattern_stable_partition std_stable_partition first last pred is_vector is_parallel s =
          pattern_stable_partition std_stable_partition first last pred false false s) ∧
      (∀ (σ P : Type) (std_partial_sort : Nat → Nat → Nat → P → σ → σ) (first middle last : Nat)
        (comp : P) (is_vector is_parallel : Bool) (s : σ),
        pattern_partial_sort std_partial_sort first middle last comp is_vector is_parallel s =
          pattern_partial_sort std_partial_sort first middle last comp false false s) ∧
      (∀ (σ P : Type) (std_partial_sort_copy : Nat → Nat → Nat → Nat → P → σ → σ × Nat)
        (first last d_first d_last : Nat) (comp : P) (is_vector is_parallel : Bool) (s : σ),
        pattern_partial_sort_copy std_partial_sort_copy first last d_first d_last comp is_vector
          is_parallel s =
          pattern_partial_sort_copy std_partial_sort_copy first last d_first d_last comp false
            false s) ∧
      (∀ (σ P : Type) (std_nth_element : Nat → Nat → Nat → P → σ → σ) (first nth last : Nat) (comp : P)
        (is_vector is_parallel : Bool) (s : σ),
        pattern_nth_element std_nth_element first nth last comp is_vector is_parallel s =
          pattern_nth_element std_nth_element first nth last comp false false s) ∧
      (∀ (σ P : Type) (std_remove_if : Nat → Nat → P → σ → σ × Nat) (first last : Nat) (pred : P)
        (is_vector is_parallel : Bool) (s : σ),
        pattern_remove_if std_remove_if first last pred is_vector is_parallel s =
          pattern_remove_if std_remove_if first last pred false false s) ∧
      (∀ (σ P : Type) (std_merge : Nat → Nat → Nat → Nat → Nat → P → σ → σ × Nat)
        (first1 last1 first2 last2 d_first : Nat) (comp : P) (is_vector is_parallel : Bool)
        (s : σ),
        pattern_merge std_merge first1 last1 first2 last2 d_first comp is_vector is_parallel s =
          pattern_merge std_merge first1 last1 first2 last2 d_first comp false false s) ∧
      (∀ (σ P : Type) (std_inplace_merge : Nat → Nat → Nat → P → σ → σ) (first middle last : Nat)
        (comp : P) (is_vector is_parallel : Bool) (s : σ),
        pattern_inplace_merge std_inplace_merge first middle last comp is_vector is_parallel s =
          pattern_inplace_merge std_inplace_merge first middle last comp false false s) ∧
      (∀ (σ P : Type) (std_includes : Nat → Nat → Nat → Nat → P → σ → σ × Bool)
        (first1 last1 first2 last2 : Nat) (comp : P) (is_vector is_parallel : Bool) (s : σ),
        pattern_includes std_includes first1 last1 first2 last2 comp is_vector is_parallel s =
          pattern_includes std_includes first1 last1 first2 last2 comp false false s) ∧
      (∀ (σ P : Type) (std_set_union : Nat → Nat → Nat → Nat → Nat → P → σ → σ × Nat)
        (first1 last1 first2 last2 result : Nat) (comp : P) (is_vector is_parallel : Bool)
        (s : σ),
        pattern_set_union std_set_union first1 last1 first2 last2 result comp is_vector
          is_parallel s =
          pattern_set_union std_set_union first1 last1 first2 last2 result comp false false s) ∧
      (∀ (σ P : Type) (std_set_intersection : Nat → Nat → Nat → Nat → Nat → P → σ → σ × Nat)
        (first1 last1 first2 last2 result : Nat) (comp : P) (is_vector is_parallel : Bool)
        (s : σ),
        pattern_set_intersection std_set_intersection first1 last1 first2 last2 result comp
          is_vector is_parallel s =
          pattern_set_intersection std_set_intersection first1 last1 first2 last2 result comp
            false false s) ∧
      (∀ (σ P : Type) (std_set_difference : Nat → Nat → Nat → Nat → Nat → P → σ → σ × Nat)
        (first1 last1 first2 last2 result : Nat) (comp : P) (is_vector is_parallel : Bool)
        (s : σ),
        pattern_set_difference std_set_difference first1 last1 first2 last2 result comp is_vector
          is_parallel s =
          pattern_set_difference std_set_difference first1 last1 first2 last2 result comp false
            false s) ∧
      (∀ (σ P : Type) (std_set_symmetric_difference : Nat → Nat → Nat → Nat → Nat → P → σ → σ × Nat)
        (first1 last1 first2 last2 result : Nat) (comp : P) (is_vector is_parallel : Bool)
        (s : σ),
        pattern_set_symmetric_difference std_set_symmetric_difference first1 last1 first2 last2
          result comp is_vector is_parallel s =
          pattern_set_symmetric_difference std_set_symmetric_difference first1 last1 first2 last2
            result comp false false s) ∧
      (∀ (σ P : Type) (std_is_heap_until : Nat → Nat → P → σ → σ × Nat) (first last : Nat) (comp : P)
        (is_vector is_parallel : Bool) (s : σ),
        pattern_is_heap_until std_is_heap_until first last comp is_vector is_parallel s =
          pattern_is_heap_until std_is_heap_until first last comp false false s) ∧
      (∀ (σ P : Type) (std_lexicographical_compare : Nat → Nat → Nat → Nat → P → σ → σ × Bool)
        (first1 last1 first2 last2 : Nat) (comp : P) (is_vector is_parallel : Bool) (s : σ),
        pattern_lexicographical_compare std_lexicographical_compare first1 last1 first2 last2 comp
          is_vector is_parallel s =
          pattern_lexicographical_compare std_lexicographical_compare first1 last1 first2 last2
            comp false false s) := by
refine ⟨?_, ?_, ?_, ?_, ?_, ?_, ?_, ?_, ?_, ?_, ?_, ?_, ?_, ?_, ?_, ?_, ?_, ?_, ?_, ?_, ?_, ?_,
    ?_, ?_, ?_⟩ <;>
    (intros; rename_i is_vector is_parallel _; cases is_vector <;> cases is_parallel <;> rfl)

end internal
end pstl

/-! ## The mask of pass 1 -/

namespace std

theorem selected_length_eq_countP {α : Type} (x : Nat → α) (pred : α → Bool) (first k : Nat) :
    (selected x pred first k).length =
      (List.range k).countP (fun t => pred (x (first + t))) := by
  rw [selected, ← List.countP_eq_length_filter, List.countP_map, List.range'_eq_map_range,
    List.countP_map]
  rfl

theorem selected_length_le {α : Type} (x : Nat → α) (pred : α → Bool) (first k : Nat) :
    (selected x pred first k).length ≤ k := by
  rw [selected]
  calc (List.filter pred ((List.range' first k).map x)).length
      ≤ ((List.range' first k).map x).length := List.length_filter_le _ _
    _ = k := by simp

end std

namespace pstl
namespace internal

/-- C24: for every range of length `len` starting at `first`, every mask buffer and position
`maskp` in it and every predicate, scalar `brick_calc_mask_1` sets the `k`-th mask entry to
`pred` of the `k`-th element for every `k < len`, leaves every other mask entry as it was, and
returns the pair `(t, len - t)` where `t` counts the `k < len` whose element satisfies `pred`;
the two components sum to `len`. -/
theorem brick_calc_mask_1_spec {α : Type} (x : Nat → α) (first len : Nat) (mask : Nat → Bool)
    (maskp : Nat) (pred : α → Bool) :
    (∀ k, k < len →
        (brick_calc_mask_1 x first (first + len) mask maskp pred).1 (maskp + k) =
          pred (x (first + k))) ∧
      (∀ j, j < maskp ∨ maskp + len ≤ j →
        (brick_calc_mask_1 x first (first + len) mask maskp pred).1 j = mask j) ∧
      (brick_calc_mask_1 x first (first + len) mask maskp pred).2 =
        ((List.range len).countP (fun k => pred (x (first + k))),
          len - (List.range len).countP (fun k => pred (x (first + k)))) ∧
      (brick_calc_mask_1 x first (first + len) mask maskp pred).2.1 +
        (brick_calc_mask_1 x first (first + len) mask maskp pred).2.2 = len := by
  have e : first + len - first = len := by omega
  have hle := std.selected_length_le x pred first len
  rw [std.selected_length_eq_countP] at hle
  refine ⟨?_, ?_, ?_, ?_⟩
  · intro k hk
    simp only [brick_calc_mask_1, e]
    rw [brick_calc_mask_1_loop_fst]
    have h : maskp ≤ maskp + k ∧ maskp + k < maskp + len := by omega
    have e2 : maskp + k - maskp = k := by omega
    rw [if_pos h, e2]
  · intro j hj
    simp only [brick_calc_mask_1, e]
    rw [brick_calc_mask_1_loop_fst]
    have h : ¬ (maskp ≤ j ∧ j < maskp + len) := by omega
    rw [if_neg h]
  · simp only [brick_calc_mask_1, e]
    rw [brick_calc_mask_1_loop_snd, std.selected_length_eq_countP]
    simp
  · simp only [brick_calc_mask_1, e]
    rw [brick_calc_mask_1_loop_snd, std.selected_length_eq_countP]
    omega

/-- Witness for C24: the range `[1, 2, 3, 4]` with the predicate "even" and a cleared mask:
entry `1` of the mask is set from element `1`, and the returned pair is `(2, 2)`. -/
theorem brick_calc_mask_1_spec_witness :
    1 < 4 ∧
      (brick_calc_mask_1 (fun k => [1, 2, 3, 4].getD k 0) 0 (0 + 4) (fun _ => false) 0
          (fun v => v % 2 == 0)).1 (0 + 1) =
        (fun v => v % 2 == 0) ((fun k => [1, 2, 3, 4].getD k 0) (0 + 1)) ∧
      (brick_calc_mask_1 (fun k => [1, 2, 3, 4].getD k 0) 0 (0 + 4) (fun _ => false) 0
          (fun v => v % 2 == 0)).2 = (2, 2) :=
  ⟨by decide,
    (brick_calc_mask_1_spec (fun k => [1, 2, 3, 4].getD k 0) 0 4 (fun _ => false) 0
      (fun v => v % 2 == 0)).1 1 (by decide),
    by decide⟩

end internal
end pstl

/-! ## Output slices of pass 2 -/

namespace std

theorem countP_range_succ (p : Nat → Bool) (n : Nat) :
    (List.range (n + 1)).countP p =
      (if p 0 then 1 else 0) + (List.range n).countP (fun k => p (k + 1)) := by
  rw [List.range_succ_eq_map, List.countP_cons, List.countP_map]
  have e : (p ∘ Nat.succ) = (fun k => p (k + 1)) := rfl
  rw [e]
  omega

theorem countP_range_add (p : Nat → Bool) (a b : Nat) :
    (List.range (a + b)).countP p =
      (List.range a).countP p + (List.range b).countP (fun k => p (a + k)) := by
  rw [List.range_add, List.countP_append, List.countP_map]
  rfl

theorem flagged_length {α : Type} (x : Nat → α) (mask : Nat → Bool) :
    ∀ k first maskp,
      (flagged x mask k first maskp).length =
        (List.range k).countP (fun t => mask (maskp + t)) := by
  intro k
  induction k with
  | zero => intro first maskp; simp [flagged]
  | succ k ih =>
    intro first maskp
    rw [flagged, countP_range_succ]
    have e : (fun t => mask (maskp + (t + 1))) = (fun t => mask (maskp + 1 + t)) := by
      funext t
      have : maskp + (t + 1) = maskp + 1 + t := by omega
      rw [this]
    rw [e]
    by_cases h : mask maskp = true
    · simp [h, ih]; omega
    · simp [h, ih]

end std

namespace pstl
namespace internal

theorem tiles_start_ge : ∀ (counts : List Nat) (r : Nat) (t : Nat × Nat),
    t ∈ tiles r counts → r ≤ t.1 := by
  intro counts
  induction counts with
  | nil => intro r t h; simp [tiles] at h
  | cons c rest ih =>
    intro r t h
    rw [tiles] at h
    rcases List.mem_cons.mp h with h1 | h1
    · rw [h1]
    · have := ih _ _ h1
      omega

theorem tiles_pairwise : ∀ (counts : List Nat) (r : Nat),
    (tiles r counts).Pairwise (fun a b => a.1 + a.2 ≤ b.1) := by
  intro counts
  induction counts with
  | nil => intro r; simp [tiles]
  | cons c rest ih =>
    intro r
    rw [tiles]
    refine List.Pairwise.cons ?_ (ih _)
    intro t ht
    exact tiles_start_ge _ _ _ ht

theorem tiles_cover : ∀ (counts : List Nat) (r j : Nat),
    (∃ t, t ∈ tiles r counts ∧ t.1 ≤ j ∧ j < t.1 + t.2) ↔ (r ≤ j ∧ j < r + counts.sum) := by
  intro counts
  induction counts with
  | nil =>
    intro r j
    simp [tiles]
  | cons c rest ih =>
    intro r j
    rw [tiles, List.sum_cons]
    constructor
    · rintro ⟨t, ht, h1, h2⟩
      rcases List.mem_cons.mp ht with e | hm
      · subst e
        simp only [] at h1 h2
        omega
      · have := (ih (r + c) j).mp ⟨t, hm, h1, h2⟩
        omega
    · rintro ⟨h1, h2⟩
      by_cases hj : j < r + c
      · exact ⟨(r, c), List.mem_cons_self _ _, h1, hj⟩
      · obtain ⟨t, hm, h3, h4⟩ := (ih (r + c) j).mpr ⟨by omega, by omega⟩
        exact ⟨t, List.mem_cons_of_mem _ hm, h3, h4⟩

theorem tiles_flag_sum (mask : Nat → Bool) : ∀ (lens : List Nat) (i : Nat),
    ((tiles i lens).map
        (fun t => (List.range t.2).countP (fun k => mask (t.1 + k)))).sum =
      (List.range lens.sum).countP (fun k => mask (i + k)) := by
  intro lens
  induction lens with
  | nil => intro i; simp [tiles]
  | cons len rest ih =>
    intro i
    rw [tiles, List.map_cons, List.sum_cons, List.sum_cons, ih, std.countP_range_add]
    have e : (fun k => mask (i + len + k)) = (fun k => mask (i + (len + k))) := by
      funext k
      have : i + len + k = i + (len + k) := by omega
      rw [this]
    rw [e]

/-- C25: for every tile `[first, first + len)` of the input with its mask entries from `maskp`
on, scalar `brick_copy_by_mask` changes nothing outside the output positions
`[result, result + c)`, where `c` is the number of set flags among the tile's `len` mask
entries, and that slice holds the flagged elements of the tile in input order; and for every
division of the mask into consecutive tiles, the slices obtained by giving each tile the
output start plus the number of set flags in all tiles to its left are pairwise disjoint, in
range order, and together cover exactly `[result, result + total)`, `total` being the number
of set flags of the whole mask range. -/
theorem brick_copy_by_mask_slices {α : Type} (x : Nat → α) (mask : Nat → Bool) :
    (∀ (first len maskp result : Nat) (out : Nat → α) (j : Nat),
        j < result ∨ result + (List.range len).countP (fun k => mask (maskp + k)) ≤ j →
        brick_copy_by_mask x first (first + len) out result mask maskp j = out j) ∧
      (∀ (first len maskp result : Nat) (out : Nat → α),
        (List.range ((List.range len).countP (fun k => mask (maskp + k)))).map
            (fun t => brick_copy_by_mask x first (first + len) out result mask maskp (result + t))
          = std.flagged x mask len first maskp) ∧
      (∀ (lens : List Nat) (i result : Nat),
        (tiles result ((tiles i lens).map
            (fun t => (List.range t.2).countP (fun k => mask (t.1 + k))))).Pairwise
          (fun a b => a.1 + a.2 ≤ b.1)) ∧
      (∀ (lens : List Nat) (i result j : Nat),
        (∃ t, t ∈ tiles result ((tiles i lens).map
            (fun t => (List.range t.2).countP (fun k => mask (t.1 + k)))) ∧
          t.1 ≤ j ∧ j < t.1 + t.2) ↔
        (result ≤ j ∧ j < result + (List.range lens.sum).countP (fun k => mask (i + k)))) := by
  refine ⟨?_, ?_, ?_, ?_⟩
  · intro first len maskp result out j hj
    have e : first + len - first = len := by omega
    rw [brick_copy_by_mask, e, brick_copy_by_mask_loop_writeAt]
    apply std.writeAt_frame
    rw [std.flagged_length]
    exact hj
  · intro first len maskp result out
    have e : first + len - first = len := by omega
    simp only [brick_copy_by_mask, e, brick_copy_by_mask_loop_writeAt]
    rw [← std.flagged_length x mask len first maskp]
    exact std.writeAt_readback _ _ _
  · intro lens i result
    exact tiles_pairwise _ _
  · intro lens i result j
    rw [tiles_cover, tiles_flag_sum]

/-- Witness for C25: the tile `[1, 2, 3, 4]` with the mask `[true, false, true, false]`
written from output position `0`: two flags are set, so position `5` keeps its value. -/
theorem brick_copy_by_mask_slices_witness :
    (5 < 0 ∨ 0 + (List.range 4).countP
          (fun k => (fun j => [true, false, true, false].getD j false) (0 + k)) ≤ 5) ∧
      brick_copy_by_mask (fun k => [1, 2, 3, 4].getD k 0) 0 (0 + 4) (fun _ => 9) 0
          (fun j => [true, false, true, false].getD j false) 0 5 = (fun _ => 9) 5 :=
  ⟨by decide,
    (brick_copy_by_mask_slices (fun k => [1, 2, 3, 4].getD k 0)
      (fun j => [true, false, true, false].getD j false)).1 0 4 0 0 (fun _ => 9) 5
      (by decide)⟩

end internal
end pstl

/-! ## What the find bricks return on a subrange -/

namespace std

theorem find_if_loop_spec {α : Type} (x : Nat → α) (pred : α → Bool) :
    ∀ k first,
      first ≤ find_if.loop x pred k first ∧ find_if.loop x pred k first ≤ first + k ∧
        (∀ p, first ≤ p → p < find_if.loop x pred k first → pred (x p) = false) ∧
        (find_if.loop x pred k first < first + k →
          pred (x (find_if.loop x pred k first)) = true) := by
  intro k
  induction k with
  | zero =>
    intro first
    simp only [find_if.loop]
    refine ⟨Nat.le_refl _, Nat.le_refl _, ?_, ?_⟩
    · intro p h1 h2; omega
    · intro h; omega
  | succ k ih =>
    intro first
    rw [find_if.loop]
    by_cases hp : pred (x first) = true
    · rw [if_pos hp]
      refine ⟨Nat.le_refl _, by omega, ?_, fun _ => hp⟩
      intro p h1 h2; omega
    · rw [if_neg hp]
      obtain ⟨i1, i2, i3, i4⟩ := ih (first + 1)
      refine ⟨by omega, by omega, ?_, ?_⟩
      · intro p h1 h2
        by_cases e : p = first
        · subst e; simpa using hp
        · exact i3 p (by omega) h2
      · intro h
        exact i4 (by omega)

end std

namespace pstl
namespace internal

/-- C26 as stated fails: on the one-element subrange `[0,1)` holding `0`, with the predicate
"nonzero", `brick_find_if` returns `1`, and on the equal one-element ranges `[0]` and `[0]`
with the predicate "equal" the brick of `pattern_mismatch` returns `1`; neither value lies in
`[0,1)`. -/
theorem find_bricks_return_end_counterexample :
    brick_find_if (fun _ => (0 : Nat)) 0 1 (fun v => v != 0) = 1 ∧
      ¬ (0 ≤ brick_find_if (fun _ => (0 : Nat)) 0 1 (fun v => v != 0) ∧
          brick_find_if (fun _ => (0 : Nat)) 0 1 (fun v => v != 0) < 1) ∧
      pattern_mismatch.brick (fun _ => (0 : Nat)) (fun _ => (0 : Nat)) 0 0
          (fun a b => a == b) 0 1 = 1 ∧
      ¬ (0 ≤ pattern_mismatch.brick (fun _ => (0 : Nat)) (fun _ => (0 : Nat)) 0 0
            (fun a b => a == b) 0 1 ∧
          pattern_mismatch.brick (fun _ => (0 : Nat)) (fun _ => (0 : Nat)) 0 0
            (fun a b => a == b) 0 1 < 1) := by
  decide

/-- C26 (amended): for every subrange `[i, i + len)` of the input and every predicate, the
brick `pattern_find_if` hands to `parallel_first` returns a value in the closed range
`[i, i + len]`: the position of the first element of the subrange satisfying the predicate,
and the subrange end `i + len` exactly when no element of the subrange satisfies it; likewise
the brick of `pattern_mismatch` (for a subrange starting at or after `first1`) returns the
position of the first pair the predicate rejects, and the subrange end exactly when the
predicate accepts every pair of the subrange. -/
theorem find_bricks_return_in_closed_subrange {α β : Type} (x : Nat → α) (y : Nat → β)
    (first1 first2 : Nat) (p : α → Bool) (pred : α → β → Bool) (i len : Nat)
    (hi : first1 ≤ i) :
    (i ≤ brick_find_if x i (i + len) p ∧ brick_find_if x i (i + len) p ≤ i + len ∧
        (∀ k, i ≤ k → k < brick_find_if x i (i + len) p → p (x k) = false) ∧
        (brick_find_if x i (i + len) p < i + len → p (x (brick_find_if x i (i + len) p)) = true) ∧
        (brick_find_if x i (i + len) p = i + len ↔ ∀ k, k < len → p (x (i + k)) = false)) ∧
      (i ≤ pattern_mismatch.brick x y first1 first2 pred i (i + len) ∧
        pattern_mismatch.brick x y first1 first2 pred i (i + len) ≤ i + len ∧
        (∀ k, i ≤ k → k < pattern_mismatch.brick x y first1 first2 pred i (i + len) →
          pred (x k) (y (first2 + (k - first1))) = true) ∧
        (pattern_mismatch.brick x y first1 first2 pred i (i + len) < i + len →
          pred (x (pattern_mismatch.brick x y first1 first2 pred i (i + len)))
            (y (first2 + (pattern_mismatch.brick x y first1 first2 pred i (i + len) - first1)))
              = false) ∧
        (pattern_mismatch.brick x y first1 first2 pred i (i + len) = i + len ↔
          ∀ k, k < len → pred (x (i + k)) (y (first2 + (i - first1) + k)) = true)) := by
  constructor
  · have e : i + len - i = len := by omega
    simp only [brick_find_if, std.find_if, e]
    obtain ⟨h1, h2, h3, h4⟩ := std.find_if_loop_spec x p len i
    refine ⟨h1, h2, h3, h4, ?_⟩
    constructor
    · intro h k hk
      exact h3 (i + k) (by omega) (by omega)
    · intro h
      by_contra hne
      have hlt : std.find_if.loop x p len i < i + len := by omega
      have ht := h4 hlt
      have hf := h (std.find_if.loop x p len i - i) (by omega)
      have e2 : i + (std.find_if.loop x p len i - i) = std.find_if.loop x p len i := by omega
      rw [e2, ht] at hf
      exact Bool.noConfusion hf
  · rw [mismatch_brick_eq x y first1 first2 pred i len hi]
    have hle := std.matchLen_le x y pred len i (first2 + (i - first1))
    obtain ⟨s1, s2⟩ := std.matchLen_spec x y pred len i (first2 + (i - first1))
    refine ⟨by omega, by omega, ?_, ?_, ?_⟩
    · intro k h1 h2
      have := s1 (k - i) (by omega)
      have e1 : i + (k - i) = k := by omega
      have e2 : first2 + (i - first1) + (k - i) = first2 + (k - first1) := by omega
      rw [e1, e2] at this
      exact this
    · intro h
      have := s2 (by omega)
      have e2 : first2 + (i + std.matchLen x y pred len i (first2 + (i - first1)) - first1) =
          first2 + (i - first1) + std.matchLen x y pred len i (first2 + (i - first1)) := by
        omega
      rw [e2]
      exact this
    · constructor
      · intro h k hk
        exact s1 k (by omega)
      · intro h
        by_contra hne
        have hlt : std.matchLen x y pred len i (first2 + (i - first1)) < len := by omega
        have hf := s2 hlt
        have ht := h _ hlt
        rw [ht] at hf
        exact Bool.noConfusion hf

/-- Witness for C26 (amended): the subrange `[1,3)` of the ranges `[1,2,3,4]` and `[1,2,9,4]`
(both starting at position `0`), with the predicates "equals 3" and "equal": both bricks
return position `2`, inside the subrange. -/
theorem find_bricks_return_in_closed_subrange_witness :
    0 ≤ 1 ∧
      brick_find_if (fun k => [1, 2, 3, 4].getD k 0) 1 (1 + 2) (fun v => v == 3) = 2 ∧
      pattern_mismatch.brick (fun k => [1, 2, 3, 4].getD k 0) (fun k => [1, 2, 9, 4].getD k 0)
        0 0 (fun a b => a == b) 1 (1 + 2) ≤ 1 + 2 :=
  ⟨by decide, by decide,
    (find_bricks_return_in_closed_subrange (fun k => [1, 2, 3, 4].getD k 0)
      (fun k => [1, 2, 9, 4].getD k 0) 0 0 (fun v => v == 3) (fun a b => a == b) 1 2
      (by decide)).2.2.1⟩

end internal
end pstl

/-! ## `split` -/

namespace pstl
namespace par_backend

theorem split_loop_spec (m : Nat) :
    ∀ fuel k, 1 ≤ k → m ≤ 2 * k + fuel →
      m ≤ 2 * split.loop m fuel k ∧ (k < m → split.loop m fuel k < m) ∧
        ∃ j, split.loop m fuel k = k * 2 ^ j := by
  intro fuel
  induction fuel with
  | zero =>
    intro k _ hm
    simp only [split.loop]
    exact ⟨by omega, fun h => h, 0, by simp⟩
  | succ fuel ih =>
    intro k hk hm
    rw [split.loop]
    by_cases h : 2 * k < m
    · rw [if_pos h]
      obtain ⟨i1, i2, j, i3⟩ := ih (k * 2) (by omega) (by omega)
      refine ⟨i1, fun _ => i2 (by omega), j + 1, ?_⟩
      rw [i3, pow_succ]
      ring
    · rw [if_neg h]
      exact ⟨by omega, fun h => h, 0, by simp⟩

theorem split_loop_stable (m : Nat) :
    ∀ fuel k, 1 ≤ k → m ≤ 2 * k + fuel → split.loop m (fuel + 1) k = split.loop m fuel k := by
  intro fuel
  induction fuel with
  | zero =>
    intro k _ hm
    have h : ¬ 2 * k < m := by omega
    simp [split.loop, h]
  | succ fuel ih =>
    intro k hk hm
    rw [split.loop, split.loop.eq_def m (fuel + 1) k]
    by_cases h : 2 * k < m
    · simp only [if_pos h]
      exact ih (k * 2) (by omega) (by omega)
    · simp only [if_neg h]

theorem split_loop_fuel (m : Nat) :
    ∀ d fuel k, 1 ≤ k → m ≤ 2 * k + fuel → split.loop m (fuel + d) k = split.loop m fuel k := by
  intro d
  induction d with
  | zero => intro fuel k _ _; rfl
  | succ d ih =>
    intro fuel k hk hm
    have e : fuel + (d + 1) = (fuel + d) + 1 := by omega
    rw [e, split_loop_stable m (fuel + d) k hk (by omega), ih fuel k hk hm]

theorem split_small (m : Nat) (h : m ≤ 2) : split m = 1 := by
  unfold split
  cases m with
  | zero => rfl
  | succ n =>
    rw [split.loop]
    have h2 : ¬ 2 * 1 < n + 1 := by omega
    rw [if_neg h2]

theorem split_pow (m : Nat) :
    m ≤ 2 * split m ∧ (1 < m → split m < m) ∧ ∃ j, split m = 2 ^ j := by
  obtain ⟨i1, i2, j, i3⟩ := split_loop_spec m m 1 (Nat.le_refl 1) (by omega)
  exact ⟨i1, i2, j, by rw [split, i3, Nat.one_mul]⟩

theorem split_eq_half_iff (m : Nat) (hm : 1 < m) : m = 2 * split m ↔ ∃ a, m = 2 ^ a := by
  obtain ⟨i1, i2, j, i3⟩ := split_pow m
  constructor
  · intro h
    exact ⟨j + 1, by rw [h, i3, pow_succ]; ring⟩
  · rintro ⟨a, ha⟩
    have hlt := i2 hm
    rw [i3] at hlt i1 ⊢
    rw [ha] at hlt i1 ⊢
    have h1 : j < a := (Nat.pow_lt_pow_iff_right (by decide : 1 < 2)).mp hlt
    have h2 : a ≤ j + 1 := by
      have : 2 ^ a ≤ 2 ^ (j + 1) := by rw [pow_succ]; omega
      exact (Nat.pow_le_pow_iff_right (by decide : 1 < 2)).mp this
    have e : a = j + 1 := by omega
    rw [e, pow_succ]
    ring

/-- C29: over the unbounded integers, for every `m ≥ 2` the value `split m` is a power of two
`k` with `k < m ≤ 2*k`, and it is the largest power of two strictly less than `m`; for every
`m ≤ 2` the value is `1`. -/
theorem split_largest_power_of_two_below (m : Nat) :
    (2 ≤ m →
        (∃ j, split m = 2 ^ j) ∧ split m < m ∧ m ≤ 2 * split m ∧
          ∀ j, 2 ^ j < m → 2 ^ j ≤ split m) ∧
      (m ≤ 2 → split m = 1) := by
  refine ⟨?_, split_small m⟩
  intro hm
  obtain ⟨i1, i2, a, i3⟩ := split_pow m
  refine ⟨⟨a, i3⟩, i2 (by omega), i1, ?_⟩
  intro j hj
  rw [i3] at i1 ⊢
  have h1 : 2 ^ j < 2 ^ (a + 1) := by rw [pow_succ]; omega
  have h2 : j < a + 1 := (Nat.pow_lt_pow_iff_right (by decide : 1 < 2)).mp h1
  exact Nat.pow_le_pow_right (by decide) (by omega)

/-- Witness for C29: `m = 2`, where both cases apply and `split 2 = 1 = 2 ^ 0`. -/
theorem split_largest_power_of_two_below_witness :
    2 ≤ 2 ∧ split 2 = 1 ∧ split 2 < 2 ∧ 2 ≤ 2 * split 2 :=
  ⟨by decide, (split_largest_power_of_two_below 2).2 (by decide),
    ((split_largest_power_of_two_below 2).1 (by decide)).2.1,
    ((split_largest_power_of_two_below 2).1 (by decide)).2.2.1⟩

end par_backend
end pstl

/-! ## `upsweep` -/

namespace pstl
namespace par_backend

/-- C27: `upsweep(i, m, tilesize, r, lastsize, reduce, combine)` changes at most one entry of
`r`: for `m = 1` it stores `reduce(i*tilesize, lastsize)` in `r[0]`; for `m > 1` with
`m = 2*split(m)`, which holds exactly when `m` is a power of two, it stores
`combine(r[split(m)-1], r[m-1])`, left operand first, in `r[m-1]` and does not call `reduce`;
for every other `m` it leaves `r` and the state unchanged; in all cases every entry other than
the one named keeps its value. -/
theorem upsweep_changes_one_entry {T σ : Type} (i m tilesize : Nat) (r : Nat → T)
    (lastsize : Nat) (reduce : Nat → Nat → σ → T × σ) (combine : T → T → T) (s : σ) :
    (m = 1 →
        upsweep i m tilesize r lastsize reduce combine s =
          (Function.update r 0 (reduce (i * tilesize) lastsize s).1,
            (reduce (i * tilesize) lastsize s).2)) ∧
      (1 < m → m = 2 * split m →
        upsweep i m tilesize r lastsize reduce combine s =
          (Function.update r (m - 1) (combine (r (split m - 1)) (r (m - 1))), s)) ∧
      (m ≠ 1 → m ≠ 2 * split m →
        upsweep i m tilesize r lastsize reduce combine s = (r, s)) ∧
      (∀ j, j ≠ (if m = 1 then 0 else m - 1) →
        (upsweep i m tilesize r lastsize reduce combine s).1 j = r j) ∧
      (1 < m → (m = 2 * split m ↔ ∃ a, m = 2 ^ a)) := by
  refine ⟨?_, ?_, ?_, ?_, split_eq_half_iff m⟩
  · intro h
    simp [upsweep, h]
  · intro h1 h2
    have h3 : m ≠ 1 := by omega
    simp only [upsweep, if_neg h3, if_pos h2]
  · intro h1 h2
    simp only [upsweep, if_neg h1, if_neg h2]
  · intro j hj
    by_cases h1 : m = 1
    · rw [if_pos h1] at hj
      simp only [upsweep, if_pos h1]
      exact Function.update_noteq hj _ _
    · rw [if_neg h1] at hj
      simp only [upsweep, if_neg h1]
      by_cases h2 : m = 2 * split m
      · simp only [if_pos h2]
        exact Function.update_noteq hj _ _
      · simp only [if_neg h2]

/-- Witness for C27: `m = 4 = 2 * split 4` over the partial sums `r = [1, 2, 3, 4]` with
addition as `combine`: entry `3` becomes `r[1] + r[3] = 6`. -/
theorem upsweep_changes_one_entry_witness :
    1 < 4 ∧ 4 = 2 * split 4 ∧
      (upsweep 0 4 1 (fun k => [1, 2, 3, 4].getD k 0) 1 (fun _ _ (s : Unit) => (0, s))
          (fun a b => a + b) ()).1 3 = 6 :=
  ⟨by decide, by decide, by
    have h := (upsweep_changes_one_entry 0 4 1 (fun k => [1, 2, 3, 4].getD k 0) 1
      (fun _ _ (s : Unit) => (0, s)) (fun a b => a + b) ()).2.1 (by decide) (by decide)
    rw [h]
    decide⟩

end par_backend
end pstl

/-! ## Degenerate ranges of the parallel reductions -/

namespace pstl
namespace internal

/-- C28: on degenerate ranges the parallel overloads of the reductions answer before the call
of `par_backend::parallel_reduce`, whatever value that call would hand back, and agree with
the serial overload: on an empty range `pattern_min_element` returns `last` (which is `first`)
and `pattern_minmax_element` returns `(first, first)`; on a range of `n < 2` elements
`pattern_adjacent_find` returns `last`.  On every longer range the parallel overloads return
what the backend call hands back. -/
theorem degenerate_reductions_skip_backend {α : Type} (x : Nat → α) (comp pred : α → α → Bool)
    (first n : Nat) (or_semantic : Bool) (u : Nat) (v : Nat × Nat) (hn : n < 2) :
    pattern_min_element x first first comp true u = first ∧
      pattern_min_element x first first comp false u = first ∧
      pattern_minmax_element x first first comp true v = (first, first) ∧
      pattern_minmax_element x first first comp false v = (first, first) ∧
      pattern_adjacent_find x first (first + n) pred true or_semantic u = first + n ∧
      pattern_adjacent_find x first (first + n) pred false or_semantic u = first + n ∧
      (∀ k, pattern_min_element x first (first + (k + 1)) comp true u = u) ∧
      (∀ k, pattern_minmax_element x first (first + (k + 1)) comp true v = v) ∧
      (∀ k, pattern_adjacent_find x first (first + (k + 2)) pred true or_semantic u = u) := by
  refine ⟨?_, ?_, ?_, ?_, ?_, ?_, ?_, ?_, ?_⟩
  · simp [pattern_min_element]
  · simp [pattern_min_element, brick_min_element, std.min_element]
  · simp [pattern_minmax_element]
  · simp [pattern_minmax_element, brick_minmax_element, std.minmax_element]
  · have h : first + n - first < 2 := by omega
    unfold pattern_adjacent_find
    rw [if_pos rfl, if_pos h]
  · have hc : n = 0 ∨ n = 1 := by omega
    rcases hc with h | h
    · subst h
      simp [pattern_adjacent_find, brick_adjacent_find, std.adjacent_find]
    · subst h
      simp [pattern_adjacent_find, brick_adjacent_find, std.adjacent_find,
        std.adjacent_find.loop]
  · intro k
    have h : ¬ first = first + (k + 1) := by omega
    simp [pattern_min_element, h, except_handler, par_backend.parallel_reduce]
  · intro k
    have h : ¬ first = first + (k + 1) := by omega
    simp [pattern_minmax_element, h, except_handler, par_backend.parallel_reduce]
  · intro k
    have h : ¬ first + (k + 2) - first < 2 := by omega
    unfold pattern_adjacent_find
    rw [if_pos rfl, if_neg h]
    rfl

/-- Witness for C28: the one-element range `[7]` starting at position `0` (`n = 1`) and the
empty range at position `0`, with `<` and `==`, and `99` standing for the backend's value. -/
theorem degenerate_reductions_skip_backend_witness :
    1 < 2 ∧
      pattern_min_element (fun _ => (7 : Nat)) 0 0 (fun a b => a < b) true 99 = 0 ∧
      pattern_minmax_element (fun _ => (7 : Nat)) 0 0 (fun a b => a < b) true (99, 99) = (0, 0) ∧
      pattern_adjacent_find (fun _ => (7 : Nat)) 0 (0 + 1) (fun a b => a == b) true false 99
        = 0 + 1 :=
  ⟨by decide,
    (degenerate_reductions_skip_backend (fun _ => (7 : Nat)) (fun a b => a < b)
      (fun a b => a == b) 0 1 false 99 (99, 99) (by decide)).1,
    (degenerate_reductions_skip_backend (fun _ => (7 : Nat)) (fun a b => a < b)
      (fun a b => a == b) 0 1 false 99 (99, 99) (by decide)).2.2.1,
    (degenerate_reductions_skip_backend (fun _ => (7 : Nat)) (fun a b => a < b)
      (fun a b => a == b) 0 1 false 99 (99, 99) (by decide)).2.2.2.2.1⟩

end internal
end pstl

/-! ## Termination of `split` -/

namespace pstl
namespace par_backend

theorem split_on_eq (wrap_product wrap_store : Nat → Nat) (B C m : Nat)
    (hp : ∀ j, j < B → wrap_product j = j) (hs : ∀ j, j < C → wrap_store j = j)
    (hm : 2 * m ≤ B) (hc : m ≤ C) :
    ∀ f k b, 1 ≤ k → m ≤ 2 * k + f → 2 * k < B →
      split_on wrap_product wrap_store m (f + 1) k b = some (split.loop m f k, b) := by
  intro f
  induction f with
  | zero =>
    intro k b _ h2 h3
    have h : ¬ 2 * k < m := by omega
    simp [split_on, split.loop, hp (2 * k) h3, h]
  | succ f ih =>
    intro k b h1 h2 h3
    have e : k * 2 = 2 * k := by omega
    rw [split_on, split.loop, hp (2 * k) h3]
    by_cases h : 2 * k < m
    · rw [if_pos h, if_pos h, hs (k * 2) (by omega)]
      rw [ih (k * 2) _ (by omega) (by omega) (by omega)]
      simp
    · rw [if_neg h, if_neg h]
      simp

theorem split_on_enough_fuel (wrap_product wrap_store : Nat → Nat) (B C m fuel : Nat)
    (hp : ∀ j, j < B → wrap_product j = j) (hs : ∀ j, j < C → wrap_store j = j)
    (hm : 2 * m ≤ B) (hc : m ≤ C) (hB : 2 < B) (hf : m < fuel) :
    split_on wrap_product wrap_store m fuel 1 false = some (split m, false) := by
  obtain ⟨d, rfl⟩ : ∃ d, fuel = (m + d) + 1 := ⟨fuel - m - 1, by omega⟩
  rw [split_on_eq wrap_product wrap_store B C m hp hs hm hc (m + d) 1 false (Nat.le_refl 1)
      (by omega) (by omega),
    split_loop_fuel m d m 1 (Nat.le_refl 1) (by omega)]
  rfl

theorem split_on_wraps_forever (w : Nat) (hw : 1 ≤ w) :
    ∀ fuel k b, (k = 0 ∨ ∃ j, j ≤ w - 1 ∧ k = 2 ^ j) →
      split_on (fun v => v % 2 ^ w) (fun v => v % 2 ^ w) (2 ^ (w - 1) + 1) fuel k b = none := by
  have hpow : 2 ^ w = 2 * 2 ^ (w - 1) := by
    have e : w = (w - 1) + 1 := by omega
    rw [e, pow_succ]
    simp
    ring
  intro fuel
  induction fuel with
  | zero => intro k b _; rfl
  | succ fuel ih =>
    intro k b hk
    rw [split_on]
    rcases hk with h0 | ⟨j, hj, hk⟩
    · subst h0
      have hc : (fun v => v % 2 ^ w) (2 * 0) < 2 ^ (w - 1) + 1 := by simp
      rw [if_pos hc]
      exact ih _ _ (Or.inl (by simp))
    · by_cases hlast : j = w - 1
      · have e2 : 2 * k = 2 ^ w := by rw [hk, hlast, hpow]
        have hc : (fun v => v % 2 ^ w) (2 * k) < 2 ^ (w - 1) + 1 := by
          simp only [e2, Nat.mod_self]
          omega
        rw [if_pos hc]
        apply ih
        left
        have e3 : k * 2 = 2 ^ w := by omega
        simp only [e3, Nat.mod_self]
      · have hlt : j + 1 ≤ w - 1 := by omega
        have hle : 2 ^ (j + 1) ≤ 2 ^ (w - 1) := Nat.pow_le_pow_right (by decide) hlt
        have hpos : 0 < 2 ^ (w - 1) := Nat.two_pow_pos (w - 1)
        have e2 : 2 * k = 2 ^ (j + 1) := by rw [hk, pow_succ]; ring
        have hm : 2 ^ (j + 1) % 2 ^ w = 2 ^ (j + 1) := Nat.mod_eq_of_lt (by omega)
        have hc : (fun v => v % 2 ^ w) (2 * k) < 2 ^ (w - 1) + 1 := by
          simp only [e2, hm]
          omega
        rw [if_pos hc]
        apply ih
        right
        refine ⟨j + 1, hlt, ?_⟩
        have e3 : k * 2 = 2 ^ (j + 1) := by omega
        simp only [e3, hm]

/-- C30: with at least `m + 1` evaluations of the loop condition allowed, `split(m)` over an
unbounded `Index` returns, for every `m`, the value `split m` (so the loop terminates); over
a `w`-bit unsigned `Index` with wrap-around arithmetic, `w ≥ 2`, it returns the same value,
with no product `2*k` changed by the wrap-around, for every `m ≤ 2^(w-1)`, whether the product
is computed in `Index` itself or, for an `Index` narrower than `int`, in `int`.  When the
product is computed in the `w`-bit type the bound is sharp: for `m = 2^(w-1) + 1` the product
wraps and the loop never ends; when it is computed in `int`, the loop returns `split m` for
every `m ≤ 2^w`. -/
theorem split_terminates_without_wrap (m fuel : Nat) (hf : m < fuel) :
    split_on (fun v => v) (fun v => v) m fuel 1 false = some (split m, false) ∧
      (∀ w, 2 ≤ w → m ≤ 2 ^ (w - 1) →
        split_on (fun v => v % 2 ^ w) (fun v => v % 2 ^ w) m fuel 1 false =
          some (split m, false)) ∧
      (∀ w, 2 ≤ w → m ≤ 2 ^ (w - 1) →
        split_on (fun v => v) (fun v => v % 2 ^ w) m fuel 1 false = some (split m, false)) ∧
      (∀ w n, 1 ≤ w →
        split_on (fun v => v % 2 ^ w) (fun v => v % 2 ^ w) (2 ^ (w - 1) + 1) n 1 false = none) ∧
      (∀ w, m ≤ 2 ^ w →
        split_on (fun v => v) (fun v => v % 2 ^ w) m fuel 1 false = some (split m, false)) := by
  have hpow : ∀ w, 2 ≤ w → 2 ^ w = 2 * 2 ^ (w - 1) := by
    intro w hw
    have e : w = (w - 1) + 1 := by omega
    rw [e, pow_succ]
    simp
    ring
  have hnarrow : ∀ w, m ≤ 2 ^ w →
      split_on (fun v => v) (fun v => v % 2 ^ w) m fuel 1 false = some (split m, false) := by
    intro w hm
    exact split_on_enough_fuel (fun v => v) (fun v => v % 2 ^ w) (2 * m + 3) (2 ^ w) m fuel
      (fun _ _ => rfl) (fun j hj => Nat.mod_eq_of_lt hj) (by omega) hm (by omega) hf
  refine ⟨?_, ?_, ?_, ?_, hnarrow⟩
  · exact split_on_enough_fuel (fun v => v) (fun v => v) (2 * m + 3) m m fuel
      (fun _ _ => rfl) (fun _ _ => rfl) (by omega) (Nat.le_refl _) (by omega) hf
  · intro w hw hm
    have h4 : 2 ^ 2 ≤ 2 ^ w := Nat.pow_le_pow_right (by decide) hw
    have h5 := hpow w hw
    exact split_on_enough_fuel (fun v => v % 2 ^ w) (fun v => v % 2 ^ w) (2 ^ w) (2 ^ w) m fuel
      (fun j hj => Nat.mod_eq_of_lt hj) (fun j hj => Nat.mod_eq_of_lt hj) (by omega) (by omega)
      (by omega) hf
  · intro w hw hm
    have h5 := hpow w hw
    exact hnarrow w (by omega)
  · intro w n hw
    exact split_on_wraps_forever w hw n 1 false (Or.inr ⟨0, by omega, by simp⟩)

/-- Witness for C30: `m = 5` with `6` evaluations allowed and an `Index` of `4` bits
(`5 ≤ 2^3`): both loops return `4`, and no product wraps. -/
theorem split_terminates_without_wrap_witness :
    5 < 6 ∧ split_on (fun v => v) (fun v => v) 5 6 1 false = some (4, false) ∧
      split_on (fun v => v % 2 ^ 4) (fun v => v % 2 ^ 4) 5 6 1 false = some (4, false) :=
  ⟨by decide,
    (split_terminates_without_wrap 5 6 (by decide)).1,
    (split_terminates_without_wrap 5 6 (by decide)).2.1 4 (by decide) (by decide)⟩

end par_backend
end pstl
